import Mathlib

/-!
# rombp: applying a BPS patch (`src/bps.c`)

A shallow embedding of the BPS decoder of rombp.  The three `FILE*` streams
(patch, source, target) are in-memory byte lists with a position and a sticky
error indicator; the session record `bps_file_header` and the streams are
threaded through every function as an explicit `State`.

Machine integers are natural numbers and integers with explicit reduction
modulo `2 ^ 64`.  The data model is LP64: `long`, `size_t`, `uint64_t` and
`int64_t` are all 64 bits wide.

The environment enters in one place: the largest file offset the file system
accepts, which decides whether the relative seek over the metadata in
`bps_start` succeeds.  It is an explicit argument of `fseek_cur` and of
`bps_start`.
-/

namespace Rombp

/-! ## C integer conversions -/

/-- Value of an integer after conversion to `uint64_t`. -/
def toU64 (i : Int) : Nat := (i % 2 ^ 64).toNat

/-- Value of an unsigned quantity after conversion to `long` / `int64_t`
(two's complement). -/
def toS64 (n : Nat) : Int :=
  if n % 2 ^ 64 < 2 ^ 63 then ((n % 2 ^ 64 : Nat) : Int)
  else ((n % 2 ^ 64 : Nat) : Int) - 2 ^ 64

/-! ## stdio streams -/

/-- A `FILE*` on a regular file: its content, the file position and the sticky
error indicator reported by `ferror`.  Device failures are not modelled: no
operation below sets the indicator, but a stream may enter with it set. -/
structure FILE where
  bytes : List Nat
  pos : Nat
  err : Bool
  deriving DecidableEq

/-- Content of a file after one byte `b` is written at offset `p`; writing past
the end fills the gap with zero bytes. -/
def write_at (bs : List Nat) (p : Nat) (b : Nat) : List Nat :=
  if p < bs.length then bs.set p b
  else bs ++ List.replicate (p - bs.length) 0 ++ [b]

/-- The call `fseek(f, off, SEEK_SET)`; `none` is the return value `-1`, which a
negative offset produces.  An absolute offset is taken to be one the file system
accepts whenever it is in the range of a `long`; the limit of the file system
is modelled for the relative seek only (`fseek_cur`). -/
def fseek_set (f : FILE) (off : Int) : Option FILE :=
  if off < 0 then none else some { f with pos := off.toNat }

/-- The call `fseek(f, off, SEEK_CUR)`.  The first argument is the largest file
offset the file system holding the stream accepts (`2 ^ 63 - 1` where there is
no smaller limit, about `2 ^ 44` on ext4); it belongs to the environment, not to
the program.  The call fails (`none`, the return value `-1`) when the resulting
position is negative, above that limit, or not representable as a `long`. -/
def fseek_cur (max_offset : Nat) (f : FILE) (off : Int) : Option FILE :=
  if (f.pos : Int) + off < 0 ∨ (max_offset : Int) < (f.pos : Int) + off
      ∨ 2 ^ 63 ≤ (f.pos : Int) + off then none
  else some { f with pos := ((f.pos : Int) + off).toNat }

/-- The call `fseek(f, 0, SEEK_END)`. -/
def fseek_end (f : FILE) : Option FILE :=
  some { f with pos := f.bytes.length }

/-- The call `ftell(f)`; `-1` when the position does not fit a `long`. -/
def ftell (f : FILE) : Int :=
  if f.pos < 2 ^ 63 then (f.pos : Int) else -1

/-- The call `fread(&b, 1, 1, f)`: `some b` when one byte was read (`nread = 1`),
`none` at end of file (`nread = 0`, position unchanged). -/
def fread1 (f : FILE) : Option Nat × FILE :=
  match f.bytes[f.pos]? with
  | some b => (some b, { f with pos := f.pos + 1 })
  | none => (none, f)

/-- The call `fwrite(&b, 1, 1, f)`; always writes the byte (`nwritten = 1`). -/
def fwrite1 (f : FILE) (b : Nat) : FILE :=
  { f with bytes := write_at f.bytes f.pos b, pos := f.pos + 1 }

/-! ## Session record and status codes -/

/-- Modelled from the spec: the record `bps_file_header` is declared in `bps.h`,
which is not among the sources.  The fields are the ones `bps.c` uses; their
signedness follows the spec's PatchSession (`patch_total_length: integer`,
sizes and `output_cursor` unsigned, the two copy cursors signed). -/
structure bps_file_header where
  source_size : Nat
  target_size : Nat
  metadata_size : Nat
  patch_size : Int
  output_offset : Nat
  source_relative_offset : Int
  target_relative_offset : Int
  deriving DecidableEq

/-- Modelled from the spec: the status enumeration `rombp_hunk_iter_status` is
declared in a header that is not among the sources; these are the three values
`bps.c` returns (the spec's Continue, Done and IOError). -/
inductive rombp_hunk_iter_status where
  | HUNK_NEXT
  | HUNK_DONE
  | HUNK_ERR_IO
  deriving DecidableEq

/-- Modelled from the spec: the enumeration `rombp_patch_err` is declared in a
header that is not among the sources; these are the two values `bps_start`
returns and the spec's FormatError of the marker check. -/
inductive rombp_patch_err where
  | PATCH_OK
  | PATCH_ERR_IO
  | PATCH_ERR_FORMAT
  deriving DecidableEq

open rombp_hunk_iter_status rombp_patch_err

/-- Everything a call of `bps_next` can touch: the session record behind
`file_header` and the three streams. -/
structure State where
  hdr : bps_file_header
  input_file : FILE
  output_file : FILE
  bps_file : FILE
  deriving DecidableEq

/-! ## Constants -/

/-- The marker bytes `BPS1`. -/
def BPS_EXPECTED_MARKER : List Nat := [0x42, 0x50, 0x53, 0x31]

/-- Number of bytes of `BPS_EXPECTED_MARKER`. -/
def BPS_MARKER_SIZE : Nat := BPS_EXPECTED_MARKER.length

/-- Length of the trailing checksum block. -/
def FOOTER_LENGTH : Nat := 12

/-! ## `decode_varint` -/

/-- The `while (1)` loop of `decode_varint` over the bytes that remain in the
stream; the last argument counts the bytes consumed.  `data` and `shift` are
`uint64_t`. -/
def decode_varint_loop : List Nat → Nat → Nat → Nat → Option Nat × Nat
  | [], _, _, k => (none, k)
  | ch :: rest, data, shift, k =>
    let data1 := (data + (ch &&& 0x7F) * shift) % 2 ^ 64
    if ch &&& 0x80 ≠ 0 then (some data1, k + 1)
    else
      let shift1 := (shift <<< 7) % 2 ^ 64
      decode_varint_loop rest ((data1 + shift1) % 2 ^ 64) shift1 (k + 1)

/-- The function `decode_varint`: `none` is the return value `-1` (end of file
before a byte with the high bit set). -/
def decode_varint (f : FILE) : Option Nat × FILE :=
  let r := decode_varint_loop (f.bytes.drop f.pos) 0 1 0
  (r.1, { f with pos := f.pos + r.2 })

/-- The statement `cursor += (data & 1 ? -1 : 1) * (data >> 1)` on an `int64_t`
cursor: the `int` factor is converted to `uint64_t`, product and sum are taken
modulo `2 ^ 64`, and the sum is stored back as a signed value. -/
def relative_offset_add (cursor : Int) (data : Nat) : Int :=
  toS64 ((toU64 cursor
    + (toU64 (if data &&& 1 ≠ 0 then -1 else 1) * (data >>> 1)) % 2 ^ 64) % 2 ^ 64)

/-- The statement `cursor++` on an `int64_t` cursor. -/
def relative_offset_incr (cursor : Int) : Int :=
  toS64 (toU64 (cursor + 1))

/-! ## `bps_start` -/

/-- The function `bps_start`.  The first argument is the environment's largest
file offset, which only the `SEEK_CUR` call over the metadata consults (see
`fseek_cur`). -/
def bps_start (max_offset : Nat) (bps_file : FILE) (file_header : bps_file_header) :
    rombp_patch_err × FILE × bps_file_header :=
  match fseek_end bps_file with
  | none => ( PATCH_ERR_IO, bps_file, file_header)
  | some f0 =>
    let h0 := { file_header with patch_size := ftell f0 }
    if h0.patch_size = -1 then ( PATCH_ERR_IO, f0, h0)
    else
      match fseek_set f0 (BPS_MARKER_SIZE : Int) with
      | none => ( PATCH_ERR_IO, f0, h0)
      | some f1 =>
        let r1 := decode_varint f1
        match r1.1 with
        | none => ( PATCH_ERR_IO, r1.2, h0)
        | some source_size =>
          let h1 := { h0 with source_size := source_size }
          let r2 := decode_varint r1.2
          match r2.1 with
          | none => ( PATCH_ERR_IO, r2.2, h1)
          | some target_size =>
            let h2 := { h1 with target_size := target_size }
            let r3 := decode_varint r2.2
            match r3.1 with
            | none => ( PATCH_ERR_IO, r3.2, h2)
            | some metadata_size =>
              let h3 := { h2 with metadata_size := metadata_size }
              let done (f : FILE) : rombp_patch_err × FILE × bps_file_header :=
                (PATCH_OK, f,
                  { h3 with output_offset := 0, source_relative_offset := 0,
                            target_relative_offset := 0 })
              if metadata_size > 0 then
                match fseek_cur max_offset r3.2 (toS64 metadata_size) with
                | none => ( PATCH_ERR_IO, r3.2, h3)
                | some f2 => done f2
              else done r3.2

/-! ## The four command executors

Each `for (uint64_t i = 0; i < length; i++)` loop is a recursion on the number
of iterations that remain; the second numeric argument is `i`.  The local
`uint8_t byte` is uninitialised, so when `fread` stores nothing (end of file
without the error indicator) the byte written is indeterminate: `junk i`. -/

/-- The loop of `bps_source_read`. -/
def bps_source_read_loop (junk : Nat → Nat) :
    Nat → Nat → State → rombp_hunk_iter_status × State
  | 0, _, st => (HUNK_NEXT, st)
  | n + 1, i, st =>
    let r := fread1 st.input_file
    if r.1.isNone && r.2.err then ( HUNK_ERR_IO, { st with input_file := r.2 })
    else
      bps_source_read_loop junk n (i + 1)
        { st with
          hdr := { st.hdr with output_offset := (st.hdr.output_offset + 1) % 2 ^ 64 }
          input_file := r.2
          output_file := fwrite1 st.output_file (r.1.getD (junk i)) }

/-- The function `bps_source_read`. -/
def bps_source_read (junk : Nat → Nat) (length : Nat) (st : State) :
    rombp_hunk_iter_status × State :=
  match fseek_set st.input_file (toS64 st.hdr.output_offset) with
  | none => ( HUNK_ERR_IO, st)
  | some fin =>
    match fseek_set st.output_file (toS64 st.hdr.output_offset) with
    | none => ( HUNK_ERR_IO, { st with input_file := fin })
    | some fout =>
      bps_source_read_loop junk length 0 { st with input_file := fin, output_file := fout }

/-- The loop of `bps_target_read`. -/
def bps_target_read_loop (junk : Nat → Nat) :
    Nat → Nat → State → rombp_hunk_iter_status × State
  | 0, _, st => (HUNK_NEXT, st)
  | n + 1, i, st =>
    let r := fread1 st.bps_file
    if r.1.isNone && r.2.err then ( HUNK_ERR_IO, { st with bps_file := r.2 })
    else
      bps_target_read_loop junk n (i + 1)
        { st with
          hdr := { st.hdr with output_offset := (st.hdr.output_offset + 1) % 2 ^ 64 }
          bps_file := r.2
          output_file := fwrite1 st.output_file (r.1.getD (junk i)) }

/-- The function `bps_target_read`. -/
def bps_target_read (junk : Nat → Nat) (length : Nat) (st : State) :
    rombp_hunk_iter_status × State :=
  match fseek_set st.output_file (toS64 st.hdr.output_offset) with
  | none => ( HUNK_ERR_IO, st)
  | some fout => bps_target_read_loop junk length 0 { st with output_file := fout }

/-- The loop of `bps_source_copy`. -/
def bps_source_copy_loop (junk : Nat → Nat) :
    Nat → Nat → State → rombp_hunk_iter_status × State
  | 0, _, st => (HUNK_NEXT, st)
  | n + 1, i, st =>
    let r := fread1 st.input_file
    if r.1.isNone && r.2.err then ( HUNK_ERR_IO, { st with input_file := r.2 })
    else
      bps_source_copy_loop junk n (i + 1)
        { st with
          hdr := { st.hdr with
            output_offset := (st.hdr.output_offset + 1) % 2 ^ 64
            source_relative_offset := relative_offset_incr st.hdr.source_relative_offset }
          input_file := r.2
          output_file := fwrite1 st.output_file (r.1.getD (junk i)) }

/-- The function `bps_source_copy`. -/
def bps_source_copy (junk : Nat → Nat) (length : Nat) (st : State) :
    rombp_hunk_iter_status × State :=
  let r := decode_varint st.bps_file
  match r.1 with
  | none => ( HUNK_ERR_IO, { st with bps_file := r.2 })
  | some data =>
    let st1 : State :=
      { st with
        hdr := { st.hdr with
          source_relative_offset := relative_offset_add st.hdr.source_relative_offset data }
        bps_file := r.2 }
    match fseek_set st1.output_file (toS64 st1.hdr.output_offset) with
    | none => ( HUNK_ERR_IO, st1)
    | some fout =>
      match fseek_set st1.input_file st1.hdr.source_relative_offset with
      | none => ( HUNK_ERR_IO, { st1 with output_file := fout })
      | some fin =>
        bps_source_copy_loop junk length 0 { st1 with input_file := fin, output_file := fout }

/-- The loop of `bps_target_copy`: every iteration seeks, reads one byte of the
target, seeks again and writes it. -/
def bps_target_copy_loop (junk : Nat → Nat) :
    Nat → Nat → State → rombp_hunk_iter_status × State
  | 0, _, st => (HUNK_NEXT, st)
  | n + 1, i, st =>
    match fseek_set st.output_file st.hdr.target_relative_offset with
    | none => ( HUNK_ERR_IO, st)
    | some f1 =>
      let r := fread1 f1
      if r.1.isNone && r.2.err then ( HUNK_ERR_IO, { st with output_file := r.2 })
      else
        match fseek_set r.2 (toS64 st.hdr.output_offset) with
        | none => ( HUNK_ERR_IO, { st with output_file := r.2 })
        | some f3 =>
          bps_target_copy_loop junk n (i + 1)
            { st with
              hdr := { st.hdr with
                output_offset := (st.hdr.output_offset + 1) % 2 ^ 64
                target_relative_offset := relative_offset_incr st.hdr.target_relative_offset }
              output_file := fwrite1 f3 (r.1.getD (junk i)) }

/-- The function `bps_target_copy`. -/
def bps_target_copy (junk : Nat → Nat) (length : Nat) (st : State) :
    rombp_hunk_iter_status × State :=
  let r := decode_varint st.bps_file
  match r.1 with
  | none => ( HUNK_ERR_IO, { st with bps_file := r.2 })
  | some data =>
    bps_target_copy_loop junk length 0
      { st with
        hdr := { st.hdr with
          target_relative_offset := relative_offset_add st.hdr.target_relative_offset data }
        bps_file := r.2 }

/-! ## `bps_next` -/

/-- The function `bps_next`.  In `pos >= file_header->patch_size - FOOTER_LENGTH`
the constant is a `size_t`, so the subtraction and the comparison are carried
out on `uint64_t` values. -/
def bps_next (junk : Nat → Nat) (st : State) : rombp_hunk_iter_status × State :=
  let pos := ftell st.bps_file
  if pos = -1 then ( HUNK_ERR_IO, st)
  else if toU64 pos ≥ (toU64 st.hdr.patch_size + (2 ^ 64 - FOOTER_LENGTH)) % 2 ^ 64 then
    (HUNK_DONE, st)
  else
    let r := decode_varint st.bps_file
    match r.1 with
    | none => ( HUNK_ERR_IO, { st with bps_file := r.2 })
    | some data =>
      let command := data &&& 3
      let length := ((data >>> 2) + 1) % 2 ^ 64
      match command with
      | 0 => bps_source_read junk length { st with bps_file := r.2 }
      | 1 => bps_target_read junk length { st with bps_file := r.2 }
      | 2 => bps_source_copy junk length { st with bps_file := r.2 }
      | 3 => bps_target_copy junk length { st with bps_file := r.2 }
      | _ => ( HUNK_ERR_IO, { st with bps_file := r.2 })

/-! ## Specification-side definitions

File contents after a run of writes, and the varint codec as the format
describes it. -/

/-- Content of a file after the bytes `data` are written one after the other
from offset `p` on. -/
def write_seq : List Nat → Nat → List Nat → List Nat
  | bs, _, [] => bs
  | bs, p, b :: rest => write_seq (write_at bs p b) (p + 1) rest

/-- Reading forward: the `n` bytes of a file from offset `p` on. -/
def slice (bs : List Nat) (p n : Nat) : List Nat := (bs.drop p).take n

/-- The signed delta an offset varint `v` denotes (spec, signed relative delta):
the lowest bit is the sign, the remaining bits are the magnitude. -/
def signed_delta (v : Nat) : Int :=
  if v &&& 1 ≠ 0 then -((v >>> 1 : Nat) : Int) else ((v >>> 1 : Nat) : Int)

/-- The bijective BPS encoding of an unsigned integer, round by round: with
`x = n & 0x7F` and `n = n >> 7`, emit `0x80 | x` and stop when `n = 0`, else emit
`x` and go on with `n - 1`.  The first argument bounds the number of rounds. -/
def encode_varint_rounds : Nat → Nat → List Nat
  | 0, n => [0x80 ||| (n &&& 0x7F)]
  | rounds + 1, n =>
    if n >>> 7 = 0 then [0x80 ||| (n &&& 0x7F)]
    else (n &&& 0x7F) :: encode_varint_rounds rounds ((n >>> 7) - 1)

/-- The bijective BPS encoding of `n`; `n` rounds always suffice, as the value
shrinks in every round. -/
def encode_varint (n : Nat) : List Nat := encode_varint_rounds n n

/-- A terminated varint: zero or more bytes with the high bit clear followed by
exactly one byte with the high bit set. -/
def is_varint_seq : List Nat → Bool
  | [] => false
  | b :: rest =>
    if rest.isEmpty then decide (128 ≤ b ∧ b < 256)
    else decide (b < 128) && is_varint_seq rest

/-- The accumulation of `decode_varint` carried out on unbounded integers. -/
def varint_exact_loop : List Nat → Nat → Nat → Nat
  | [], data, _ => data
  | ch :: rest, data, shift =>
    if ch &&& 0x80 ≠ 0 then data + (ch &&& 0x7F) * shift
    else varint_exact_loop rest (data + (ch &&& 0x7F) * shift + shift <<< 7) (shift <<< 7)

/-- The unbounded value of a terminated varint. -/
def varint_exact (bs : List Nat) : Nat := varint_exact_loop bs 0 1

/-- Number of values that terminated varints of at most `k` bytes denote. -/
def varint_count : Nat → Nat
  | 0 => 0
  | k + 1 => 128 + 128 * varint_count k

/-- Indices of the patch bytes one call of `bps_next` consumes.  The call reads
the patch stream only forward, one byte per `fread`, and never seeks it, so
these are the positions passed between entry and exit that lie in the file. -/
def patch_reads (junk : Nat → Nat) (st : State) : List Nat :=
  (List.range' st.bps_file.pos ((bps_next junk st).2.bps_file.pos - st.bps_file.pos)).filter
    (fun i => decide (i < st.bps_file.bytes.length))

/-! ## `bps_verify_marker` -/

/-- Modelled from the spec: the function `patch_verify_marker` is defined in a
source file that is not among the sources.  Following the spec's Marker
Verifier, it reads `size` bytes from the stream, which stands at the start of
the patch, and compares them with the expected signature; a short read or any
mismatch is a FormatError, and success leaves the stream right after the
bytes read. -/
def patch_verify_marker (f : FILE) (expected : List Nat) (size : Nat) :
    rombp_patch_err × FILE :=
  let got := (f.bytes.drop f.pos).take size
  let f1 := { f with pos := f.pos + got.length }
  if got.length < size then (PATCH_ERR_FORMAT, f1)
  else if got = expected.take size then (PATCH_OK, f1)
  else (PATCH_ERR_FORMAT, f1)

/-- The function `bps_verify_marker`. -/
def bps_verify_marker (bps_file : FILE) : rombp_patch_err × FILE :=
  patch_verify_marker bps_file BPS_EXPECTED_MARKER BPS_MARKER_SIZE

/-! ## Driving `bps_next` -/

/-- The state after `n` successive calls of `bps_next`. -/
def bps_run (junk : Nat → Nat) : Nat → State → State
  | 0, st => st
  | n + 1, st => bps_run junk n (bps_next junk st).2

/-- The command bits of the token that stands at the patch stream position, if
a token can be decoded there. -/
def next_command (st : State) : Option Nat :=
  (decode_varint st.bps_file).1.map (fun data => data &&& 3)

/-- The session with other declared sizes and everything else as it is. -/
def with_sizes (st : State) (source_size target_size metadata_size : Nat) : State :=
  { st with
    hdr := { st.hdr with
      source_size := source_size
      target_size := target_size
      metadata_size := metadata_size } }

/-- Offset of the first byte with the high bit set, if there is one. -/
def first_terminal : List Nat → Option Nat
  | [] => none
  | ch :: rest =>
    if ch &&& 0x80 ≠ 0 then some 0 else (first_terminal rest).map (fun k => k + 1)

/-- What no call of `bps_next` changes: the declared sizes and `patch_size`, the
content of the source and of the patch; the patch stream position only moves
forward, and not past the end of the patch when it starts inside it. -/
def frame (st st1 : State) : Prop :=
  st1.hdr.source_size = st.hdr.source_size
  ∧ st1.hdr.target_size = st.hdr.target_size
  ∧ st1.hdr.metadata_size = st.hdr.metadata_size
  ∧ st1.hdr.patch_size = st.hdr.patch_size
  ∧ st1.input_file.bytes = st.input_file.bytes
  ∧ st1.bps_file.bytes = st.bps_file.bytes
  ∧ st.bps_file.pos ≤ st1.bps_file.pos
  ∧ (st.bps_file.pos ≤ st.bps_file.bytes.length →
      st1.bps_file.pos ≤ st.bps_file.bytes.length)

/-- The `switch` of `bps_next` as a case distinction on the two command bits of
a token, each executor called with the length `(token >> 2) + 1`. -/
def dispatch (junk : Nat → Nat) (tok : Nat) (st : State) : rombp_hunk_iter_status × State :=
  if tok &&& 3 = 0 then bps_source_read junk ((tok >>> 2) + 1) st
  else if tok &&& 3 = 1 then bps_target_read junk ((tok >>> 2) + 1) st
  else if tok &&& 3 = 2 then bps_source_copy junk ((tok >>> 2) + 1) st
  else bps_target_copy junk ((tok >>> 2) + 1) st

/-! ## Example sessions -/

/-- An indeterminate-byte oracle for the examples. -/
def example_junk : Nat → Nat := fun _ => 0

/-- The largest file offset in the example sessions: a file system without a
limit of its own. -/
def example_max_offset : Nat := 2 ^ 63 - 1

/-- The largest file offset of a file system limited to 16 TiB. -/
def small_max_offset : Nat := 2 ^ 44

/-- The state after `bps_start` has run on a patch (from a zeroed session
record), together with a source and a target stream positioned at 0. -/
def session_of_patch (patch source target : List Nat) : State :=
  let r := bps_start example_max_offset ⟨patch, 0, false⟩ ⟨0, 0, 0, 0, 0, 0, 0⟩
  ⟨r.2.2, ⟨source, 0, false⟩, ⟨target, 0, false⟩, r.2.1⟩

/-- Spec scenario 4: source `AA BB CC DD` and a patch whose only command is a
Source-Read of length 4 (token `8C`), followed by the 12 footer bytes. -/
def source_read_example : State :=
  session_of_patch
    [0x42, 0x50, 0x53, 0x31, 0x84, 0x84, 0x80, 0x8C,
     0xC1, 0xC2, 0xC3, 0xC4, 0xC5, 0xC6, 0xC7, 0xC8, 0xC9, 0xCA, 0xCB, 0xCC]
    [0xAA, 0xBB, 0xCC, 0xDD] []

/-- Spec scenario 5: a Target-Read of length 3 (token `89`) embedding the
literal bytes `01 02 03`, with an unrelated source. -/
def target_read_example : State :=
  session_of_patch
    [0x42, 0x50, 0x53, 0x31, 0x82, 0x83, 0x80, 0x89, 0x01, 0x02, 0x03,
     0xC1, 0xC2, 0xC3, 0xC4, 0xC5, 0xC6, 0xC7, 0xC8, 0xC9, 0xCA, 0xCB, 0xCC]
    [0xFF, 0xFE] []

/-- A Source-Copy of length 2 (token `86`) with delta `+5` (offset varint
`8A`) over an eight-byte source. -/
def source_copy_example : State :=
  session_of_patch
    [0x42, 0x50, 0x53, 0x31, 0x88, 0x82, 0x80, 0x86, 0x8A,
     0xC1, 0xC2, 0xC3, 0xC4, 0xC5, 0xC6, 0xC7, 0xC8, 0xC9, 0xCA, 0xCB, 0xCC]
    [10, 11, 12, 13, 14, 15, 16, 17] []

/-- Spec scenario 6: the target holds the single byte `5A`, `output_offset = 1`,
`target_relative_offset = 1`, and the next command is a Target-Copy of length 5
(token `93`) with delta `-1` (offset varint `83`). -/
def target_copy_example : State :=
  { hdr := ⟨0, 6, 0, 14, 1, 0, 1⟩
    input_file := ⟨[], 0, false⟩
    output_file := ⟨[0x5A], 1, false⟩
    bps_file := ⟨[0x93, 0x83, 0xC1, 0xC2, 0xC3, 0xC4, 0xC5, 0xC6, 0xC7, 0xC8, 0xC9, 0xCA,
      0xCB, 0xCC], 0, false⟩ }

/-- A seven-byte patch: marker and three header varints, no footer. -/
def short_patch_example : State :=
  session_of_patch [0x42, 0x50, 0x53, 0x31, 0x80, 0x80, 0x80] [] []

/-- A ten-byte patch: marker, three header varints and a Target-Read of length 2
(token `85`) with its two literal bytes, no footer. -/
def short_command_example : State :=
  session_of_patch [0x42, 0x50, 0x53, 0x31, 0x80, 0x82, 0x80, 0x85, 0x41, 0x42] [] []

/-- A patch whose last command, a Target-Read of length 3 (token `89`), is
followed directly by the 12 footer bytes `C1 .. CC`. -/
def footer_read_example : State :=
  session_of_patch
    [0x42, 0x50, 0x53, 0x31, 0x80, 0x83, 0x80, 0x89,
     0xC1, 0xC2, 0xC3, 0xC4, 0xC5, 0xC6, 0xC7, 0xC8, 0xC9, 0xCA, 0xCB, 0xCC]
    [] []

/-- Spec scenario 8: two consecutive Source-Copy commands, of length 2 with
delta `+5` (token `86`, offset `8A`) and of length 3 with delta `+0` (token
`8A`, offset `80`), with a Target-Read of length 1 (token `81`, literal `77`)
between them, over a twelve-byte source. -/
def cumulative_example : State :=
  session_of_patch
    [0x42, 0x50, 0x53, 0x31, 0x8C, 0x86, 0x80, 0x86, 0x8A, 0x81, 0x77, 0x8A, 0x80,
     0xC1, 0xC2, 0xC3, 0xC4, 0xC5, 0xC6, 0xC7, 0xC8, 0xC9, 0xCA, 0xCB, 0xCC]
    [10, 11, 12, 13, 14, 15, 16, 17, 18, 19, 20, 21] []

/-- A patch whose metadata size varint `7F 7E 7E 7E 7E 7E 7E 7E 7E 80` encodes
`2 ^ 64 - 1`. -/
def huge_metadata_patch : FILE :=
  ⟨[0x42, 0x50, 0x53, 0x31, 0x80, 0x80,
    0x7F, 0x7E, 0x7E, 0x7E, 0x7E, 0x7E, 0x7E, 0x7E, 0x7E, 0x80,
    0xC1, 0xC2, 0xC3, 0xC4, 0xC5, 0xC6, 0xC7, 0xC8, 0xC9, 0xCA, 0xCB, 0xCC], 0, false⟩

/-- A 25-byte patch whose metadata size varint `00 7F 7E 7E 7E 7E 86` encodes
`2 ^ 45`. -/
def large_metadata_patch : FILE :=
  ⟨[0x42, 0x50, 0x53, 0x31, 0x80, 0x80,
    0x00, 0x7F, 0x7E, 0x7E, 0x7E, 0x7E, 0x86,
    0xC1, 0xC2, 0xC3, 0xC4, 0xC5, 0xC6, 0xC7, 0xC8, 0xC9, 0xCA, 0xCB, 0xCC], 0, false⟩

/-- A patch with sizes 4, 4, 2 and the two metadata bytes `6D 64`. -/
def metadata_patch : FILE :=
  ⟨[0x42, 0x50, 0x53, 0x31, 0x84, 0x84, 0x82, 0x6D, 0x64, 0x8C,
    0xC1, 0xC2, 0xC3, 0xC4, 0xC5, 0xC6, 0xC7, 0xC8, 0xC9, 0xCA, 0xCB, 0xCC], 9, false⟩

/-- A Source-Read of length 4 (token `8C`) over a source of only two bytes. -/
def short_source_example : State :=
  session_of_patch
    [0x42, 0x50, 0x53, 0x31, 0x82, 0x84, 0x80, 0x8C,
     0xC1, 0xC2, 0xC3, 0xC4, 0xC5, 0xC6, 0xC7, 0xC8, 0xC9, 0xCA, 0xCB, 0xCC]
    [0xAA, 0xBB] []

/-- A Target-Read of length 14 (token `B5`) with only the 12 footer bytes left
in the patch stream. -/
def short_payload_example : State :=
  session_of_patch
    [0x42, 0x50, 0x53, 0x31, 0x80, 0x8E, 0x80, 0xB5,
     0xC1, 0xC2, 0xC3, 0xC4, 0xC5, 0xC6, 0xC7, 0xC8, 0xC9, 0xCA, 0xCB, 0xCC]
    [] []

/-- A Source-Copy of length 2 (token `86`, offset `8A`, delta `+5`) over a
source of only six bytes. -/
def short_copy_example : State :=
  session_of_patch
    [0x42, 0x50, 0x53, 0x31, 0x86, 0x82, 0x80, 0x86, 0x8A,
     0xC1, 0xC2, 0xC3, 0xC4, 0xC5, 0xC6, 0xC7, 0xC8, 0xC9, 0xCA, 0xCB, 0xCC]
    [10, 11, 12, 13, 14, 15] []

/-- A 20-byte patch in which no byte after the header has the high bit set:
the command token at offset 7 never terminates. -/
def unterminated_token_example : State :=
  session_of_patch
    [0x42, 0x50, 0x53, 0x31, 0x80, 0x80, 0x80,
     0x01, 0x02, 0x03, 0x04, 0x05, 0x06, 0x07, 0x08, 0x09, 0x0A, 0x0B, 0x0C, 0x0D]
    [10, 11, 12, 13] []

/-- A 20-byte patch with the Source-Copy token `86` at offset 7, after which no
byte has the high bit set: the offset varint never terminates. -/
def unterminated_source_offset_example : State :=
  session_of_patch
    [0x42, 0x50, 0x53, 0x31, 0x80, 0x80, 0x80, 0x86,
     0x01, 0x02, 0x03, 0x04, 0x05, 0x06, 0x07, 0x08, 0x09, 0x0A, 0x0B, 0x0C]
    [10, 11, 12, 13] []

/-- A 20-byte patch with the Target-Copy token `87` at offset 7, after which no
byte has the high bit set: the offset varint never terminates. -/
def unterminated_target_offset_example : State :=
  session_of_patch
    [0x42, 0x50, 0x53, 0x31, 0x80, 0x80, 0x80, 0x87,
     0x01, 0x02, 0x03, 0x04, 0x05, 0x06, 0x07, 0x08, 0x09, 0x0A, 0x0B, 0x0C]
    [10, 11, 12, 13] [0x5A]

/-- A valid patch that declares a target size of 9 and whose only command
produces 4 bytes. -/
def size_mismatch_patch : FILE :=
  ⟨[0x42, 0x50, 0x53, 0x31, 0x84, 0x89, 0x80, 0x8C,
    0xC1, 0xC2, 0xC3, 0xC4, 0xC5, 0xC6, 0xC7, 0xC8, 0xC9, 0xCA, 0xCB, 0xCC], 0, false⟩

/-- The session `bps_start` builds from `size_mismatch_patch` after the marker
check, over the source `AA BB CC DD`. -/
def size_mismatch_example : State :=
  let r := bps_start example_max_offset (bps_verify_marker size_mismatch_patch).2
    ⟨0, 0, 0, 0, 0, 0, 0⟩
  ⟨r.2.2, ⟨[0xAA, 0xBB, 0xCC, 0xDD], 0, false⟩, ⟨[], 0, false⟩, r.2.1⟩

/-- A Source-Copy of length 2 (token `86`) with delta `-3` (offset varint
`87`) on a fresh session: the cursor becomes `-3`. -/
def negative_source_copy_example : State :=
  session_of_patch
    [0x42, 0x50, 0x53, 0x31, 0x88, 0x82, 0x80, 0x86, 0x87,
     0xC1, 0xC2, 0xC3, 0xC4, 0xC5, 0xC6, 0xC7, 0xC8, 0xC9, 0xCA, 0xCB, 0xCC]
    [10, 11, 12, 13, 14, 15, 16, 17] [0x5A]

/-- A Target-Copy of length 2 (token `87`) with delta `-3` (offset varint
`87`) on a fresh session: the cursor becomes `-3`. -/
def negative_target_copy_example : State :=
  session_of_patch
    [0x42, 0x50, 0x53, 0x31, 0x88, 0x82, 0x80, 0x87, 0x87,
     0xC1, 0xC2, 0xC3, 0xC4, 0xC5, 0xC6, 0xC7, 0xC8, 0xC9, 0xCA, 0xCB, 0xCC]
    [10, 11, 12, 13, 14, 15, 16, 17] [0x5A]

/-! ## Arithmetic helper lemmas -/

theorem toS64_of_lt {n : Nat} (h : n < 2 ^ 63) : toS64 n = (n : Int) := by
  unfold toS64
  have h1 : n % 2 ^ 64 = n := Nat.mod_eq_of_lt (by omega)
  rw [h1, if_pos h]

theorem toU64_natCast {n : Nat} (h : n < 2 ^ 64) : toU64 (n : Int) = n := by
  unfold toU64
  omega

theorem relative_offset_incr_eq {c : Int} (h1 : -2 ^ 63 ≤ c) (h2 : c + 1 < 2 ^ 63) :
    relative_offset_incr c = c + 1 := by
  unfold relative_offset_incr toS64 toU64
  split <;> omega

theorem and_three (n : Nat) : n &&& 3 = n % 4 := Nat.and_pow_two_sub_one_eq_mod n 2

theorem and_one (n : Nat) : n &&& 1 = n % 2 := Nat.and_pow_two_sub_one_eq_mod n 1

theorem and_0x7F (n : Nat) : n &&& 0x7F = n % 128 := Nat.and_pow_two_sub_one_eq_mod n 7

theorem and_0x80_ne_zero (n : Nat) : n &&& 0x80 ≠ 0 ↔ n / 128 % 2 = 1 := by
  have h := Nat.and_two_pow n 7
  have h2 : n.testBit 7 = decide (n / 128 % 2 = 1) := by
    simp only [Nat.testBit, Nat.shiftRight_eq_div_pow, and_one]
    norm_num
    by_cases hc : n / 128 % 2 = 1 <;> simp [hc]
  norm_num at h
  rw [h, h2]
  by_cases hc : n / 128 % 2 = 1 <;> simp [hc]

theorem shiftRight_two (n : Nat) : n >>> 2 = n / 4 := Nat.shiftRight_eq_div_pow n 2

theorem shiftRight_one (n : Nat) : n >>> 1 = n / 2 := Nat.shiftRight_eq_div_pow n 1

theorem shiftLeft_seven (n : Nat) : n <<< 7 = n * 128 := Nat.shiftLeft_eq n 7

/-! ## File content lemmas -/

theorem length_write_at (bs : List Nat) (p b : Nat) :
    (write_at bs p b).length = max bs.length (p + 1) := by
  unfold write_at
  split
  · simp; omega
  · simp; omega

theorem getElem?_write_at (bs : List Nat) (p b j : Nat) :
    (write_at bs p b)[j]? =
      if j = p then some b
      else if j < bs.length then bs[j]?
      else if j < p then some 0 else none := by
  unfold write_at
  by_cases hp : p < bs.length
  · rw [if_pos hp, List.getElem?_set]
    by_cases hj : j = p
    · subst hj; simp [hp]
    · have : ¬ p = j := fun h => hj h.symm
      simp only [this, if_false, hj]
      by_cases hl : j < bs.length
      · simp [hl]
      · have hn : bs[j]? = none := List.getElem?_eq_none (by omega)
        simp only [hl, if_false, hn]
        have : ¬ j < p := by omega
        simp [this]
  · rw [if_neg hp]
    by_cases hj : j = p
    · subst hj
      rw [if_pos rfl, List.getElem?_append_right (by simp; omega)]
      have : j - (bs ++ List.replicate (j - bs.length) 0).length = 0 := by simp; omega
      rw [this]
      rfl
    · rw [if_neg hj]
      by_cases hl : j < bs.length
      · rw [if_pos hl, List.append_assoc, List.getElem?_append_left hl]
      · rw [if_neg hl]
        by_cases hjp : j < p
        · rw [if_pos hjp, List.getElem?_append_left (by simp; omega),
            List.getElem?_append_right (by omega), List.getElem?_replicate]
          rw [if_pos (by omega)]
        · rw [if_neg hjp]
          exact List.getElem?_eq_none (by simp; omega)

theorem length_write_seq (data : List Nat) : ∀ (bs : List Nat) (p : Nat),
    (write_seq bs p data).length =
      if data = [] then bs.length else max bs.length (p + data.length) := by
  induction data with
  | nil => intro bs p; simp [write_seq]
  | cons b rest ih =>
    intro bs p
    rw [write_seq, ih, length_write_at]
    by_cases hr : rest = []
    · subst hr; simp
    · simp only [hr, if_false, List.length_cons]
      simp
      omega

theorem getElem?_write_seq (data : List Nat) : ∀ (bs : List Nat) (p j : Nat),
    (write_seq bs p data)[j]? =
      if p ≤ j ∧ j < p + data.length then data[j - p]?
      else if j < bs.length then bs[j]?
      else if j < p ∧ 0 < data.length then some 0 else none := by
  induction data with
  | nil =>
    intro bs p j
    have h1 : ¬ (p ≤ j ∧ j < p + 0) := by omega
    simp only [write_seq, List.length_nil, h1, if_false]
    by_cases hl : j < bs.length
    · simp [hl]
    · rw [if_neg hl]
      have h2 : ¬ (j < p ∧ 0 < 0) := by omega
      rw [if_neg h2]
      exact List.getElem?_eq_none (by omega)
  | cons b rest ih =>
    intro bs p j
    rw [write_seq, ih, length_write_at, getElem?_write_at]
    simp only [List.length_cons]
    by_cases h1 : p + 1 ≤ j ∧ j < p + 1 + rest.length
    · have h2 : p ≤ j ∧ j < p + (rest.length + 1) := by omega
      rw [if_pos h1, if_pos h2]
      have h3 : j - p = (j - (p + 1)) + 1 := by omega
      rw [h3, List.getElem?_cons_succ]
    · rw [if_neg h1]
      by_cases hjp : j = p
      · subst hjp
        have h2 : j ≤ j ∧ j < j + (rest.length + 1) := by omega
        have h3 : j < max bs.length (j + 1) := by omega
        rw [if_pos h3, if_pos rfl, if_pos h2]
        simp
      · have h2 : ¬ (p ≤ j ∧ j < p + (rest.length + 1)) := by omega
        rw [if_neg hjp, if_neg h2]
        by_cases hl : j < bs.length
        · have h3 : j < max bs.length (p + 1) := by omega
          rw [if_pos h3, if_pos hl, if_pos hl]
        · rw [if_neg hl]
          by_cases hlt : j < p
          · have h3 : j < max bs.length (p + 1) := by omega
            have h4 : j < p ∧ 0 < rest.length + 1 := by omega
            rw [if_pos h3, if_neg hl, if_pos hlt, if_pos h4]
          · have h3 : ¬ j < max bs.length (p + 1) := by omega
            have h4 : ¬ (j < p ∧ 0 < rest.length + 1) := by omega
            have h5 : ¬ (j < p + 1 ∧ 0 < rest.length) := by omega
            rw [if_neg h3, if_neg h5, if_neg hl, if_neg h4]

/-! ## The sequential copy loops (Source-Read, Target-Read, Source-Copy) -/

theorem slice_succ {bs : List Nat} {p n b : Nat} (h : bs[p]? = some b) :
    slice bs p (n + 1) = b :: slice bs (p + 1) n := by
  unfold slice
  have hp : p < bs.length := by
    by_contra hc
    rw [List.getElem?_eq_none (by omega)] at h
    cases h
  have hb : bs[p] = b := by
    rw [List.getElem?_eq_getElem hp] at h
    exact Option.some.inj h
  rw [List.drop_eq_getElem_cons hp, List.take_succ_cons, hb]

theorem source_read_loop_ok (junk : Nat → Nat) : ∀ (n i : Nat) (st : State),
    st.input_file.pos + n ≤ st.input_file.bytes.length →
    st.hdr.output_offset + n < 2 ^ 64 →
    bps_source_read_loop junk n i st =
      (HUNK_NEXT,
        { st with
          hdr := { st.hdr with output_offset := st.hdr.output_offset + n }
          input_file := { st.input_file with pos := st.input_file.pos + n }
          output_file :=
            { st.output_file with
              bytes := write_seq st.output_file.bytes st.output_file.pos
                (slice st.input_file.bytes st.input_file.pos n)
              pos := st.output_file.pos + n } }) := by
  intro n
  induction n with
  | zero =>
    intro i st _ _
    simp [bps_source_read_loop, slice, write_seq]
  | succ n ih =>
    intro i st h ho
    have hp : st.input_file.pos < st.input_file.bytes.length := by omega
    have hb : st.input_file.bytes[st.input_file.pos]? =
        some (st.input_file.bytes[st.input_file.pos]) := List.getElem?_eq_getElem hp
    have hr : fread1 st.input_file =
        (some (st.input_file.bytes[st.input_file.pos]),
          { st.input_file with pos := st.input_file.pos + 1 }) := by
      unfold fread1
      rw [hb]
    have e1 : (st.hdr.output_offset + 1) % 2 ^ 64 + n = st.hdr.output_offset + (n + 1) := by
      omega
    have e2 : st.input_file.pos + 1 + n = st.input_file.pos + (n + 1) := by omega
    have e3 : st.output_file.pos + 1 + n = st.output_file.pos + (n + 1) := by omega
    rw [bps_source_read_loop]
    simp only [hr, Option.isNone_some, Bool.false_and, Bool.false_eq_true, if_false,
      Option.getD_some]
    rw [ih _ _ (by simp; omega) (by simp only []; omega)]
    simp only [fwrite1, slice_succ hb, write_seq, e1, e2, e3]

theorem decode_varint_loop_lt : ∀ (bs : List Nat) (d s k v k1 : Nat),
    decode_varint_loop bs d s k = (some v, k1) → v < 2 ^ 64 := by
  intro bs
  induction bs with
  | nil => intro d s k v k1 h; simp [decode_varint_loop] at h
  | cons ch rest ih =>
    intro d s k v k1 h
    rw [decode_varint_loop] at h
    by_cases hc : ch &&& 0x80 ≠ 0
    · rw [if_pos hc] at h
      have h1 := (Prod.mk.inj h).1
      have h2 := Option.some.inj h1
      rw [← h2]
      exact Nat.mod_lt _ (by norm_num)
    · rw [if_neg hc] at h
      exact ih _ _ _ _ _ h

theorem decode_varint_lt {f g : FILE} {v : Nat} (h : decode_varint f = (some v, g)) :
    v < 2 ^ 64 := by
  unfold decode_varint at h
  have h1 := (Prod.mk.inj h).1
  exact decode_varint_loop_lt (f.bytes.drop f.pos) 0 1 0 v
    (decode_varint_loop (f.bytes.drop f.pos) 0 1 0).2 (Prod.ext h1 rfl)

theorem bps_next_of_token (junk : Nat → Nat) {st : State} {tok : Nat} {bps1 : FILE}
    (h1 : st.hdr.patch_size < 2 ^ 63)
    (h2 : (st.bps_file.pos : Int) + 12 < st.hdr.patch_size)
    (htok : decode_varint st.bps_file = (some tok, bps1)) :
    bps_next junk st =
      if tok % 4 = 0 then bps_source_read junk (tok / 4 + 1) { st with bps_file := bps1 }
      else if tok % 4 = 1 then bps_target_read junk (tok / 4 + 1) { st with bps_file := bps1 }
      else if tok % 4 = 2 then bps_source_copy junk (tok / 4 + 1) { st with bps_file := bps1 }
      else bps_target_copy junk (tok / 4 + 1) { st with bps_file := bps1 } := by
  have hlt := decode_varint_lt htok
  have hpos : ftell st.bps_file = (st.bps_file.pos : Int) := by
    unfold ftell
    rw [if_pos (by omega)]
  have hlen : (tok / 4 + 1) % 2 ^ 64 = tok / 4 + 1 := by omega
  unfold bps_next
  simp only [hpos, htok, and_three, shiftRight_two, hlen]
  have hne : ¬ ((st.bps_file.pos : Int) = -1) := by omega
  have hnd : ¬ (toU64 (st.bps_file.pos : Int)
      ≥ (toU64 st.hdr.patch_size + (2 ^ 64 - FOOTER_LENGTH)) % 2 ^ 64) := by
    unfold toU64 FOOTER_LENGTH
    omega
  rw [if_neg hne, if_neg hnd]
  have h4 : tok % 4 < 4 := Nat.mod_lt _ (by norm_num)
  generalize tok % 4 = c at h4
  match c, h4 with
  | 0, _ => rfl
  | 1, _ => rfl
  | 2, _ => rfl
  | 3, _ => rfl

theorem fseek_set_natCast (f : FILE) (n : Nat) :
    fseek_set f (n : Int) = some { f with pos := n } := by
  unfold fseek_set
  rw [if_neg (by omega)]
  simp

theorem source_read_ok (junk : Nat → Nat) (L : Nat) (st : State)
    (hsrc : st.hdr.output_offset + L ≤ st.input_file.bytes.length)
    (hsz : st.input_file.bytes.length < 2 ^ 63) :
    bps_source_read junk L st =
      (HUNK_NEXT,
        { st with
          hdr := { st.hdr with output_offset := st.hdr.output_offset + L }
          input_file := { st.input_file with pos := st.hdr.output_offset + L }
          output_file :=
            { st.output_file with
              bytes := write_seq st.output_file.bytes st.hdr.output_offset
                (slice st.input_file.bytes st.hdr.output_offset L)
              pos := st.hdr.output_offset + L } }) := by
  unfold bps_source_read
  rw [toS64_of_lt (by omega), fseek_set_natCast, fseek_set_natCast]
  simp only []
  rw [source_read_loop_ok junk L 0 _ (by simp only []; omega) (by simp only []; omega)]

theorem fread1_of_lt (f : FILE) (hp : f.pos < f.bytes.length) :
    fread1 f = (some (f.bytes[f.pos]), { f with pos := f.pos + 1 }) := by
  unfold fread1
  rw [List.getElem?_eq_getElem hp]

theorem target_read_loop_ok (junk : Nat → Nat) : ∀ (n i : Nat) (st : State),
    st.bps_file.pos + n ≤ st.bps_file.bytes.length →
    st.hdr.output_offset + n < 2 ^ 64 →
    bps_target_read_loop junk n i st =
      (HUNK_NEXT,
        { st with
          hdr := { st.hdr with output_offset := st.hdr.output_offset + n }
          bps_file := { st.bps_file with pos := st.bps_file.pos + n }
          output_file :=
            { st.output_file with
              bytes := write_seq st.output_file.bytes st.output_file.pos
                (slice st.bps_file.bytes st.bps_file.pos n)
              pos := st.output_file.pos + n } }) := by
  intro n
  induction n with
  | zero =>
    intro i st _ _
    simp [bps_target_read_loop, slice, write_seq]
  | succ n ih =>
    intro i st h ho
    have hp : st.bps_file.pos < st.bps_file.bytes.length := by omega
    have hb : st.bps_file.bytes[st.bps_file.pos]? =
        some (st.bps_file.bytes[st.bps_file.pos]) := List.getElem?_eq_getElem hp
    have e1 : (st.hdr.output_offset + 1) % 2 ^ 64 + n = st.hdr.output_offset + (n + 1) := by
      omega
    have e2 : st.bps_file.pos + 1 + n = st.bps_file.pos + (n + 1) := by omega
    have e3 : st.output_file.pos + 1 + n = st.output_file.pos + (n + 1) := by omega
    rw [bps_target_read_loop]
    simp only [fread1_of_lt _ hp, Option.isNone_some, Bool.false_and, Bool.false_eq_true,
      if_false, Option.getD_some]
    rw [ih _ _ (by simp; omega) (by simp only []; omega)]
    simp only [fwrite1, slice_succ hb, write_seq, e1, e2, e3]

theorem target_read_ok (junk : Nat → Nat) (L : Nat) (st : State)
    (hpay : st.bps_file.pos + L ≤ st.bps_file.bytes.length)
    (ho : st.hdr.output_offset < 2 ^ 63) (hL : L ≤ 2 ^ 62) :
    bps_target_read junk L st =
      (HUNK_NEXT,
        { st with
          hdr := { st.hdr with output_offset := st.hdr.output_offset + L }
          bps_file := { st.bps_file with pos := st.bps_file.pos + L }
          output_file :=
            { st.output_file with
              bytes := write_seq st.output_file.bytes st.hdr.output_offset
                (slice st.bps_file.bytes st.bps_file.pos L)
              pos := st.hdr.output_offset + L } }) := by
  unfold bps_target_read
  rw [toS64_of_lt ho, fseek_set_natCast]
  simp only []
  rw [target_read_loop_ok junk L 0 _ (by simp only []; omega) (by simp only []; omega)]

theorem length_slice {bs : List Nat} {p n : Nat} (h : p + n ≤ bs.length) :
    (slice bs p n).length = n := by
  unfold slice
  simp
  omega

theorem getElem?_slice {bs : List Nat} {p n i : Nat} (hi : i < n) :
    (slice bs p n)[i]? = bs[p + i]? := by
  unfold slice
  rw [List.getElem?_take, if_pos hi, List.getElem?_drop]

theorem write_seq_inside {bs data : List Nat} {p i : Nat} (hi : i < data.length) :
    (write_seq bs p data)[p + i]? = data[i]? := by
  rw [getElem?_write_seq, if_pos (by omega)]
  congr 1
  omega

theorem write_seq_outside {bs data : List Nat} {p j : Nat}
    (hj : j < p ∨ p + data.length ≤ j) (hl : j < bs.length ∨ p ≤ bs.length) :
    (write_seq bs p data)[j]? = bs[j]? := by
  rw [getElem?_write_seq, if_neg (by omega)]
  by_cases h : j < bs.length
  · rw [if_pos h]
  · rw [if_neg h, if_neg (by omega)]
    exact (List.getElem?_eq_none (by omega)).symm

theorem length_write_seq_pos {bs data : List Nat} {p : Nat} (hd : 0 < data.length) :
    (write_seq bs p data).length = max bs.length (p + data.length) := by
  rw [length_write_seq, if_neg]
  intro h0
  rw [h0] at hd
  simp at hd

theorem decode_varint_bytes {f g : FILE} {r : Option Nat} (h : decode_varint f = (r, g)) :
    g.bytes = f.bytes ∧ g.err = f.err := by
  unfold decode_varint at h
  have h2 := (Prod.mk.inj h).2
  rw [← h2]
  exact ⟨rfl, rfl⟩

theorem relative_offset_add_signed (c : Int) (v : Nat)
    (h1 : -2 ^ 63 ≤ c + signed_delta v) (h2 : c + signed_delta v < 2 ^ 63) :
    relative_offset_add c v = c + signed_delta v := by
  unfold signed_delta at *
  unfold relative_offset_add
  rw [and_one, shiftRight_one] at *
  by_cases hodd : v % 2 ≠ 0
  · rw [if_pos hodd] at h1 h2 ⊢
    have h3 : toU64 (-1) = 18446744073709551615 := by decide
    rw [if_pos hodd, h3]
    unfold toS64 toU64
    split <;> omega
  · rw [if_neg hodd] at h1 h2 ⊢
    have h3 : toU64 1 = 1 := by decide
    rw [if_neg hodd, h3]
    unfold toS64 toU64
    split <;> omega

theorem source_copy_loop_ok (junk : Nat → Nat) : ∀ (n i : Nat) (st : State),
    st.input_file.pos + n ≤ st.input_file.bytes.length →
    st.hdr.output_offset + n < 2 ^ 64 →
    -2 ^ 63 ≤ st.hdr.source_relative_offset →
    st.hdr.source_relative_offset + n < 2 ^ 63 →
    bps_source_copy_loop junk n i st =
      (HUNK_NEXT,
        { st with
          hdr := { st.hdr with
            output_offset := st.hdr.output_offset + n
            source_relative_offset := st.hdr.source_relative_offset + n }
          input_file := { st.input_file with pos := st.input_file.pos + n }
          output_file :=
            { st.output_file with
              bytes := write_seq st.output_file.bytes st.output_file.pos
                (slice st.input_file.bytes st.input_file.pos n)
              pos := st.output_file.pos + n } }) := by
  intro n
  induction n with
  | zero =>
    intro i st _ _ _ _
    simp [bps_source_copy_loop, slice, write_seq]
  | succ n ih =>
    intro i st h ho hc1 hc2
    have hp : st.input_file.pos < st.input_file.bytes.length := by omega
    have hb : st.input_file.bytes[st.input_file.pos]? =
        some (st.input_file.bytes[st.input_file.pos]) := List.getElem?_eq_getElem hp
    have hinc : relative_offset_incr st.hdr.source_relative_offset
        = st.hdr.source_relative_offset + 1 :=
      relative_offset_incr_eq hc1 (by push_cast at hc2; omega)
    have e1 : (st.hdr.output_offset + 1) % 2 ^ 64 + n = st.hdr.output_offset + (n + 1) := by
      omega
    have e2 : st.input_file.pos + 1 + n = st.input_file.pos + (n + 1) := by omega
    have e3 : st.output_file.pos + 1 + n = st.output_file.pos + (n + 1) := by omega
    have e4 : st.hdr.source_relative_offset + 1 + (n : Int)
        = st.hdr.source_relative_offset + ((n + 1 : Nat) : Int) := by
      push_cast
      omega
    rw [bps_source_copy_loop]
    simp only [fread1_of_lt _ hp, Option.isNone_some, Bool.false_and, Bool.false_eq_true,
      if_false, Option.getD_some, hinc]
    rw [ih _ _ (by simp; omega) (by simp only []; omega) (by simp only []; omega)
      (by simp only []; push_cast at hc2; omega)]
    simp only [fwrite1, slice_succ hb, write_seq, e1, e2, e3, e4]

theorem source_copy_ok (junk : Nat → Nat) (L v : Nat) (st : State) (bps2 : FILE)
    (hoff : decode_varint st.bps_file = (some v, bps2))
    (hc0 : 0 ≤ st.hdr.source_relative_offset + signed_delta v)
    (hsrc : st.hdr.source_relative_offset + signed_delta v + (L : Int)
      ≤ (st.input_file.bytes.length : Int))
    (hsz : st.input_file.bytes.length < 2 ^ 63)
    (ho : st.hdr.output_offset < 2 ^ 63) (hL : L ≤ 2 ^ 62) :
    bps_source_copy junk L st =
      (HUNK_NEXT,
        { st with
          hdr := { st.hdr with
            output_offset := st.hdr.output_offset + L
            source_relative_offset := st.hdr.source_relative_offset + signed_delta v + L }
          input_file := { st.input_file with
            pos := (st.hdr.source_relative_offset + signed_delta v).toNat + L }
          output_file :=
            { st.output_file with
              bytes := write_seq st.output_file.bytes st.hdr.output_offset
                (slice st.input_file.bytes
                  (st.hdr.source_relative_offset + signed_delta v).toNat L)
              pos := st.hdr.output_offset + L }
          bps_file := bps2 }) := by
  unfold bps_source_copy
  simp only [hoff]
  rw [relative_offset_add_signed _ _ (by omega) (by omega), toS64_of_lt ho, fseek_set_natCast]
  simp only []
  have hseek : fseek_set st.input_file (st.hdr.source_relative_offset + signed_delta v)
      = some { st.input_file with
          pos := (st.hdr.source_relative_offset + signed_delta v).toNat } := by
    unfold fseek_set
    rw [if_neg (by omega)]
  rw [hseek]
  simp only []
  rw [source_copy_loop_ok junk L 0 _ (by simp only []; omega) (by simp only []; omega)
    (by simp only []; omega) (by simp only []; omega)]

/-! ## The interleaved loop of Target-Copy -/

theorem target_copy_loop_step (junk : Nat → Nat) (n i : Nat) (st : State) (t o : Nat)
    (ht : st.hdr.target_relative_offset = (t : Int)) (ho : st.hdr.output_offset = o)
    (hlt : t < st.output_file.bytes.length) (hr : o < 2 ^ 63) (htr : t + 1 < 2 ^ 63) :
    bps_target_copy_loop junk (n + 1) i st =
      bps_target_copy_loop junk n (i + 1)
        { st with
          hdr := { st.hdr with
            output_offset := o + 1
            target_relative_offset := ((t + 1 : Nat) : Int) }
          output_file :=
            { st.output_file with
              bytes := write_at st.output_file.bytes o (st.output_file.bytes[t])
              pos := o + 1 } } := by
  have hinc : relative_offset_incr (t : Int) = ((t + 1 : Nat) : Int) := by
    rw [relative_offset_incr_eq (by omega) (by omega)]
    push_cast
    rfl
  have hmod : (o + 1) % 2 ^ 64 = o + 1 := by omega
  have hread : fread1 { st.output_file with pos := t } =
      (some (st.output_file.bytes[t]), { st.output_file with pos := t + 1 }) :=
    fread1_of_lt { st.output_file with pos := t } hlt
  rw [bps_target_copy_loop]
  simp only [ht, ho, fseek_set_natCast, hread, Option.isNone_some, Bool.false_and,
    Bool.false_eq_true, if_false, Option.getD_some, toS64_of_lt hr, hinc, hmod, fwrite1]

theorem target_copy_loop_ok (junk : Nat → Nat) : ∀ (n i : Nat) (st : State) (t o : Nat),
    st.hdr.target_relative_offset = (t : Int) → st.hdr.output_offset = o →
    t < o → o ≤ st.output_file.bytes.length → o + n ≤ 2 ^ 63 →
    (bps_target_copy_loop junk n i st).1 = HUNK_NEXT
    ∧ (bps_target_copy_loop junk n i st).2.hdr =
        { st.hdr with
          output_offset := o + n
          target_relative_offset := ((t + n : Nat) : Int) }
    ∧ (bps_target_copy_loop junk n i st).2.input_file = st.input_file
    ∧ (bps_target_copy_loop junk n i st).2.bps_file = st.bps_file
    ∧ (bps_target_copy_loop junk n i st).2.output_file.bytes.length
        = max st.output_file.bytes.length (o + n)
    ∧ (∀ j, j < o ∨ o + n ≤ j →
        (bps_target_copy_loop junk n i st).2.output_file.bytes[j]?
          = st.output_file.bytes[j]?)
    ∧ (∀ k, k < n →
        (bps_target_copy_loop junk n i st).2.output_file.bytes[o + k]?
          = (bps_target_copy_loop junk n i st).2.output_file.bytes[t + k]?) := by
  intro n
  induction n with
  | zero =>
    intro i st t o ht ho hto hol _
    rw [bps_target_copy_loop]
    refine ⟨rfl, ?_, rfl, rfl, ?_, fun _ _ => rfl, ?_⟩
    · cases st with
      | mk hdr fi fo fb =>
        cases hdr
        simp only [] at ht ho
        simp only [Nat.add_zero]
        rw [ht, ho]
    · simp only [Nat.add_zero]
      omega
    · intro k hk
      omega
  | succ n ih =>
    intro i st t o ht ho hto hol hr
    have hne : ¬ t = o := by omega
    have htl : t < st.output_file.bytes.length := by omega
    rw [target_copy_loop_step junk n i st t o ht ho (by omega) (by omega) (by omega)]
    have hlen1 : (write_at st.output_file.bytes o (st.output_file.bytes[t])).length
        = max st.output_file.bytes.length (o + 1) := length_write_at _ _ _
    obtain ⟨h1, h2, h3, h4, h5, h6, h7⟩ := ih (i + 1)
      { st with
        hdr := { st.hdr with
          output_offset := o + 1
          target_relative_offset := ((t + 1 : Nat) : Int) }
        output_file :=
          { st.output_file with
            bytes := write_at st.output_file.bytes o (st.output_file.bytes[t])
            pos := o + 1 } }
      (t + 1) (o + 1) rfl rfl
      (by omega) (by rw [hlen1]; omega) (by omega)
    simp only [] at h2 h3 h4 h5 h6 h7
    refine ⟨h1, ?_, h3, h4, ?_, ?_, ?_⟩
    · rw [h2]
      simp only [bps_file_header.mk.injEq, true_and]
      constructor
      · omega
      · push_cast
        omega
    · rw [h5, hlen1]
      omega
    · intro j hj
      rw [h6 j (by omega), getElem?_write_at, if_neg (by omega)]
      by_cases hl : j < st.output_file.bytes.length
      · rw [if_pos hl]
      · rw [if_neg hl, if_neg (by omega)]
        exact (List.getElem?_eq_none (by omega)).symm
    · intro k hk
      cases k with
      | zero =>
        simp only [Nat.add_zero]
        rw [h6 o (by omega), h6 t (by omega), getElem?_write_at, if_pos rfl,
          getElem?_write_at, if_neg hne, if_pos htl, List.getElem?_eq_getElem htl]
      | succ k =>
        have e1 : o + (k + 1) = o + 1 + k := by omega
        have e2 : t + (k + 1) = t + 1 + k := by omega
        rw [e1, e2]
        exact h7 k (by omega)

/-! ## The varint codec -/

theorem decode_varint_loop_cons (ch : Nat) (rest : List Nat) (d s k : Nat) :
    decode_varint_loop (ch :: rest) d s k =
      if ch / 128 % 2 = 1 then (some ((d + ch % 128 * s) % 2 ^ 64), k + 1)
      else decode_varint_loop rest
        (((d + ch % 128 * s) % 2 ^ 64 + (s * 128) % 2 ^ 64) % 2 ^ 64)
        ((s * 128) % 2 ^ 64) (k + 1) := by
  rw [decode_varint_loop]
  simp only [and_0x7F, shiftLeft_seven]
  by_cases h : ch / 128 % 2 = 1
  · rw [if_pos ((and_0x80_ne_zero ch).2 h), if_pos h]
  · rw [if_neg (fun hc => h ((and_0x80_ne_zero ch).1 hc)), if_neg h]

theorem or_0x80 : ∀ x, x < 128 → 0x80 ||| x = 128 + x := by decide

theorem decode_loop_encode (rest : List Nat) : ∀ (rounds n d s k : Nat), n ≤ rounds →
    decode_varint_loop (encode_varint_rounds rounds n ++ rest) d s k =
      (some ((d + n * s) % 2 ^ 64), k + (encode_varint_rounds rounds n).length) := by
  intro rounds
  induction rounds with
  | zero =>
    intro n d s k hn
    have h0 : n = 0 := by omega
    subst h0
    rw [encode_varint_rounds]
    have : (0x80 ||| (0 &&& 0x7F)) = 128 := by decide
    rw [this, List.singleton_append, decode_varint_loop_cons]
    simp
  | succ rounds ih =>
    intro n d s k hn
    rw [encode_varint_rounds]
    simp only [and_0x7F, Nat.shiftRight_eq_div_pow]
    have hx : n % 128 < 128 := Nat.mod_lt _ (by norm_num)
    by_cases hm : n / 2 ^ 7 = 0
    · rw [if_pos hm, or_0x80 _ hx, List.singleton_append, decode_varint_loop_cons]
      have h1 : (128 + n % 128) / 128 % 2 = 1 := by omega
      have h2 : (128 + n % 128) % 128 = n := by omega
      rw [if_pos h1, h2]
      simp
    · rw [if_neg hm, List.cons_append, decode_varint_loop_cons]
      have h1 : ¬ (n % 128 / 128 % 2 = 1) := by omega
      have h2 : n % 128 % 128 = n % 128 := by omega
      rw [if_neg h1, h2, ih _ _ _ _ (by omega)]
      have hmod : ((d + n % 128 * s) % 2 ^ 64 + s * 128 % 2 ^ 64) % 2 ^ 64
            + (n / 2 ^ 7 - 1) * (s * 128 % 2 ^ 64) ≡ d + n * s [MOD 2 ^ 64] := by
        have e : d + n * s = (d + n % 128 * s + s * 128) + (n / 2 ^ 7 - 1) * (s * 128) := by
          have hn2 : n = n % 128 + 128 * ((n / 2 ^ 7 - 1) + 1) := by omega
          generalize n / 2 ^ 7 - 1 = q at hn2
          generalize n % 128 = x at hn2
          subst hn2
          ring
        rw [e]
        exact Nat.ModEq.add
          ((Nat.mod_modEq _ _).trans (Nat.ModEq.add (Nat.mod_modEq _ _) (Nat.mod_modEq _ _)))
          (Nat.ModEq.mul_left _ (Nat.mod_modEq _ _))
      have hmod2 := hmod
      unfold Nat.ModEq at hmod2
      rw [hmod2]
      simp only [List.length_cons]
      congr 1
      omega

theorem drop_append_length (pre rest : List Nat) : (pre ++ rest).drop pre.length = rest := by
  simp

theorem encode_varint_rounds_indep : ∀ (r1 r2 n : Nat), n ≤ r1 → n ≤ r2 →
    encode_varint_rounds r1 n = encode_varint_rounds r2 n := by
  intro r1
  induction r1 with
  | zero =>
    intro r2 n h1 _
    have h0 : n = 0 := by omega
    subst h0
    cases r2 with
    | zero => rfl
    | succ r2 => rfl
  | succ r1 ih =>
    intro r2 n h1 h2
    cases r2 with
    | zero =>
      have h0 : n = 0 := by omega
      subst h0
      rfl
    | succ r2 =>
      rw [encode_varint_rounds, encode_varint_rounds]
      by_cases hm : n >>> 7 = 0
      · rw [if_pos hm, if_pos hm]
      · rw [if_neg hm, if_neg hm]
        rw [Nat.shiftRight_eq_div_pow] at hm ⊢
        rw [ih r2 _ (by omega) (by omega)]

/-- The encoder obeys the round equation of the bijective scheme: the bound on
the number of rounds is never reached. -/
theorem encode_varint_unfold (n : Nat) :
    encode_varint n =
      if n >>> 7 = 0 then [0x80 ||| (n &&& 0x7F)]
      else (n &&& 0x7F) :: encode_varint ((n >>> 7) - 1) := by
  unfold encode_varint
  cases n with
  | zero => rfl
  | succ n =>
    rw [encode_varint_rounds]
    by_cases hm : (n + 1) >>> 7 = 0
    · rw [if_pos hm, if_pos hm]
    · rw [if_neg hm, if_neg hm]
      rw [Nat.shiftRight_eq_div_pow] at hm ⊢
      rw [encode_varint_rounds_indep n ((n + 1) / 2 ^ 7 - 1) _ (by omega) (Nat.le_refl _)]

theorem varint_exact_loop_cons (ch : Nat) (rest : List Nat) (d s : Nat) :
    varint_exact_loop (ch :: rest) d s =
      if ch / 128 % 2 = 1 then d + ch % 128 * s
      else varint_exact_loop rest (d + ch % 128 * s + s * 128) (s * 128) := by
  rw [varint_exact_loop]
  simp only [and_0x7F, shiftLeft_seven]
  by_cases h : ch / 128 % 2 = 1
  · rw [if_pos ((and_0x80_ne_zero ch).2 h), if_pos h]
  · rw [if_neg (fun hc => h ((and_0x80_ne_zero ch).1 hc)), if_neg h]

theorem is_varint_seq_cons (b : Nat) (rest : List Nat) :
    is_varint_seq (b :: rest) = true ↔
      (rest = [] ∧ 128 ≤ b ∧ b < 256) ∨ (rest ≠ [] ∧ b < 128 ∧ is_varint_seq rest = true) := by
  rw [is_varint_seq]
  cases rest with
  | nil => simp
  | cons c r => simp

theorem varint_exact_loop_linear : ∀ (bs : List Nat) (d s : Nat),
    varint_exact_loop bs d s = d + s * varint_exact_loop bs 0 1 := by
  intro bs
  induction bs with
  | nil => intro d s; simp [varint_exact_loop]
  | cons ch rest ih =>
    intro d s
    rw [varint_exact_loop_cons, varint_exact_loop_cons]
    by_cases h : ch / 128 % 2 = 1
    · rw [if_pos h, if_pos h]
      ring
    · rw [if_neg h, if_neg h, ih, ih (0 + ch % 128 * 1 + 1 * 128) (1 * 128)]
      ring

/-- The wrapping decoder returns the unbounded value reduced modulo `2 ^ 64`. -/
theorem decode_loop_exact (tail : List Nat) : ∀ (bs : List Nat) (d s d1 s1 k : Nat),
    is_varint_seq bs = true → d ≡ d1 [MOD 2 ^ 64] → s ≡ s1 [MOD 2 ^ 64] →
    decode_varint_loop (bs ++ tail) d s k =
      (some (varint_exact_loop bs d1 s1 % 2 ^ 64), k + bs.length) := by
  intro bs
  induction bs with
  | nil => intro d s d1 s1 k hv; simp [is_varint_seq] at hv
  | cons ch rest ih =>
    intro d s d1 s1 k hv hd hs
    rw [List.cons_append, decode_varint_loop_cons, varint_exact_loop_cons]
    have hdata : d + ch % 128 * s ≡ d1 + ch % 128 * s1 [MOD 2 ^ 64] :=
      Nat.ModEq.add hd (Nat.ModEq.mul_left _ hs)
    have hshift : s * 128 ≡ s1 * 128 [MOD 2 ^ 64] := Nat.ModEq.mul_right _ hs
    rcases (is_varint_seq_cons ch rest).1 hv with ⟨hnil, h1, h2⟩ | ⟨hne, h1, h2⟩
    · have hbit : ch / 128 % 2 = 1 := by omega
      rw [if_pos hbit, if_pos hbit, hnil]
      have := hdata
      unfold Nat.ModEq at this
      rw [this]
      rfl
    · have hbit : ¬ (ch / 128 % 2 = 1) := by omega
      rw [if_neg hbit, if_neg hbit]
      rw [ih _ _ (d1 + ch % 128 * s1 + s1 * 128) (s1 * 128) _ h2
        ((Nat.mod_modEq _ _).trans
          (Nat.ModEq.add ((Nat.mod_modEq _ _).trans hdata) ((Nat.mod_modEq _ _).trans hshift)))
        ((Nat.mod_modEq _ _).trans hshift)]
      simp only [List.length_cons]
      congr 1
      omega

theorem varint_exact_injective : ∀ (a b : List Nat),
    is_varint_seq a = true → is_varint_seq b = true →
    varint_exact a = varint_exact b → a = b := by
  intro a
  induction a with
  | nil => intro b ha; simp [is_varint_seq] at ha
  | cons x ra ih =>
    intro b ha hb heq
    cases b with
    | nil => simp [is_varint_seq] at hb
    | cons y rb =>
      unfold varint_exact at heq ih
      rw [varint_exact_loop_cons, varint_exact_loop_cons] at heq
      rcases (is_varint_seq_cons x ra).1 ha with ⟨hxn, hx1, hx2⟩ | ⟨hxn, hx1, hx2⟩
      · have hbx : x / 128 % 2 = 1 := by omega
        rw [if_pos hbx] at heq
        rcases (is_varint_seq_cons y rb).1 hb with ⟨hyn, hy1, hy2⟩ | ⟨hyn, hy1, hy2⟩
        · have hby : y / 128 % 2 = 1 := by omega
          rw [if_pos hby] at heq
          have : x = y := by omega
          rw [this, hxn, hyn]
        · have hby : ¬ (y / 128 % 2 = 1) := by omega
          rw [if_neg hby, varint_exact_loop_linear] at heq
          generalize varint_exact_loop rb 0 1 = w at heq
          omega
      · have hbx : ¬ (x / 128 % 2 = 1) := by omega
        rw [if_neg hbx, varint_exact_loop_linear] at heq
        rcases (is_varint_seq_cons y rb).1 hb with ⟨hyn, hy1, hy2⟩ | ⟨hyn, hy1, hy2⟩
        · have hby : y / 128 % 2 = 1 := by omega
          rw [if_pos hby] at heq
          generalize varint_exact_loop ra 0 1 = w at heq
          omega
        · have hby : ¬ (y / 128 % 2 = 1) := by omega
          rw [if_neg hby, varint_exact_loop_linear rb] at heq
          have hw : varint_exact_loop ra 0 1 = varint_exact_loop rb 0 1 := by
            generalize varint_exact_loop ra 0 1 = w1 at heq
            generalize varint_exact_loop rb 0 1 = w2 at heq
            omega
          have hxy : x = y := by
            rw [hw] at heq
            generalize varint_exact_loop rb 0 1 = w2 at heq
            omega
          rw [hxy, ih rb hx2 hy2 hw]

theorem varint_exact_lt_count : ∀ (bs : List Nat), is_varint_seq bs = true →
    varint_exact bs < varint_count bs.length := by
  intro bs
  induction bs with
  | nil => intro h; simp [is_varint_seq] at h
  | cons x r ih =>
    intro h
    unfold varint_exact at *
    rw [varint_exact_loop_cons, List.length_cons, varint_count]
    rcases (is_varint_seq_cons x r).1 h with ⟨hn, h1, h2⟩ | ⟨hn, h1, h2⟩
    · have hb : x / 128 % 2 = 1 := by omega
      rw [if_pos hb]
      omega
    · have hb : ¬ (x / 128 % 2 = 1) := by omega
      rw [if_neg hb, varint_exact_loop_linear]
      have := ih h2
      omega

theorem varint_count_mono : ∀ (k m : Nat), k ≤ m → varint_count k ≤ varint_count m := by
  intro k m h
  induction m with
  | zero =>
    have : k = 0 := by omega
    rw [this]
  | succ m ih =>
    by_cases hk : k = m + 1
    · rw [hk]
    · have := ih (by omega)
      rw [varint_count]
      omega

/-! ## Signed deltas -/

theorem signed_delta_of_encoding (d : Int) (v : Nat)
    (hv : (v : Int) = 2 * |d| + (if d < 0 then 1 else 0)) : signed_delta v = d := by
  unfold signed_delta
  rw [and_one, shiftRight_one]
  have habs : |d| = if d < 0 then -d else d := by
    split
    · exact abs_of_neg (by assumption)
    · exact abs_of_nonneg (by omega)
  rw [habs] at hv
  by_cases hneg : d < 0
  · rw [if_pos hneg, if_pos hneg] at hv
    have h1 : v % 2 ≠ 0 := by omega
    rw [if_pos h1]
    omega
  · rw [if_neg hneg, if_neg hneg] at hv
    have h1 : ¬ (v % 2 ≠ 0) := by omega
    rw [if_neg h1]
    omega

theorem source_copy_zero_cursor (junk : Nat → Nat) (st : State) (v : Nat) (bps2 : FILE)
    (hoff : decode_varint st.bps_file = (some v, bps2)) :
    (bps_source_copy junk 0 st).2.hdr.source_relative_offset
      = relative_offset_add st.hdr.source_relative_offset v := by
  unfold bps_source_copy
  simp only [hoff]
  split
  · rfl
  · split
    · rfl
    · rfl

theorem target_copy_zero_cursor (junk : Nat → Nat) (st : State) (v : Nat) (bps2 : FILE)
    (hoff : decode_varint st.bps_file = (some v, bps2)) :
    (bps_target_copy junk 0 st).2.hdr.target_relative_offset
      = relative_offset_add st.hdr.target_relative_offset v := by
  unfold bps_target_copy
  simp only [hoff]
  rfl

/-! ## The footer test of `bps_next` -/

theorem source_read_loop_not_done (junk : Nat → Nat) : ∀ (n i : Nat) (st : State),
    (bps_source_read_loop junk n i st).1 ≠ HUNK_DONE := by
  intro n
  induction n with
  | zero => intro i st; simp [bps_source_read_loop]
  | succ n ih =>
    intro i st
    rw [bps_source_read_loop]
    split
    · simp
    · exact ih _ _

theorem target_read_loop_not_done (junk : Nat → Nat) : ∀ (n i : Nat) (st : State),
    (bps_target_read_loop junk n i st).1 ≠ HUNK_DONE := by
  intro n
  induction n with
  | zero => intro i st; simp [bps_target_read_loop]
  | succ n ih =>
    intro i st
    rw [bps_target_read_loop]
    split
    · simp
    · exact ih _ _

theorem source_copy_loop_not_done (junk : Nat → Nat) : ∀ (n i : Nat) (st : State),
    (bps_source_copy_loop junk n i st).1 ≠ HUNK_DONE := by
  intro n
  induction n with
  | zero => intro i st; simp [bps_source_copy_loop]
  | succ n ih =>
    intro i st
    rw [bps_source_copy_loop]
    split
    · simp
    · exact ih _ _

theorem target_copy_loop_not_done (junk : Nat → Nat) : ∀ (n i : Nat) (st : State),
    (bps_target_copy_loop junk n i st).1 ≠ HUNK_DONE := by
  intro n
  induction n with
  | zero => intro i st; simp [bps_target_copy_loop]
  | succ n ih =>
    intro i st
    rw [bps_target_copy_loop]
    split
    · simp
    · simp only []
      split
      · simp
      · split
        · simp
        · exact ih _ _

theorem source_read_not_done (junk : Nat → Nat) (L : Nat) (st : State) :
    (bps_source_read junk L st).1 ≠ HUNK_DONE := by
  unfold bps_source_read
  split
  · simp
  · split
    · simp
    · exact source_read_loop_not_done junk _ _ _

theorem target_read_not_done (junk : Nat → Nat) (L : Nat) (st : State) :
    (bps_target_read junk L st).1 ≠ HUNK_DONE := by
  unfold bps_target_read
  split
  · simp
  · exact target_read_loop_not_done junk _ _ _

theorem source_copy_not_done (junk : Nat → Nat) (L : Nat) (st : State) :
    (bps_source_copy junk L st).1 ≠ HUNK_DONE := by
  unfold bps_source_copy
  simp only []
  split
  · simp
  · split
    · simp
    · split
      · simp
      · exact source_copy_loop_not_done junk _ _ _

theorem target_copy_not_done (junk : Nat → Nat) (L : Nat) (st : State) :
    (bps_target_copy junk L st).1 ≠ HUNK_DONE := by
  unfold bps_target_copy
  simp only []
  split
  · simp
  · exact target_copy_loop_not_done junk _ _ _

theorem bps_next_at_footer (junk : Nat → Nat) (st : State)
    (h12 : 12 ≤ st.hdr.patch_size) (hps : st.hdr.patch_size < 2 ^ 63)
    (hpos : st.bps_file.pos < 2 ^ 63)
    (hge : st.hdr.patch_size - 12 ≤ (st.bps_file.pos : Int)) :
    bps_next junk st = (HUNK_DONE, st) := by
  have hftell : ftell st.bps_file = (st.bps_file.pos : Int) := by
    unfold ftell
    rw [if_pos hpos]
  unfold bps_next
  simp only [hftell]
  rw [if_neg (by omega), if_pos (by unfold toU64 FOOTER_LENGTH; omega)]

theorem bps_next_decode_fail (junk : Nat → Nat) (st : State)
    (hps : st.hdr.patch_size < 2 ^ 63)
    (hlt : (st.bps_file.pos : Int) + 12 < st.hdr.patch_size)
    (hnone : (decode_varint st.bps_file).1 = none) :
    bps_next junk st =
      ( HUNK_ERR_IO, { st with bps_file := (decode_varint st.bps_file).2 }) := by
  have hftell : ftell st.bps_file = (st.bps_file.pos : Int) := by
    unfold ftell
    rw [if_pos (by omega)]
  unfold bps_next
  simp only [hftell, hnone]
  rw [if_neg (by omega), if_neg (by unfold toU64 FOOTER_LENGTH; omega)]

theorem bps_next_before_footer_not_done (junk : Nat → Nat) (st : State)
    (hps : st.hdr.patch_size < 2 ^ 63)
    (hlt : (st.bps_file.pos : Int) + 12 < st.hdr.patch_size) :
    (bps_next junk st).1 ≠ HUNK_DONE := by
  cases hdec : decode_varint st.bps_file with
  | mk r bps1 =>
    cases r with
    | none =>
      rw [bps_next_decode_fail junk st hps hlt (by rw [hdec])]
      simp
    | some tok =>
      rw [bps_next_of_token junk hps hlt hdec]
      split
      · exact source_read_not_done junk _ _
      · split
        · exact target_read_not_done junk _ _
        · split
          · exact source_copy_not_done junk _ _
          · exact target_copy_not_done junk _ _

theorem bps_next_ftell_fail (junk : Nat → Nat) (st : State)
    (hpos : ¬ st.bps_file.pos < 2 ^ 63) : bps_next junk st = ( HUNK_ERR_IO, st) := by
  have hftell : ftell st.bps_file = -1 := by
    unfold ftell
    rw [if_neg hpos]
  unfold bps_next
  simp only [hftell]
  rw [if_pos True.intro]

theorem patch_reads_of_unchanged (junk : Nat → Nat) (st : State)
    (h : (bps_next junk st).2 = st) : patch_reads junk st = [] := by
  unfold patch_reads
  rw [h]
  simp

/-! ## Frame of the executors -/

theorem frame_refl (st : State) : frame st st :=
  ⟨rfl, rfl, rfl, rfl, rfl, rfl, Nat.le_refl _, fun h => h⟩

theorem frame_trans {a b c : State} (h1 : frame a b) (h2 : frame b c) : frame a c := by
  obtain ⟨a1, a2, a3, a4, a5, a6, a7, a8⟩ := h1
  obtain ⟨b1, b2, b3, b4, b5, b6, b7, b8⟩ := h2
  refine ⟨by rw [b1, a1], by rw [b2, a2], by rw [b3, a3], by rw [b4, a4], by rw [b5, a5],
    by rw [b6, a6], by omega, ?_⟩
  intro h
  have := a8 h
  rw [a6] at b8
  exact b8 this

theorem frame_of (st st1 : State)
    (h1 : st1.hdr.source_size = st.hdr.source_size)
    (h2 : st1.hdr.target_size = st.hdr.target_size)
    (h3 : st1.hdr.metadata_size = st.hdr.metadata_size)
    (h4 : st1.hdr.patch_size = st.hdr.patch_size)
    (h5 : st1.input_file.bytes = st.input_file.bytes)
    (h6 : st1.bps_file.bytes = st.bps_file.bytes)
    (h7 : st.bps_file.pos ≤ st1.bps_file.pos)
    (h8 : st.bps_file.pos ≤ st.bps_file.bytes.length →
      st1.bps_file.pos ≤ st.bps_file.bytes.length) : frame st st1 :=
  ⟨h1, h2, h3, h4, h5, h6, h7, h8⟩

theorem fread1_bytes (f : FILE) : (fread1 f).2.bytes = f.bytes := by
  unfold fread1
  split <;> rfl

theorem fread1_pos (f : FILE) :
    f.pos ≤ (fread1 f).2.pos ∧ (f.pos ≤ f.bytes.length → (fread1 f).2.pos ≤ f.bytes.length) := by
  unfold fread1
  split
  · rename_i b hb
    have hlt : f.pos < f.bytes.length := by
      by_contra hc
      rw [List.getElem?_eq_none (by omega)] at hb
      cases hb
    constructor
    · simp only []
      omega
    · intro _
      simp only []
      omega
  · exact ⟨Nat.le_refl _, fun h => h⟩

theorem fseek_set_bytes {f g : FILE} {off : Int} (h : fseek_set f off = some g) :
    g.bytes = f.bytes ∧ g.err = f.err := by
  unfold fseek_set at h
  split at h
  · cases h
  · cases h
    exact ⟨rfl, rfl⟩

theorem decode_varint_loop_count : ∀ (bs : List Nat) (d s k : Nat),
    k ≤ (decode_varint_loop bs d s k).2
    ∧ (decode_varint_loop bs d s k).2 ≤ k + bs.length
    ∧ ((decode_varint_loop bs d s k).1 ≠ none → k < (decode_varint_loop bs d s k).2) := by
  intro bs
  induction bs with
  | nil =>
    intro d s k
    simp [decode_varint_loop]
  | cons ch rest ih =>
    intro d s k
    rw [decode_varint_loop]
    by_cases hc : ch &&& 0x80 ≠ 0
    · rw [if_pos hc]
      simp only [List.length_cons]
      refine ⟨by omega, by omega, fun _ => by omega⟩
    · rw [if_neg hc]
      obtain ⟨h1, h2, h3⟩ := ih ((((d + (ch &&& 0x7F) * s) % 2 ^ 64) + (s <<< 7) % 2 ^ 64) % 2 ^ 64)
        ((s <<< 7) % 2 ^ 64) (k + 1)
      simp only [List.length_cons]
      refine ⟨by omega, by omega, fun _ => by omega⟩

theorem decode_varint_pos (f : FILE) :
    (decode_varint f).2.bytes = f.bytes
    ∧ f.pos ≤ (decode_varint f).2.pos
    ∧ (f.pos ≤ f.bytes.length → (decode_varint f).2.pos ≤ f.bytes.length)
    ∧ ((decode_varint f).1 ≠ none →
        f.pos < (decode_varint f).2.pos ∧ (decode_varint f).2.pos ≤ f.bytes.length) := by
  obtain ⟨h1, h2, h3⟩ := decode_varint_loop_count (f.bytes.drop f.pos) 0 1 0
  have hlen : (f.bytes.drop f.pos).length = f.bytes.length - f.pos := List.length_drop _ _
  unfold decode_varint
  simp only [ne_eq, true_and]
  refine ⟨by omega, fun h => by omega, ?_⟩
  intro hs
  have h4 := h3 hs
  omega

theorem source_read_loop_frame (junk : Nat → Nat) : ∀ (n i : Nat) (st : State),
    frame st (bps_source_read_loop junk n i st).2 := by
  intro n
  induction n with
  | zero => intro i st; exact frame_refl st
  | succ n ih =>
    intro i st
    rw [bps_source_read_loop]
    simp only []
    split
    · exact frame_of _ _ rfl rfl rfl rfl (fread1_bytes _) rfl (Nat.le_refl _) (fun h => h)
    · refine frame_trans ?_ (ih _ _)
      exact frame_of _ _ rfl rfl rfl rfl (fread1_bytes _) rfl (Nat.le_refl _) (fun h => h)

theorem target_read_loop_frame (junk : Nat → Nat) : ∀ (n i : Nat) (st : State),
    frame st (bps_target_read_loop junk n i st).2 := by
  intro n
  induction n with
  | zero => intro i st; exact frame_refl st
  | succ n ih =>
    intro i st
    rw [bps_target_read_loop]
    simp only []
    split
    · exact frame_of _ _ rfl rfl rfl rfl rfl (fread1_bytes _) (fread1_pos _).1 (fread1_pos _).2
    · refine frame_trans ?_ (ih _ _)
      exact frame_of _ _ rfl rfl rfl rfl rfl (fread1_bytes _) (fread1_pos _).1 (fread1_pos _).2

theorem source_copy_loop_frame (junk : Nat → Nat) : ∀ (n i : Nat) (st : State),
    frame st (bps_source_copy_loop junk n i st).2 := by
  intro n
  induction n with
  | zero => intro i st; exact frame_refl st
  | succ n ih =>
    intro i st
    rw [bps_source_copy_loop]
    simp only []
    split
    · exact frame_of _ _ rfl rfl rfl rfl (fread1_bytes _) rfl (Nat.le_refl _) (fun h => h)
    · refine frame_trans ?_ (ih _ _)
      exact frame_of _ _ rfl rfl rfl rfl (fread1_bytes _) rfl (Nat.le_refl _) (fun h => h)

theorem target_copy_loop_frame (junk : Nat → Nat) : ∀ (n i : Nat) (st : State),
    frame st (bps_target_copy_loop junk n i st).2 := by
  intro n
  induction n with
  | zero => intro i st; exact frame_refl st
  | succ n ih =>
    intro i st
    rw [bps_target_copy_loop]
    split
    · exact frame_refl st
    · simp only []
      split
      · exact frame_of _ _ rfl rfl rfl rfl rfl rfl (Nat.le_refl _) (fun h => h)
      · split
        · exact frame_of _ _ rfl rfl rfl rfl rfl rfl (Nat.le_refl _) (fun h => h)
        · refine frame_trans ?_ (ih _ _)
          exact frame_of _ _ rfl rfl rfl rfl rfl rfl (Nat.le_refl _) (fun h => h)

theorem source_read_frame (junk : Nat → Nat) (L : Nat) (st : State) :
    frame st (bps_source_read junk L st).2 := by
  unfold bps_source_read
  split
  · exact frame_refl st
  · rename_i fin hfin
    split
    · exact frame_of _ _ rfl rfl rfl rfl (fseek_set_bytes hfin).1 rfl (Nat.le_refl _)
        (fun h => h)
    · refine frame_trans ?_ (source_read_loop_frame junk _ _ _)
      exact frame_of _ _ rfl rfl rfl rfl (fseek_set_bytes hfin).1 rfl (Nat.le_refl _)
        (fun h => h)

theorem target_read_frame (junk : Nat → Nat) (L : Nat) (st : State) :
    frame st (bps_target_read junk L st).2 := by
  unfold bps_target_read
  split
  · exact frame_refl st
  · refine frame_trans ?_ (target_read_loop_frame junk _ _ _)
    exact frame_of _ _ rfl rfl rfl rfl rfl rfl (Nat.le_refl _) (fun h => h)

theorem decode_frame (st : State) :
    frame st { st with bps_file := (decode_varint st.bps_file).2 } :=
  frame_of _ _ rfl rfl rfl rfl rfl (decode_varint_pos _).1 (decode_varint_pos _).2.1
    (decode_varint_pos _).2.2.1

theorem source_copy_frame (junk : Nat → Nat) (L : Nat) (st : State) :
    frame st (bps_source_copy junk L st).2 := by
  have hd := decode_frame st
  unfold bps_source_copy
  simp only []
  split
  · exact hd
  · refine frame_trans hd ?_
    split
    · exact frame_of _ _ rfl rfl rfl rfl rfl rfl (Nat.le_refl _) (fun h => h)
    · split
      · exact frame_of _ _ rfl rfl rfl rfl rfl rfl (Nat.le_refl _) (fun h => h)
      · rename_i fin hfin
        refine frame_trans ?_ (source_copy_loop_frame junk _ _ _)
        exact frame_of _ _ rfl rfl rfl rfl (fseek_set_bytes hfin).1 rfl (Nat.le_refl _)
          (fun h => h)

theorem target_copy_frame (junk : Nat → Nat) (L : Nat) (st : State) :
    frame st (bps_target_copy junk L st).2 := by
  have hd := decode_frame st
  unfold bps_target_copy
  simp only []
  split
  · exact hd
  · refine frame_trans hd ?_
    refine frame_trans ?_ (target_copy_loop_frame junk _ _ _)
    exact frame_of _ _ rfl rfl rfl rfl rfl rfl (Nat.le_refl _) (fun h => h)

/-! ## The four outcomes of `bps_next` -/

theorem bps_next_cases (junk : Nat → Nat) (st : State) :
    bps_next junk st = ( HUNK_ERR_IO, st)
    ∨ bps_next junk st = (HUNK_DONE, st)
    ∨ ((decode_varint st.bps_file).1 = none
        ∧ bps_next junk st = ( HUNK_ERR_IO, { st with bps_file := (decode_varint st.bps_file).2 }))
    ∨ (∃ tok, (decode_varint st.bps_file).1 = some tok ∧ tok < 2 ^ 64
        ∧ bps_next junk st
          = dispatch junk tok { st with bps_file := (decode_varint st.bps_file).2 }) := by
  by_cases h1 : ftell st.bps_file = -1
  · left
    unfold bps_next
    simp only [h1]
    rw [if_pos True.intro]
  · by_cases h2 : toU64 (ftell st.bps_file)
        ≥ (toU64 st.hdr.patch_size + (2 ^ 64 - FOOTER_LENGTH)) % 2 ^ 64
    · right; left
      unfold bps_next
      simp only []
      rw [if_neg h1, if_pos h2]
    · right; right
      cases hdec : (decode_varint st.bps_file).1 with
      | none =>
        left
        refine ⟨rfl, ?_⟩
        unfold bps_next
        simp only [hdec]
        rw [if_neg h1, if_neg h2]
      | some tok =>
        right
        have hlt : tok < 2 ^ 64 :=
          decode_varint_lt (Prod.ext hdec (rfl : (decode_varint st.bps_file).2 = _))
        have hlen : (tok / 4 + 1) % 2 ^ 64 = tok / 4 + 1 := by omega
        refine ⟨tok, rfl, hlt, ?_⟩
        unfold bps_next dispatch
        simp only [hdec, and_three, shiftRight_two, hlen]
        rw [if_neg h1, if_neg h2]
        have h4 : tok % 4 < 4 := Nat.mod_lt _ (by norm_num)
        generalize tok % 4 = c at h4
        match c, h4 with
        | 0, _ => rfl
        | 1, _ => rfl
        | 2, _ => rfl
        | 3, _ => rfl

theorem dispatch_frame (junk : Nat → Nat) (tok : Nat) (st : State) :
    frame st (dispatch junk tok st).2 := by
  unfold dispatch
  split
  · exact source_read_frame junk _ st
  · split
    · exact target_read_frame junk _ st
    · split
      · exact source_copy_frame junk _ st
      · exact target_copy_frame junk _ st

theorem dispatch_not_done (junk : Nat → Nat) (tok : Nat) (st : State) :
    (dispatch junk tok st).1 ≠ HUNK_DONE := by
  unfold dispatch
  split
  · exact source_read_not_done junk _ st
  · split
    · exact target_read_not_done junk _ st
    · split
      · exact source_copy_not_done junk _ st
      · exact target_copy_not_done junk _ st

theorem bps_next_frame (junk : Nat → Nat) (st : State) : frame st (bps_next junk st).2 := by
  rcases bps_next_cases junk st with h | h | ⟨_, h⟩ | ⟨tok, _, _, h⟩
  · rw [h]; exact frame_refl st
  · rw [h]; exact frame_refl st
  · rw [h]; exact decode_frame st
  · rw [h]; exact frame_trans (decode_frame st) (dispatch_frame junk tok _)

theorem bps_next_done (junk : Nat → Nat) (st : State)
    (hd : (bps_next junk st).1 = HUNK_DONE) : bps_next junk st = (HUNK_DONE, st) := by
  rcases bps_next_cases junk st with h | h | ⟨_, h⟩ | ⟨tok, _, _, h⟩
  · rw [h] at hd; cases hd
  · exact h
  · rw [h] at hd; cases hd
  · rw [h] at hd
    exact absurd hd (dispatch_not_done junk tok _)

theorem bps_next_advances (junk : Nat → Nat) (st : State)
    (hn : (bps_next junk st).1 = HUNK_NEXT) :
    st.bps_file.pos < (bps_next junk st).2.bps_file.pos
    ∧ (bps_next junk st).2.bps_file.pos ≤ st.bps_file.bytes.length
    ∧ (bps_next junk st).2.bps_file.bytes = st.bps_file.bytes := by
  rcases bps_next_cases junk st with h | h | ⟨_, h⟩ | ⟨tok, htok, _, h⟩
  · rw [h] at hn; cases hn
  · rw [h] at hn; cases hn
  · rw [h] at hn; cases hn
  · have hpos := (decode_varint_pos st.bps_file).2.2.2 (by rw [htok]; simp)
    have hby := (decode_varint_pos st.bps_file).1
    obtain ⟨_, _, _, _, _, f6, f7, f8⟩ :=
      dispatch_frame junk tok { st with bps_file := (decode_varint st.bps_file).2 }
    simp only [] at f6 f7 f8
    rw [h]
    rw [hby] at f8 f6
    exact ⟨by omega, f8 hpos.2, f6⟩

/-! ## The copy cursors -/

theorem source_read_loop_cursors (junk : Nat → Nat) : ∀ (n i : Nat) (st : State),
    (bps_source_read_loop junk n i st).2.hdr.source_relative_offset
        = st.hdr.source_relative_offset
    ∧ (bps_source_read_loop junk n i st).2.hdr.target_relative_offset
        = st.hdr.target_relative_offset := by
  intro n
  induction n with
  | zero => intro i st; exact ⟨rfl, rfl⟩
  | succ n ih =>
    intro i st
    rw [bps_source_read_loop]
    simp only []
    split
    · exact ⟨rfl, rfl⟩
    · exact ih _ _

theorem target_read_loop_cursors (junk : Nat → Nat) : ∀ (n i : Nat) (st : State),
    (bps_target_read_loop junk n i st).2.hdr.source_relative_offset
        = st.hdr.source_relative_offset
    ∧ (bps_target_read_loop junk n i st).2.hdr.target_relative_offset
        = st.hdr.target_relative_offset := by
  intro n
  induction n with
  | zero => intro i st; exact ⟨rfl, rfl⟩
  | succ n ih =>
    intro i st
    rw [bps_target_read_loop]
    simp only []
    split
    · exact ⟨rfl, rfl⟩
    · exact ih _ _

theorem source_copy_loop_cursor (junk : Nat → Nat) : ∀ (n i : Nat) (st : State),
    (bps_source_copy_loop junk n i st).2.hdr.target_relative_offset
      = st.hdr.target_relative_offset := by
  intro n
  induction n with
  | zero => intro i st; rfl
  | succ n ih =>
    intro i st
    rw [bps_source_copy_loop]
    simp only []
    split
    · rfl
    · exact ih _ _

theorem target_copy_loop_cursor (junk : Nat → Nat) : ∀ (n i : Nat) (st : State),
    (bps_target_copy_loop junk n i st).2.hdr.source_relative_offset
      = st.hdr.source_relative_offset := by
  intro n
  induction n with
  | zero => intro i st; rfl
  | succ n ih =>
    intro i st
    rw [bps_target_copy_loop]
    split
    · rfl
    · simp only []
      split
      · rfl
      · split
        · rfl
        · exact ih _ _

theorem source_read_cursors (junk : Nat → Nat) (L : Nat) (st : State) :
    (bps_source_read junk L st).2.hdr.source_relative_offset = st.hdr.source_relative_offset
    ∧ (bps_source_read junk L st).2.hdr.target_relative_offset
        = st.hdr.target_relative_offset := by
  unfold bps_source_read
  split
  · exact ⟨rfl, rfl⟩
  · split
    · exact ⟨rfl, rfl⟩
    · exact source_read_loop_cursors junk _ _ _

theorem target_read_cursors (junk : Nat → Nat) (L : Nat) (st : State) :
    (bps_target_read junk L st).2.hdr.source_relative_offset = st.hdr.source_relative_offset
    ∧ (bps_target_read junk L st).2.hdr.target_relative_offset
        = st.hdr.target_relative_offset := by
  unfold bps_target_read
  split
  · exact ⟨rfl, rfl⟩
  · exact target_read_loop_cursors junk _ _ _

theorem source_copy_cursor (junk : Nat → Nat) (L : Nat) (st : State) :
    (bps_source_copy junk L st).2.hdr.target_relative_offset
      = st.hdr.target_relative_offset := by
  unfold bps_source_copy
  simp only []
  split
  · rfl
  · split
    · rfl
    · split
      · rfl
      · exact source_copy_loop_cursor junk _ _ _

theorem target_copy_cursor (junk : Nat → Nat) (L : Nat) (st : State) :
    (bps_target_copy junk L st).2.hdr.source_relative_offset
      = st.hdr.source_relative_offset := by
  unfold bps_target_copy
  simp only []
  split
  · rfl
  · exact target_copy_loop_cursor junk _ _ _

theorem bps_next_source_cursor (junk : Nat → Nat) (st : State)
    (hc : next_command st ≠ some 2) :
    (bps_next junk st).2.hdr.source_relative_offset = st.hdr.source_relative_offset := by
  rcases bps_next_cases junk st with h | h | ⟨_, h⟩ | ⟨tok, htok, _, h⟩
  · rw [h]
  · rw [h]
  · rw [h]
  · rw [h]
    unfold next_command at hc
    rw [htok] at hc
    simp only [Option.map_some', ne_eq, Option.some.injEq] at hc
    unfold dispatch
    split
    · exact (source_read_cursors junk _ _).1
    · split
      · exact (target_read_cursors junk _ _).1
      · exact target_copy_cursor junk _ _

theorem bps_next_target_cursor (junk : Nat → Nat) (st : State)
    (hc : next_command st ≠ some 3) :
    (bps_next junk st).2.hdr.target_relative_offset = st.hdr.target_relative_offset := by
  rcases bps_next_cases junk st with h | h | ⟨_, h⟩ | ⟨tok, htok, hlt, h⟩
  · rw [h]
  · rw [h]
  · rw [h]
  · rw [h]
    unfold next_command at hc
    rw [htok] at hc
    simp only [Option.map_some', ne_eq, Option.some.injEq] at hc
    unfold dispatch
    split
    · exact (source_read_cursors junk _ _).2
    · split
      · exact (target_read_cursors junk _ _).2
      · split
        · exact source_copy_cursor junk _ _
        · rename_i h0 h1 h2
          rw [and_three] at h0 h1 h2 hc
          omega

/-! ## Sequences of calls -/

theorem bps_run_succ (junk : Nat → Nat) : ∀ (n : Nat) (st : State),
    bps_run junk (n + 1) st = (bps_next junk (bps_run junk n st)).2 := by
  intro n
  induction n with
  | zero => intro st; rfl
  | succ n ih =>
    intro st
    rw [bps_run, ih (bps_next junk st).2]
    rfl

theorem bps_run_frame (junk : Nat → Nat) : ∀ (n : Nat) (st : State),
    frame st (bps_run junk n st) := by
  intro n
  induction n with
  | zero => intro st; exact frame_refl st
  | succ n ih =>
    intro st
    rw [bps_run_succ]
    exact frame_trans (ih st) (bps_next_frame junk _)

theorem bps_run_source_cursor (junk : Nat → Nat) : ∀ (k : Nat) (st : State),
    (∀ j, j < k → next_command (bps_run junk j st) ≠ some 2) →
    (bps_run junk k st).hdr.source_relative_offset = st.hdr.source_relative_offset := by
  intro k
  induction k with
  | zero => intro st _; rfl
  | succ k ih =>
    intro st h
    rw [bps_run_succ, bps_next_source_cursor junk _ (h k (by omega))]
    exact ih st (fun j hj => h j (by omega))

theorem bps_next_source_copy_ok (junk : Nat → Nat) (st : State) (tok L v c1 : Nat)
    (bps1 bps2 : FILE)
    (hps : st.hdr.patch_size < 2 ^ 63)
    (hfoot : (st.bps_file.pos : Int) + 12 < st.hdr.patch_size)
    (htok : decode_varint st.bps_file = (some tok, bps1))
    (hcmd : tok &&& 3 = 2) (hlen : (tok >>> 2) + 1 = L)
    (hoff : decode_varint bps1 = (some v, bps2))
    (hc1 : st.hdr.source_relative_offset + signed_delta v = (c1 : Int))
    (hsrc : c1 + L ≤ st.input_file.bytes.length)
    (hsz : st.input_file.bytes.length < 2 ^ 63)
    (ho : st.hdr.output_offset < 2 ^ 63) :
    bps_next junk st =
      (HUNK_NEXT,
        { hdr := { st.hdr with
            output_offset := st.hdr.output_offset + L
            source_relative_offset := (c1 : Int) + (L : Int) }
          input_file := { st.input_file with pos := c1 + L }
          output_file :=
            { st.output_file with
              bytes := write_seq st.output_file.bytes st.hdr.output_offset
                (slice st.input_file.bytes c1 L)
              pos := st.hdr.output_offset + L }
          bps_file := bps2 }) := by
  have hlt := decode_varint_lt htok
  rw [and_three] at hcmd
  rw [shiftRight_two] at hlen
  have hL2 : L ≤ 2 ^ 62 := by omega
  have hn0 : ¬ tok % 4 = 0 := by omega
  have hn1 : ¬ tok % 4 = 1 := by omega
  rw [bps_next_of_token junk hps hfoot htok, if_neg hn0, if_neg hn1, if_pos hcmd, hlen]
  rw [source_copy_ok junk L v { st with bps_file := bps1 } bps2 hoff
    (by simp only []; omega) (by simp only []; omega) hsz ho hL2]
  simp only []
  rw [hc1, Int.toNat_ofNat]

/-! ## The header reader -/

theorem decode_varint_at (f : FILE) (pre v tail : List Nat)
    (hb : f.bytes = pre ++ (v ++ tail)) (hp : f.pos = pre.length)
    (hv : is_varint_seq v = true) :
    decode_varint f = (some (varint_exact v % 2 ^ 64), { f with pos := f.pos + v.length }) := by
  unfold decode_varint
  simp only []
  rw [hb, hp, drop_append_length, decode_loop_exact tail v 0 1 0 1 0 hv rfl rfl]
  simp only [Nat.zero_add]
  rfl

theorem bps_start_ok (lim : Nat) (pre v1 v2 v3 tail : List Nat) (p : Nat) (e : Bool)
    (h : bps_file_header) (s t m : Nat)
    (hpre : pre.length = 4)
    (hv1 : is_varint_seq v1 = true) (hv2 : is_varint_seq v2 = true)
    (hv3 : is_varint_seq v3 = true)
    (hs : varint_exact v1 = s) (ht : varint_exact v2 = t) (hm : varint_exact v3 = m)
    (hs64 : s < 2 ^ 64) (ht64 : t < 2 ^ 64)
    (hpos : 4 + (v1.length + v2.length + v3.length) + m ≤ lim) (hlim : lim < 2 ^ 63)
    (hlen : (pre ++ (v1 ++ (v2 ++ (v3 ++ tail)))).length < 2 ^ 63) :
    bps_start lim ⟨pre ++ (v1 ++ (v2 ++ (v3 ++ tail))), p, e⟩ h =
      (PATCH_OK,
        ⟨pre ++ (v1 ++ (v2 ++ (v3 ++ tail))), 4 + (v1.length + v2.length + v3.length) + m, e⟩,
        ⟨s, t, m, ((pre ++ (v1 ++ (v2 ++ (v3 ++ tail)))).length : Int), 0, 0, 0⟩) := by
  have hm64 : m < 2 ^ 64 := by omega
  have d1 := decode_varint_at ⟨pre ++ (v1 ++ (v2 ++ (v3 ++ tail))), 4, e⟩ pre v1
    (v2 ++ (v3 ++ tail)) rfl hpre.symm hv1
  have d2 := decode_varint_at ⟨pre ++ (v1 ++ (v2 ++ (v3 ++ tail))), 4 + v1.length, e⟩
    (pre ++ v1) v2 (v3 ++ tail) (by simp) (by simp [hpre]) hv2
  have d3 := decode_varint_at
    ⟨pre ++ (v1 ++ (v2 ++ (v3 ++ tail))), 4 + v1.length + v2.length, e⟩
    (pre ++ (v1 ++ v2)) v3 tail (by simp) (by simp [hpre]; omega) hv3
  rw [hs, Nat.mod_eq_of_lt hs64] at d1
  rw [ht, Nat.mod_eq_of_lt ht64] at d2
  rw [hm, Nat.mod_eq_of_lt hm64] at d3
  have hftell : ftell ⟨pre ++ (v1 ++ (v2 ++ (v3 ++ tail))),
      (pre ++ (v1 ++ (v2 ++ (v3 ++ tail)))).length, e⟩
      = ((pre ++ (v1 ++ (v2 ++ (v3 ++ tail)))).length : Int) := by
    unfold ftell
    rw [if_pos hlen]
  have hne : ¬ (((pre ++ (v1 ++ (v2 ++ (v3 ++ tail)))).length : Int) = -1) := by omega
  have hseek : fseek_set ⟨pre ++ (v1 ++ (v2 ++ (v3 ++ tail))),
      (pre ++ (v1 ++ (v2 ++ (v3 ++ tail)))).length, e⟩ ((BPS_MARKER_SIZE : Nat) : Int)
      = some ⟨pre ++ (v1 ++ (v2 ++ (v3 ++ tail))), 4, e⟩ := by
    rw [fseek_set_natCast]
    rfl
  unfold bps_start fseek_end
  simp only [hftell, hseek, d1, d2, d3]
  rw [if_neg hne]
  by_cases hm0 : m > 0
  · rw [if_pos hm0, toS64_of_lt (by omega)]
    unfold fseek_cur
    simp only []
    rw [if_neg (by omega)]
    simp only [bps_file_header.mk.injEq, Prod.mk.injEq, FILE.mk.injEq, true_and, and_true]
    omega
  · rw [if_neg hm0]
    have : m = 0 := by omega
    subst this
    simp only [bps_file_header.mk.injEq, Prod.mk.injEq, FILE.mk.injEq, true_and, and_true]
    omega

/-! ## Exhaustion of the patch stream -/

theorem first_terminal_none : ∀ (bs : List Nat),
    first_terminal bs = none ↔ ∀ b, b ∈ bs → b &&& 0x80 = 0 := by
  intro bs
  induction bs with
  | nil => simp [first_terminal]
  | cons ch rest ih =>
    rw [first_terminal]
    by_cases hc : ch &&& 0x80 ≠ 0
    · rw [if_pos hc]
      constructor
      · intro h; cases h
      · intro h
        exact absurd (h ch (List.mem_cons_self _ _)) hc
    · rw [if_neg hc]
      have hz : ch &&& 0x80 = 0 := by
        by_contra h0
        exact hc h0
      rw [Option.map_eq_none', ih]
      constructor
      · intro h b hb
        rcases List.mem_cons.1 hb with rfl | hb
        · exact hz
        · exact h b hb
      · intro h b hb
        exact h b (List.mem_cons_of_mem _ hb)

theorem decode_varint_loop_terminal : ∀ (bs : List Nat) (d s k : Nat),
    ((decode_varint_loop bs d s k).1 = none ↔ first_terminal bs = none)
    ∧ (∀ j, first_terminal bs = some j → (decode_varint_loop bs d s k).2 = k + j + 1) := by
  intro bs
  induction bs with
  | nil =>
    intro d s k
    simp [decode_varint_loop, first_terminal]
  | cons ch rest ih =>
    intro d s k
    rw [decode_varint_loop, first_terminal]
    by_cases hc : ch &&& 0x80 ≠ 0
    · rw [if_pos hc, if_pos hc]
      constructor
      · simp
      · intro j hj
        cases hj
        rfl
    · rw [if_neg hc, if_neg hc]
      obtain ⟨h1, h2⟩ := ih ((((d + (ch &&& 0x7F) * s) % 2 ^ 64) + (s <<< 7) % 2 ^ 64) % 2 ^ 64)
        ((s <<< 7) % 2 ^ 64) (k + 1)
      constructor
      · rw [h1, Option.map_eq_none']
      · intro j hj
        cases hft : first_terminal rest with
        | none => rw [hft] at hj; cases hj
        | some j1 =>
          rw [hft] at hj
          simp only [Option.map_some', Option.some.injEq] at hj
          rw [h2 j1 hft]
          omega

theorem bps_start_decode_fail (lim : Nat) (bps_file : FILE) (h : bps_file_header)
    (hf : (decode_varint { bps_file with pos := 4 }).1 = none
      ∨ (decode_varint (decode_varint { bps_file with pos := 4 }).2).1 = none
      ∨ (decode_varint
          (decode_varint (decode_varint { bps_file with pos := 4 }).2).2).1 = none) :
    (bps_start lim bps_file h).1 = PATCH_ERR_IO := by
  have hseek : fseek_set { bps_file with pos := bps_file.bytes.length }
      ((BPS_MARKER_SIZE : Nat) : Int) = some { bps_file with pos := 4 } := by
    rw [fseek_set_natCast]
    rfl
  unfold bps_start fseek_end
  simp only [hseek]
  split
  · rfl
  · split
    · rfl
    · split
      · rfl
      · split
        · rfl
        · rename_i e1 _ _ e2 _ _ e3
          rcases hf with hf | hf | hf
          · rw [hf] at e1; cases e1
          · rw [hf] at e2; cases e2
          · rw [hf] at e3; cases e3

theorem dispatch_offset_fail (junk : Nat → Nat) (tok : Nat) (st : State)
    (hcmd : tok &&& 3 = 2 ∨ tok &&& 3 = 3)
    (hf : (decode_varint st.bps_file).1 = none) :
    (dispatch junk tok st).1 = HUNK_ERR_IO := by
  rw [and_three] at hcmd
  unfold dispatch
  simp only [and_three]
  rw [if_neg (by omega), if_neg (by omega)]
  split
  · unfold bps_source_copy
    simp only [hf]
  · unfold bps_target_copy
    simp only [hf]

/-! ## Progress of `output_offset` -/

theorem fseek_set_toS64 {f g : FILE} {o : Nat} (h : fseek_set f (toS64 o) = some g)
    (ho : o < 2 ^ 64) : o < 2 ^ 63 := by
  unfold fseek_set toS64 at h
  by_contra hc
  have h1 : o % 2 ^ 64 = o := Nat.mod_eq_of_lt ho
  rw [h1, if_neg hc, if_pos (by omega)] at h
  cases h

theorem source_read_loop_offset (junk : Nat → Nat) : ∀ (n i : Nat) (st : State),
    st.hdr.output_offset + n < 2 ^ 64 →
    st.hdr.output_offset ≤ (bps_source_read_loop junk n i st).2.hdr.output_offset
    ∧ (bps_source_read_loop junk n i st).2.hdr.output_offset ≤ st.hdr.output_offset + n
    ∧ ((bps_source_read_loop junk n i st).1 = HUNK_NEXT →
        (bps_source_read_loop junk n i st).2.hdr.output_offset = st.hdr.output_offset + n) := by
  intro n
  induction n with
  | zero =>
    intro i st _
    rw [bps_source_read_loop]
    exact ⟨Nat.le_refl _, Nat.le_refl _, fun _ => rfl⟩
  | succ n ih =>
    intro i st h
    rw [bps_source_read_loop]
    simp only []
    split
    · exact ⟨Nat.le_refl _, Nat.le_add_right _ _, fun hc => by cases hc⟩
    · have hmod : (st.hdr.output_offset + 1) % 2 ^ 64 = st.hdr.output_offset + 1 := by omega
      obtain ⟨h1, h2, h3⟩ := ih (i + 1)
        { st with
          hdr := { st.hdr with output_offset := (st.hdr.output_offset + 1) % 2 ^ 64 }
          input_file := (fread1 st.input_file).2
          output_file := fwrite1 st.output_file ((fread1 st.input_file).1.getD (junk i)) }
        (by simp only []; omega)
      simp only [hmod] at h1 h2 h3 ⊢
      exact ⟨by omega, by omega, fun hc => by rw [h3 hc]; omega⟩

theorem target_read_loop_offset (junk : Nat → Nat) : ∀ (n i : Nat) (st : State),
    st.hdr.output_offset + n < 2 ^ 64 →
    st.hdr.output_offset ≤ (bps_target_read_loop junk n i st).2.hdr.output_offset
    ∧ (bps_target_read_loop junk n i st).2.hdr.output_offset ≤ st.hdr.output_offset + n
    ∧ ((bps_target_read_loop junk n i st).1 = HUNK_NEXT →
        (bps_target_read_loop junk n i st).2.hdr.output_offset = st.hdr.output_offset + n) := by
  intro n
  induction n with
  | zero =>
    intro i st _
    rw [bps_target_read_loop]
    exact ⟨Nat.le_refl _, Nat.le_refl _, fun _ => rfl⟩
  | succ n ih =>
    intro i st h
    rw [bps_target_read_loop]
    simp only []
    split
    · exact ⟨Nat.le_refl _, Nat.le_add_right _ _, fun hc => by cases hc⟩
    · have hmod : (st.hdr.output_offset + 1) % 2 ^ 64 = st.hdr.output_offset + 1 := by omega
      obtain ⟨h1, h2, h3⟩ := ih (i + 1)
        { st with
          hdr := { st.hdr with output_offset := (st.hdr.output_offset + 1) % 2 ^ 64 }
          bps_file := (fread1 st.bps_file).2
          output_file := fwrite1 st.output_file ((fread1 st.bps_file).1.getD (junk i)) }
        (by simp only []; omega)
      simp only [hmod] at h1 h2 h3 ⊢
      exact ⟨by omega, by omega, fun hc => by rw [h3 hc]; omega⟩

theorem source_copy_loop_offset (junk : Nat → Nat) : ∀ (n i : Nat) (st : State),
    st.hdr.output_offset + n < 2 ^ 64 →
    st.hdr.output_offset ≤ (bps_source_copy_loop junk n i st).2.hdr.output_offset
    ∧ (bps_source_copy_loop junk n i st).2.hdr.output_offset ≤ st.hdr.output_offset + n
    ∧ ((bps_source_copy_loop junk n i st).1 = HUNK_NEXT →
        (bps_source_copy_loop junk n i st).2.hdr.output_offset = st.hdr.output_offset + n) := by
  intro n
  induction n with
  | zero =>
    intro i st _
    rw [bps_source_copy_loop]
    exact ⟨Nat.le_refl _, Nat.le_refl _, fun _ => rfl⟩
  | succ n ih =>
    intro i st h
    rw [bps_source_copy_loop]
    simp only []
    split
    · exact ⟨Nat.le_refl _, Nat.le_add_right _ _, fun hc => by cases hc⟩
    · have hmod : (st.hdr.output_offset + 1) % 2 ^ 64 = st.hdr.output_offset + 1 := by omega
      obtain ⟨h1, h2, h3⟩ := ih (i + 1)
        { st with
          hdr := { st.hdr with
            output_offset := (st.hdr.output_offset + 1) % 2 ^ 64
            source_relative_offset := relative_offset_incr st.hdr.source_relative_offset }
          input_file := (fread1 st.input_file).2
          output_file := fwrite1 st.output_file ((fread1 st.input_file).1.getD (junk i)) }
        (by simp only []; omega)
      simp only [hmod] at h1 h2 h3 ⊢
      exact ⟨by omega, by omega, fun hc => by rw [h3 hc]; omega⟩

theorem target_copy_loop_offset (junk : Nat → Nat) : ∀ (n i : Nat) (st : State),
    st.hdr.output_offset < 2 ^ 64 →
    st.hdr.output_offset ≤ (bps_target_copy_loop junk n i st).2.hdr.output_offset
    ∧ (bps_target_copy_loop junk n i st).2.hdr.output_offset ≤ st.hdr.output_offset + n
    ∧ (bps_target_copy_loop junk n i st).2.hdr.output_offset < 2 ^ 64
    ∧ ((bps_target_copy_loop junk n i st).1 = HUNK_NEXT →
        (bps_target_copy_loop junk n i st).2.hdr.output_offset = st.hdr.output_offset + n) := by
  intro n
  induction n with
  | zero =>
    intro i st h
    rw [bps_target_copy_loop]
    exact ⟨Nat.le_refl _, Nat.le_refl _, h, fun _ => rfl⟩
  | succ n ih =>
    intro i st h
    rw [bps_target_copy_loop]
    split
    · exact ⟨Nat.le_refl _, Nat.le_add_right _ _, h, fun hc => by cases hc⟩
    · simp only []
      split
      · exact ⟨Nat.le_refl _, Nat.le_add_right _ _, h, fun hc => by cases hc⟩
      · split
        · exact ⟨Nat.le_refl _, Nat.le_add_right _ _, h, fun hc => by cases hc⟩
        · rename_i f1 _ _ _ f3 hseek
          have h63 := fseek_set_toS64 hseek h
          have hmod : (st.hdr.output_offset + 1) % 2 ^ 64 = st.hdr.output_offset + 1 := by
            omega
          obtain ⟨h1, h2, h3, h4⟩ := ih (i + 1)
            { st with
              hdr := { st.hdr with
                output_offset := (st.hdr.output_offset + 1) % 2 ^ 64
                target_relative_offset := relative_offset_incr st.hdr.target_relative_offset }
              output_file := fwrite1 f3 ((fread1 f1).1.getD (junk i)) }
            (by simp only []; omega)
          simp only [hmod] at h1 h2 h3 h4 ⊢
          exact ⟨by omega, by omega, h3, fun hc => by rw [h4 hc]; omega⟩

theorem source_read_offset (junk : Nat → Nat) (L : Nat) (st : State)
    (hL : L ≤ 2 ^ 62) (ho : st.hdr.output_offset < 2 ^ 64) :
    st.hdr.output_offset ≤ (bps_source_read junk L st).2.hdr.output_offset
    ∧ (bps_source_read junk L st).2.hdr.output_offset < 2 ^ 64
    ∧ ((bps_source_read junk L st).1 = HUNK_NEXT →
        (bps_source_read junk L st).2.hdr.output_offset = st.hdr.output_offset + L) := by
  unfold bps_source_read
  cases h1 : fseek_set st.input_file (toS64 st.hdr.output_offset) with
  | none => exact ⟨Nat.le_refl _, ho, fun hc => by cases hc⟩
  | some fin =>
    have h63 := fseek_set_toS64 h1 ho
    cases h2 : fseek_set st.output_file (toS64 st.hdr.output_offset) with
    | none => exact ⟨Nat.le_refl _, ho, fun hc => by cases hc⟩
    | some fout =>
      obtain ⟨a1, a2, a3⟩ := source_read_loop_offset junk L 0
        { st with input_file := fin, output_file := fout } (by simp only []; omega)
      simp only [] at a1 a2 a3 ⊢
      exact ⟨a1, by omega, a3⟩

theorem target_read_offset (junk : Nat → Nat) (L : Nat) (st : State)
    (hL : L ≤ 2 ^ 62) (ho : st.hdr.output_offset < 2 ^ 64) :
    st.hdr.output_offset ≤ (bps_target_read junk L st).2.hdr.output_offset
    ∧ (bps_target_read junk L st).2.hdr.output_offset < 2 ^ 64
    ∧ ((bps_target_read junk L st).1 = HUNK_NEXT →
        (bps_target_read junk L st).2.hdr.output_offset = st.hdr.output_offset + L) := by
  unfold bps_target_read
  cases h1 : fseek_set st.output_file (toS64 st.hdr.output_offset) with
  | none => exact ⟨Nat.le_refl _, ho, fun hc => by cases hc⟩
  | some fout =>
    have h63 := fseek_set_toS64 h1 ho
    obtain ⟨a1, a2, a3⟩ := target_read_loop_offset junk L 0
      { st with output_file := fout } (by simp only []; omega)
    simp only [] at a1 a2 a3 ⊢
    exact ⟨a1, by omega, a3⟩

theorem source_copy_offset (junk : Nat → Nat) (L : Nat) (st : State)
    (hL : L ≤ 2 ^ 62) (ho : st.hdr.output_offset < 2 ^ 64) :
    st.hdr.output_offset ≤ (bps_source_copy junk L st).2.hdr.output_offset
    ∧ (bps_source_copy junk L st).2.hdr.output_offset < 2 ^ 64
    ∧ ((bps_source_copy junk L st).1 = HUNK_NEXT →
        (bps_source_copy junk L st).2.hdr.output_offset = st.hdr.output_offset + L) := by
  unfold bps_source_copy
  simp only []
  cases hd : (decode_varint st.bps_file).1 with
  | none => exact ⟨Nat.le_refl _, ho, fun hc => by cases hc⟩
  | some data =>
    simp only []
    cases h1 : fseek_set st.output_file (toS64 st.hdr.output_offset) with
    | none => exact ⟨Nat.le_refl _, ho, fun hc => by cases hc⟩
    | some fout =>
      have h63 := fseek_set_toS64 h1 ho
      simp only []
      cases h2 : fseek_set st.input_file
          (relative_offset_add st.hdr.source_relative_offset data) with
      | none => exact ⟨Nat.le_refl _, ho, fun hc => by cases hc⟩
      | some fin =>
        obtain ⟨a1, a2, a3⟩ := source_copy_loop_offset junk L 0
          { hdr := { st.hdr with
              source_relative_offset :=
                relative_offset_add st.hdr.source_relative_offset data }
            input_file := fin
            output_file := fout
            bps_file := (decode_varint st.bps_file).2 } (by simp only []; omega)
        simp only [] at a1 a2 a3 ⊢
        exact ⟨a1, by omega, a3⟩

theorem target_copy_offset (junk : Nat → Nat) (L : Nat) (st : State)
    (ho : st.hdr.output_offset < 2 ^ 64) :
    st.hdr.output_offset ≤ (bps_target_copy junk L st).2.hdr.output_offset
    ∧ (bps_target_copy junk L st).2.hdr.output_offset < 2 ^ 64
    ∧ ((bps_target_copy junk L st).1 = HUNK_NEXT →
        (bps_target_copy junk L st).2.hdr.output_offset = st.hdr.output_offset + L) := by
  unfold bps_target_copy
  simp only []
  cases hd : (decode_varint st.bps_file).1 with
  | none => exact ⟨Nat.le_refl _, ho, fun hc => by cases hc⟩
  | some data =>
    obtain ⟨a1, a2, a3, a4⟩ := target_copy_loop_offset junk L 0
      { st with
        hdr := { st.hdr with
          target_relative_offset := relative_offset_add st.hdr.target_relative_offset data }
        bps_file := (decode_varint st.bps_file).2 } ho
    exact ⟨a1, a3, a4⟩

theorem dispatch_offset (junk : Nat → Nat) (tok : Nat) (st : State)
    (htok : tok < 2 ^ 64) (ho : st.hdr.output_offset < 2 ^ 64) :
    st.hdr.output_offset ≤ (dispatch junk tok st).2.hdr.output_offset
    ∧ (dispatch junk tok st).2.hdr.output_offset < 2 ^ 64
    ∧ ((dispatch junk tok st).1 = HUNK_NEXT →
        (dispatch junk tok st).2.hdr.output_offset
          = st.hdr.output_offset + ((tok >>> 2) + 1)) := by
  have hL : (tok >>> 2) + 1 ≤ 2 ^ 62 := by
    rw [shiftRight_two]
    omega
  unfold dispatch
  split
  · exact source_read_offset junk _ st hL ho
  · split
    · exact target_read_offset junk _ st hL ho
    · split
      · exact source_copy_offset junk _ st hL ho
      · exact target_copy_offset junk _ st ho

theorem bps_next_offset (junk : Nat → Nat) (st : State) (ho : st.hdr.output_offset < 2 ^ 64) :
    st.hdr.output_offset ≤ (bps_next junk st).2.hdr.output_offset
    ∧ (bps_next junk st).2.hdr.output_offset < 2 ^ 64
    ∧ ((bps_next junk st).1 = HUNK_NEXT →
        ∃ tok, (decode_varint st.bps_file).1 = some tok
          ∧ bps_next junk st
            = dispatch junk tok { st with bps_file := (decode_varint st.bps_file).2 }
          ∧ (bps_next junk st).2.hdr.output_offset
            = st.hdr.output_offset + ((tok >>> 2) + 1)) := by
  rcases bps_next_cases junk st with h | h | ⟨_, h⟩ | ⟨tok, htok, hlt, h⟩
  · rw [h]; exact ⟨Nat.le_refl _, ho, fun hc => by cases hc⟩
  · rw [h]; exact ⟨Nat.le_refl _, ho, fun hc => by cases hc⟩
  · rw [h]; exact ⟨Nat.le_refl _, ho, fun hc => by cases hc⟩
  · obtain ⟨h1, h2, h3⟩ := dispatch_offset junk tok
      { st with bps_file := (decode_varint st.bps_file).2 } hlt ho
    rw [h]
    exact ⟨h1, h2, fun hc => ⟨tok, htok, rfl, h3 hc⟩⟩

theorem bps_run_offset (junk : Nat → Nat) : ∀ (n : Nat) (st : State),
    st.hdr.output_offset < 2 ^ 64 →
    st.hdr.output_offset ≤ (bps_run junk n st).hdr.output_offset
    ∧ (bps_run junk n st).hdr.output_offset < 2 ^ 64 := by
  intro n
  induction n with
  | zero => intro st h; exact ⟨Nat.le_refl _, h⟩
  | succ n ih =>
    intro st h
    obtain ⟨h1, h2⟩ := ih st h
    obtain ⟨h3, h4, _⟩ := bps_next_offset junk (bps_run junk n st) h2
    rw [bps_run_succ]
    exact ⟨by omega, h4⟩

/-! ## End of file inside a copy loop -/

theorem fread1_err (f : FILE) : (fread1 f).2.err = f.err := by
  unfold fread1
  split <;> rfl

theorem source_read_loop_no_error (junk : Nat → Nat) : ∀ (n i : Nat) (st : State),
    st.input_file.err = false → (bps_source_read_loop junk n i st).1 = HUNK_NEXT := by
  intro n
  induction n with
  | zero => intro i st _; rfl
  | succ n ih =>
    intro i st he
    have hcond : ¬ (((fread1 st.input_file).1.isNone && (fread1 st.input_file).2.err) = true) := by
      rw [fread1_err, he]
      simp
    rw [bps_source_read_loop]
    simp only []
    rw [if_neg hcond]
    exact ih _ _ (by simp only []; rw [fread1_err]; exact he)

theorem target_read_loop_no_error (junk : Nat → Nat) : ∀ (n i : Nat) (st : State),
    st.bps_file.err = false → (bps_target_read_loop junk n i st).1 = HUNK_NEXT := by
  intro n
  induction n with
  | zero => intro i st _; rfl
  | succ n ih =>
    intro i st he
    have hcond : ¬ (((fread1 st.bps_file).1.isNone && (fread1 st.bps_file).2.err) = true) := by
      rw [fread1_err, he]
      simp
    rw [bps_target_read_loop]
    simp only []
    rw [if_neg hcond]
    exact ih _ _ (by simp only []; rw [fread1_err]; exact he)

theorem source_copy_loop_no_error (junk : Nat → Nat) : ∀ (n i : Nat) (st : State),
    st.input_file.err = false → (bps_source_copy_loop junk n i st).1 = HUNK_NEXT := by
  intro n
  induction n with
  | zero => intro i st _; rfl
  | succ n ih =>
    intro i st he
    have hcond : ¬ (((fread1 st.input_file).1.isNone && (fread1 st.input_file).2.err) = true) := by
      rw [fread1_err, he]
      simp
    rw [bps_source_copy_loop]
    simp only []
    rw [if_neg hcond]
    exact ih _ _ (by simp only []; rw [fread1_err]; exact he)

/-! ## The declared sizes are not consulted -/

theorem source_read_loop_sizes (junk : Nat → Nat) (a b c : Nat) : ∀ (n i : Nat) (st : State),
    bps_source_read_loop junk n i (with_sizes st a b c)
      = ((bps_source_read_loop junk n i st).1,
          with_sizes (bps_source_read_loop junk n i st).2 a b c) := by
  intro n
  induction n with
  | zero => intro i st; rfl
  | succ n ih =>
    intro i st
    rw [bps_source_read_loop, bps_source_read_loop]
    by_cases hc : ((fread1 st.input_file).1.isNone && (fread1 st.input_file).2.err) = true
    · have hc1 : ((fread1 (with_sizes st a b c).input_file).1.isNone
          && (fread1 (with_sizes st a b c).input_file).2.err) = true := hc
      simp only []
      rw [if_pos hc, if_pos hc1]
      rfl
    · have hc1 : ¬ (((fread1 (with_sizes st a b c).input_file).1.isNone
          && (fread1 (with_sizes st a b c).input_file).2.err) = true) := hc
      simp only []
      rw [if_neg hc, if_neg hc1]
      exact ih (i + 1)
        { st with
          hdr := { st.hdr with output_offset := (st.hdr.output_offset + 1) % 2 ^ 64 }
          input_file := (fread1 st.input_file).2
          output_file := fwrite1 st.output_file ((fread1 st.input_file).1.getD (junk i)) }

theorem target_read_loop_sizes (junk : Nat → Nat) (a b c : Nat) : ∀ (n i : Nat) (st : State),
    bps_target_read_loop junk n i (with_sizes st a b c)
      = ((bps_target_read_loop junk n i st).1,
          with_sizes (bps_target_read_loop junk n i st).2 a b c) := by
  intro n
  induction n with
  | zero => intro i st; rfl
  | succ n ih =>
    intro i st
    rw [bps_target_read_loop, bps_target_read_loop]
    by_cases hc : ((fread1 st.bps_file).1.isNone && (fread1 st.bps_file).2.err) = true
    · have hc1 : ((fread1 (with_sizes st a b c).bps_file).1.isNone
          && (fread1 (with_sizes st a b c).bps_file).2.err) = true := hc
      simp only []
      rw [if_pos hc, if_pos hc1]
      rfl
    · have hc1 : ¬ (((fread1 (with_sizes st a b c).bps_file).1.isNone
          && (fread1 (with_sizes st a b c).bps_file).2.err) = true) := hc
      simp only []
      rw [if_neg hc, if_neg hc1]
      exact ih (i + 1)
        { st with
          hdr := { st.hdr with output_offset := (st.hdr.output_offset + 1) % 2 ^ 64 }
          bps_file := (fread1 st.bps_file).2
          output_file := fwrite1 st.output_file ((fread1 st.bps_file).1.getD (junk i)) }

theorem source_copy_loop_sizes (junk : Nat → Nat) (a b c : Nat) : ∀ (n i : Nat) (st : State),
    bps_source_copy_loop junk n i (with_sizes st a b c)
      = ((bps_source_copy_loop junk n i st).1,
          with_sizes (bps_source_copy_loop junk n i st).2 a b c) := by
  intro n
  induction n with
  | zero => intro i st; rfl
  | succ n ih =>
    intro i st
    rw [bps_source_copy_loop, bps_source_copy_loop]
    by_cases hc : ((fread1 st.input_file).1.isNone && (fread1 st.input_file).2.err) = true
    · have hc1 : ((fread1 (with_sizes st a b c).input_file).1.isNone
          && (fread1 (with_sizes st a b c).input_file).2.err) = true := hc
      simp only []
      rw [if_pos hc, if_pos hc1]
      rfl
    · have hc1 : ¬ (((fread1 (with_sizes st a b c).input_file).1.isNone
          && (fread1 (with_sizes st a b c).input_file).2.err) = true) := hc
      simp only []
      rw [if_neg hc, if_neg hc1]
      exact ih (i + 1)
        { st with
          hdr := { st.hdr with
            output_offset := (st.hdr.output_offset + 1) % 2 ^ 64
            source_relative_offset := relative_offset_incr st.hdr.source_relative_offset }
          input_file := (fread1 st.input_file).2
          output_file := fwrite1 st.output_file ((fread1 st.input_file).1.getD (junk i)) }

theorem target_copy_loop_sizes (junk : Nat → Nat) (a b c : Nat) : ∀ (n i : Nat) (st : State),
    bps_target_copy_loop junk n i (with_sizes st a b c)
      = ((bps_target_copy_loop junk n i st).1,
          with_sizes (bps_target_copy_loop junk n i st).2 a b c) := by
  intro n
  induction n with
  | zero => intro i st; rfl
  | succ n ih =>
    intro i st
    rw [bps_target_copy_loop, bps_target_copy_loop]
    have e1 : (with_sizes st a b c).output_file = st.output_file := rfl
    have e2 : (with_sizes st a b c).hdr.target_relative_offset
        = st.hdr.target_relative_offset := rfl
    have e3 : (with_sizes st a b c).hdr.output_offset = st.hdr.output_offset := rfl
    rw [e1, e2, e3]
    cases h1 : fseek_set st.output_file st.hdr.target_relative_offset with
    | none => rfl
    | some f1 =>
      simp only []
      by_cases hc : ((fread1 f1).1.isNone && (fread1 f1).2.err) = true
      · rw [if_pos hc, if_pos hc]
        rfl
      · rw [if_neg hc, if_neg hc]
        cases h2 : fseek_set (fread1 f1).2 (toS64 st.hdr.output_offset) with
        | none => rfl
        | some f3 =>
          exact ih (i + 1)
            { st with
              hdr := { st.hdr with
                output_offset := (st.hdr.output_offset + 1) % 2 ^ 64
                target_relative_offset := relative_offset_incr st.hdr.target_relative_offset }
              output_file := fwrite1 f3 ((fread1 f1).1.getD (junk i)) }

theorem source_read_sizes (junk : Nat → Nat) (a b c L : Nat) (st : State) :
    bps_source_read junk L (with_sizes st a b c)
      = ((bps_source_read junk L st).1, with_sizes (bps_source_read junk L st).2 a b c) := by
  unfold bps_source_read
  have e1 : (with_sizes st a b c).input_file = st.input_file := rfl
  have e2 : (with_sizes st a b c).output_file = st.output_file := rfl
  have e3 : (with_sizes st a b c).hdr.output_offset = st.hdr.output_offset := rfl
  rw [e1, e2, e3]
  cases h1 : fseek_set st.input_file (toS64 st.hdr.output_offset) with
  | none => rfl
  | some fin =>
    cases h2 : fseek_set st.output_file (toS64 st.hdr.output_offset) with
    | none => rfl
    | some fout =>
      exact source_read_loop_sizes junk a b c L 0
        { st with input_file := fin, output_file := fout }

theorem target_read_sizes (junk : Nat → Nat) (a b c L : Nat) (st : State) :
    bps_target_read junk L (with_sizes st a b c)
      = ((bps_target_read junk L st).1, with_sizes (bps_target_read junk L st).2 a b c) := by
  unfold bps_target_read
  have e2 : (with_sizes st a b c).output_file = st.output_file := rfl
  have e3 : (with_sizes st a b c).hdr.output_offset = st.hdr.output_offset := rfl
  rw [e2, e3]
  cases h1 : fseek_set st.output_file (toS64 st.hdr.output_offset) with
  | none => rfl
  | some fout =>
    exact target_read_loop_sizes junk a b c L 0 { st with output_file := fout }

theorem source_copy_sizes (junk : Nat → Nat) (a b c L : Nat) (st : State) :
    bps_source_copy junk L (with_sizes st a b c)
      = ((bps_source_copy junk L st).1, with_sizes (bps_source_copy junk L st).2 a b c) := by
  unfold bps_source_copy
  have e0 : (with_sizes st a b c).bps_file = st.bps_file := rfl
  have e1 : (with_sizes st a b c).input_file = st.input_file := rfl
  have e2 : (with_sizes st a b c).output_file = st.output_file := rfl
  have e3 : (with_sizes st a b c).hdr.output_offset = st.hdr.output_offset := rfl
  have e4 : (with_sizes st a b c).hdr.source_relative_offset
      = st.hdr.source_relative_offset := rfl
  simp only []
  rw [e0]
  cases hd : (decode_varint st.bps_file).1 with
  | none => rfl
  | some data =>
    simp only [e1, e2, e3, e4]
    cases h1 : fseek_set st.output_file (toS64 st.hdr.output_offset) with
    | none => rfl
    | some fout =>
      simp only []
      cases h2 : fseek_set st.input_file
          (relative_offset_add st.hdr.source_relative_offset data) with
      | none => rfl
      | some fin =>
        exact source_copy_loop_sizes junk a b c L 0
          { hdr := { st.hdr with
              source_relative_offset :=
                relative_offset_add st.hdr.source_relative_offset data }
            input_file := fin
            output_file := fout
            bps_file := (decode_varint st.bps_file).2 }

theorem target_copy_sizes (junk : Nat → Nat) (a b c L : Nat) (st : State) :
    bps_target_copy junk L (with_sizes st a b c)
      = ((bps_target_copy junk L st).1, with_sizes (bps_target_copy junk L st).2 a b c) := by
  unfold bps_target_copy
  have e0 : (with_sizes st a b c).bps_file = st.bps_file := rfl
  simp only []
  rw [e0]
  cases hd : (decode_varint st.bps_file).1 with
  | none => rfl
  | some data =>
    exact target_copy_loop_sizes junk a b c L 0
      { st with
        hdr := { st.hdr with
          target_relative_offset := relative_offset_add st.hdr.target_relative_offset data }
        bps_file := (decode_varint st.bps_file).2 }

theorem dispatch_sizes (junk : Nat → Nat) (a b c tok : Nat) (st : State) :
    dispatch junk tok (with_sizes st a b c)
      = ((dispatch junk tok st).1, with_sizes (dispatch junk tok st).2 a b c) := by
  unfold dispatch
  split
  · exact source_read_sizes junk a b c _ st
  · split
    · exact target_read_sizes junk a b c _ st
    · split
      · exact source_copy_sizes junk a b c _ st
      · exact target_copy_sizes junk a b c _ st

theorem bps_next_unfold (junk : Nat → Nat) (st : State) :
    bps_next junk st =
      if ftell st.bps_file = -1 then ( HUNK_ERR_IO, st)
      else if toU64 (ftell st.bps_file)
          ≥ (toU64 st.hdr.patch_size + (2 ^ 64 - FOOTER_LENGTH)) % 2 ^ 64 then (HUNK_DONE, st)
      else
        match (decode_varint st.bps_file).1 with
        | none => ( HUNK_ERR_IO, { st with bps_file := (decode_varint st.bps_file).2 })
        | some tok => dispatch junk tok { st with bps_file := (decode_varint st.bps_file).2 } := by
  by_cases h1 : ftell st.bps_file = -1
  · rw [if_pos h1]
    unfold bps_next
    simp only [h1]
    rw [if_pos True.intro]
  · rw [if_neg h1]
    by_cases h2 : toU64 (ftell st.bps_file)
        ≥ (toU64 st.hdr.patch_size + (2 ^ 64 - FOOTER_LENGTH)) % 2 ^ 64
    · rw [if_pos h2]
      unfold bps_next
      simp only []
      rw [if_neg h1, if_pos h2]
    · rw [if_neg h2]
      cases hdec : (decode_varint st.bps_file).1 with
      | none =>
        unfold bps_next
        simp only [hdec]
        rw [if_neg h1, if_neg h2]
      | some tok =>
        have hlt : tok < 2 ^ 64 :=
          decode_varint_lt (Prod.ext hdec (rfl : (decode_varint st.bps_file).2 = _))
        have hlen : (tok / 4 + 1) % 2 ^ 64 = tok / 4 + 1 := by omega
        unfold bps_next dispatch
        simp only [hdec, and_three, shiftRight_two, hlen]
        rw [if_neg h1, if_neg h2]
        have h4 : tok % 4 < 4 := Nat.mod_lt _ (by norm_num)
        generalize tok % 4 = c at h4
        match c, h4 with
        | 0, _ => rfl
        | 1, _ => rfl
        | 2, _ => rfl
        | 3, _ => rfl

theorem bps_next_sizes (junk : Nat → Nat) (a b c : Nat) (st : State) :
    bps_next junk (with_sizes st a b c)
      = ((bps_next junk st).1, with_sizes (bps_next junk st).2 a b c) := by
  have e0 : (with_sizes st a b c).bps_file = st.bps_file := rfl
  have e1 : (with_sizes st a b c).hdr.patch_size = st.hdr.patch_size := rfl
  rw [bps_next_unfold junk (with_sizes st a b c), bps_next_unfold junk st, e0, e1]
  by_cases h1 : ftell st.bps_file = -1
  · simp only [if_pos h1]
  · simp only [if_neg h1]
    by_cases h2 : toU64 (ftell st.bps_file)
        ≥ (toU64 st.hdr.patch_size + (2 ^ 64 - FOOTER_LENGTH)) % 2 ^ 64
    · simp only [if_pos h2]
    · simp only [if_neg h2]
      cases hd : (decode_varint st.bps_file).1 with
      | none => rfl
      | some tok =>
        exact dispatch_sizes junk a b c tok { st with bps_file := (decode_varint st.bps_file).2 }

/-! ## Termination of the driver loop -/

theorem bps_run_advances (junk : Nat → Nat) (st : State) : ∀ (k : Nat),
    (∀ j, j < k → (bps_next junk (bps_run junk j st)).1 = HUNK_NEXT) →
    st.bps_file.pos + k ≤ (bps_run junk k st).bps_file.pos
    ∧ (bps_run junk k st).bps_file.bytes = st.bps_file.bytes
    ∧ (1 ≤ k → (bps_run junk k st).bps_file.pos ≤ st.bps_file.bytes.length) := by
  intro k
  induction k with
  | zero =>
    intro _
    exact ⟨Nat.le_refl _, rfl, fun h => absurd h (by omega)⟩
  | succ k ih =>
    intro h
    obtain ⟨h1, h2, _⟩ := ih (fun j hj => h j (by omega))
    obtain ⟨a1, a2, a3⟩ := bps_next_advances junk (bps_run junk k st) (h k (by omega))
    rw [bps_run_succ]
    rw [h2] at a2 a3
    exact ⟨by omega, a3, fun _ => a2⟩

theorem first_stop (junk : Nat → Nat) (st : State) : ∀ (k : Nat),
    (∀ j, j < k → (bps_next junk (bps_run junk j st)).1 = HUNK_NEXT)
    ∨ (∃ j, j < k ∧ (bps_next junk (bps_run junk j st)).1 ≠ HUNK_NEXT
        ∧ ∀ i, i < j → (bps_next junk (bps_run junk i st)).1 = HUNK_NEXT) := by
  intro k
  induction k with
  | zero =>
    left
    intro j hj
    omega
  | succ k ih =>
    rcases ih with h | ⟨j, hj, hne, hall⟩
    · by_cases hk : (bps_next junk (bps_run junk k st)).1 = HUNK_NEXT
      · left
        intro j hj
        by_cases hjk : j = k
        · rw [hjk]; exact hk
        · exact h j (by omega)
      · right
        exact ⟨k, by omega, hk, h⟩
    · right
      exact ⟨j, by omega, hne, hall⟩

theorem next_command_of_token {st : State} {tok : Nat}
    (h : (decode_varint st.bps_file).1 = some tok) : next_command st = some (tok &&& 3) := by
  unfold next_command
  rw [h]
  rfl

/-! ## A negative copy cursor -/

theorem fseek_set_neg (f : FILE) {off : Int} (h : off < 0) : fseek_set f off = none := by
  unfold fseek_set
  rw [if_pos h]

theorem source_copy_negative (junk : Nat → Nat) (L v : Nat) (st : State) (bps2 : FILE)
    (hoff : decode_varint st.bps_file = (some v, bps2))
    (hneg : relative_offset_add st.hdr.source_relative_offset v < 0) :
    (bps_source_copy junk L st).1 = HUNK_ERR_IO
    ∧ (bps_source_copy junk L st).2.output_file.bytes = st.output_file.bytes
    ∧ (bps_source_copy junk L st).2.hdr.output_offset = st.hdr.output_offset
    ∧ (bps_source_copy junk L st).2.hdr.source_relative_offset
        = relative_offset_add st.hdr.source_relative_offset v
    ∧ (bps_source_copy junk L st).2.hdr.target_relative_offset
        = st.hdr.target_relative_offset := by
  unfold bps_source_copy
  simp only [hoff]
  cases h1 : fseek_set st.output_file (toS64 st.hdr.output_offset) with
  | none => exact ⟨rfl, rfl, rfl, rfl, rfl⟩
  | some fout =>
    simp only []
    rw [fseek_set_neg st.input_file hneg]
    exact ⟨rfl, (fseek_set_bytes h1).1, rfl, rfl, rfl⟩

theorem target_copy_negative (junk : Nat → Nat) (n v : Nat) (st : State) (bps2 : FILE)
    (hoff : decode_varint st.bps_file = (some v, bps2))
    (hneg : relative_offset_add st.hdr.target_relative_offset v < 0) :
    (bps_target_copy junk (n + 1) st).1 = HUNK_ERR_IO
    ∧ (bps_target_copy junk (n + 1) st).2.output_file = st.output_file
    ∧ (bps_target_copy junk (n + 1) st).2.hdr.output_offset = st.hdr.output_offset
    ∧ (bps_target_copy junk (n + 1) st).2.hdr.target_relative_offset
        = relative_offset_add st.hdr.target_relative_offset v
    ∧ (bps_target_copy junk (n + 1) st).2.hdr.source_relative_offset
        = st.hdr.source_relative_offset := by
  unfold bps_target_copy
  simp only [hoff]
  rw [bps_target_copy_loop]
  simp only []
  rw [fseek_set_neg st.output_file hneg]
  exact ⟨rfl, rfl, rfl, rfl, rfl⟩

/-! ## The claims -/

/-- C1 (self-overlapping Target-Copy).  A call of `bps_next` made before the
footer boundary whose token has command bits 3 and length `L`, followed by an
offset varint `v` whose signed delta moves `target_relative_offset` to `t` with
`0 ≤ t < o ≤` target length (and `o + L` in the range of a `long`), returns
`HUNK_NEXT`; the target bytes below `o` and from `o + L` on are as before, the
result satisfies `target'[o + i] = target'[t + i]` for every `i < L`, with
`t = o - 1` all `L` written bytes equal the old byte at `o - 1`, and afterwards
`output_offset = o + L` and `target_relative_offset = t + L`. -/
theorem C1_target_copy_self_overlap (junk : Nat → Nat) (st : State) (tok L v t : Nat)
    (bps1 bps2 : FILE)
    (hps : st.hdr.patch_size < 2 ^ 63)
    (hfoot : (st.bps_file.pos : Int) + 12 < st.hdr.patch_size)
    (htok : decode_varint st.bps_file = (some tok, bps1))
    (hcmd : tok &&& 3 = 3) (hlen : (tok >>> 2) + 1 = L)
    (hoff : decode_varint bps1 = (some v, bps2))
    (ht : st.hdr.target_relative_offset + signed_delta v = (t : Int))
    (hto : t < st.hdr.output_offset)
    (hol : st.hdr.output_offset ≤ st.output_file.bytes.length)
    (hr : st.hdr.output_offset + L ≤ 2 ^ 63) :
    (bps_next junk st).1 = HUNK_NEXT
    ∧ (∀ j, j < st.hdr.output_offset ∨ st.hdr.output_offset + L ≤ j →
        (bps_next junk st).2.output_file.bytes[j]? = st.output_file.bytes[j]?)
    ∧ (∀ i, i < L →
        (bps_next junk st).2.output_file.bytes[st.hdr.output_offset + i]?
          = (bps_next junk st).2.output_file.bytes[t + i]?)
    ∧ (t + 1 = st.hdr.output_offset → ∀ i, i < L →
        (bps_next junk st).2.output_file.bytes[st.hdr.output_offset + i]?
          = st.output_file.bytes[t]?)
    ∧ (bps_next junk st).2.output_file.bytes.length
        = max st.output_file.bytes.length (st.hdr.output_offset + L)
    ∧ (bps_next junk st).2.hdr.output_offset = st.hdr.output_offset + L
    ∧ (bps_next junk st).2.hdr.target_relative_offset = (t : Int) + (L : Int) := by
  rw [and_three] at hcmd
  rw [shiftRight_two] at hlen
  have hn0 : ¬ tok % 4 = 0 := by omega
  have hn1 : ¬ tok % 4 = 1 := by omega
  have hn2 : ¬ tok % 4 = 2 := by omega
  rw [bps_next_of_token junk hps hfoot htok, if_neg hn0, if_neg hn1, if_neg hn2, hlen]
  have hadd : relative_offset_add st.hdr.target_relative_offset v = (t : Int) := by
    rw [relative_offset_add_signed _ _ (by omega) (by omega), ht]
  have hcopy : bps_target_copy junk L { st with bps_file := bps1 } =
      bps_target_copy_loop junk L 0
        { st with
          hdr := { st.hdr with target_relative_offset := (t : Int) }
          bps_file := bps2 } := by
    unfold bps_target_copy
    simp only [hoff, hadd]
  rw [hcopy]
  obtain ⟨h1, h2, _, _, h5, h6, h7⟩ := target_copy_loop_ok junk L 0
    { st with
      hdr := { st.hdr with target_relative_offset := (t : Int) }
      bps_file := bps2 }
    t st.hdr.output_offset rfl rfl hto hol hr
  simp only [] at h2 h5 h6 h7
  refine ⟨h1, h6, h7, ?_, h5, ?_, ?_⟩
  · intro hadj i
    induction i with
    | zero =>
      intro hi
      rw [h7 0 hi, Nat.add_zero]
      exact h6 t (Or.inl hto)
    | succ i ih =>
      intro hi
      have e : t + (i + 1) = st.hdr.output_offset + i := by omega
      rw [h7 (i + 1) hi, e]
      exact ih (by omega)
  · rw [h2]
  · rw [h2]
    push_cast
    rfl

/-- C1, witness (spec scenario 6): from the target `5A` the command produces
`5A` at the positions 1 to 5. -/
theorem C1_target_copy_self_overlap_witness :
    (bps_next example_junk target_copy_example).1 = HUNK_NEXT
    ∧ (∀ i, i < 5 →
        (bps_next example_junk target_copy_example).2.output_file.bytes[1 + i]?
          = [0x5A][0]?)
    ∧ (bps_next example_junk target_copy_example).2.output_file.bytes
        = [0x5A, 0x5A, 0x5A, 0x5A, 0x5A, 0x5A]
    ∧ (bps_next example_junk target_copy_example).2.hdr.output_offset = 1 + 5
    ∧ (bps_next example_junk target_copy_example).2.hdr.target_relative_offset = 0 + 5 :=
  have h := C1_target_copy_self_overlap example_junk target_copy_example 19 5 3 0
    { target_copy_example.bps_file with pos := 1 }
    { target_copy_example.bps_file with pos := 2 }
    (by decide) (by decide) (by decide) (by decide) (by decide) (by decide) (by decide)
    (by decide) (by decide) (by decide)
  ⟨h.1, h.2.2.2.1 (by decide), by decide, h.2.2.2.2.2.1, h.2.2.2.2.2.2⟩

/-- C2 (Source-Copy postcondition).  A call of `bps_next` made before the footer
boundary whose token has command bits 2 and length `L`, followed by an offset
varint `v` whose signed delta moves `source_relative_offset` to `c1` with
`0 ≤ c1` and `c1 + L` inside the source (file offsets fit a `long`), returns
`HUNK_NEXT`; afterwards the target holds `source[c1 + i]` at `o + i` for every
`i < L`, every other byte of the target is as before, the source content is
unchanged, `output_offset = o + L` and `source_relative_offset = c1 + L`. -/
theorem C2_source_copy_postcondition (junk : Nat → Nat) (st : State) (tok L v c1 : Nat)
    (bps1 bps2 : FILE)
    (hps : st.hdr.patch_size < 2 ^ 63)
    (hfoot : (st.bps_file.pos : Int) + 12 < st.hdr.patch_size)
    (htok : decode_varint st.bps_file = (some tok, bps1))
    (hcmd : tok &&& 3 = 2) (hlen : (tok >>> 2) + 1 = L)
    (hoff : decode_varint bps1 = (some v, bps2))
    (hc1 : st.hdr.source_relative_offset + signed_delta v = (c1 : Int))
    (hsrc : c1 + L ≤ st.input_file.bytes.length)
    (hsz : st.input_file.bytes.length < 2 ^ 63)
    (ho : st.hdr.output_offset < 2 ^ 63) :
    (bps_next junk st).1 = HUNK_NEXT
    ∧ (∀ i, i < L →
        (bps_next junk st).2.output_file.bytes[st.hdr.output_offset + i]?
          = st.input_file.bytes[c1 + i]?)
    ∧ (∀ j, j < st.hdr.output_offset ∨ st.hdr.output_offset + L ≤ j →
        j < st.output_file.bytes.length ∨ st.hdr.output_offset ≤ st.output_file.bytes.length →
        (bps_next junk st).2.output_file.bytes[j]? = st.output_file.bytes[j]?)
    ∧ (bps_next junk st).2.output_file.bytes.length
        = max st.output_file.bytes.length (st.hdr.output_offset + L)
    ∧ (bps_next junk st).2.input_file.bytes = st.input_file.bytes
    ∧ (bps_next junk st).2.hdr.output_offset = st.hdr.output_offset + L
    ∧ (bps_next junk st).2.hdr.source_relative_offset = (c1 : Int) + (L : Int) := by
  have hlt := decode_varint_lt htok
  rw [and_three] at hcmd
  rw [shiftRight_two] at hlen
  have hL : 0 < L := by omega
  have hL2 : L ≤ 2 ^ 62 := by omega
  have hn0 : ¬ tok % 4 = 0 := by omega
  have hn1 : ¬ tok % 4 = 1 := by omega
  rw [bps_next_of_token junk hps hfoot htok, if_neg hn0, if_neg hn1, if_pos hcmd, hlen]
  rw [source_copy_ok junk L v { st with bps_file := bps1 } bps2 hoff
    (by simp only []; omega) (by simp only []; omega) hsz ho hL2]
  rw [hc1, Int.toNat_ofNat]
  have hslen : (slice st.input_file.bytes c1 L).length = L := length_slice hsrc
  refine ⟨rfl, ?_, ?_, ?_, rfl, rfl, rfl⟩
  · intro i hi
    simp only []
    rw [write_seq_inside (by omega), getElem?_slice hi]
  · intro j hj hj2
    simp only []
    exact write_seq_outside (by rw [hslen]; exact hj) hj2
  · simp only []
    rw [length_write_seq_pos (by omega), hslen]

/-- C2, witness: `source_copy_example` copies the source bytes 5 and 6. -/
theorem C2_source_copy_postcondition_witness :
    (bps_next example_junk source_copy_example).1 = HUNK_NEXT
    ∧ (∀ i, i < 2 →
        (bps_next example_junk source_copy_example).2.output_file.bytes[0 + i]?
          = [10, 11, 12, 13, 14, 15, 16, 17][5 + i]?)
    ∧ (bps_next example_junk source_copy_example).2.output_file.bytes = [15, 16]
    ∧ (bps_next example_junk source_copy_example).2.hdr.output_offset = 0 + 2
    ∧ (bps_next example_junk source_copy_example).2.hdr.source_relative_offset = 5 + 2 :=
  have h := C2_source_copy_postcondition example_junk source_copy_example 6 2 10 5
    { source_copy_example.bps_file with pos := 8 }
    { source_copy_example.bps_file with pos := 9 }
    (by decide) (by decide) (by decide) (by decide) (by decide) (by decide) (by decide)
    (by decide) (by decide) (by decide)
  ⟨h.1, h.2.1, by decide, h.2.2.2.2.2.1, h.2.2.2.2.2.2⟩

/-- C3 (Source-Read postcondition).  A call of `bps_next` made before the footer
boundary whose token has command bits 0 and length `L`, with
`output_offset + L` inside the source (a file whose length fits a `long`),
returns `HUNK_NEXT`; afterwards the target holds the source bytes at the offsets
`o .. o + L - 1`, every other byte of the target is as before, the target has
grown to at most `o + L` bytes, the source content is unchanged and
`output_offset = o + L`. -/
theorem C3_source_read_postcondition (junk : Nat → Nat) (st : State) (tok L : Nat)
    (bps1 : FILE)
    (hps : st.hdr.patch_size < 2 ^ 63)
    (hfoot : (st.bps_file.pos : Int) + 12 < st.hdr.patch_size)
    (htok : decode_varint st.bps_file = (some tok, bps1))
    (hcmd : tok &&& 3 = 0) (hlen : (tok >>> 2) + 1 = L)
    (hsrc : st.hdr.output_offset + L ≤ st.input_file.bytes.length)
    (hsz : st.input_file.bytes.length < 2 ^ 63) :
    (bps_next junk st).1 = HUNK_NEXT
    ∧ (∀ i, i < L →
        (bps_next junk st).2.output_file.bytes[st.hdr.output_offset + i]?
          = st.input_file.bytes[st.hdr.output_offset + i]?)
    ∧ (∀ j, j < st.hdr.output_offset ∨ st.hdr.output_offset + L ≤ j →
        j < st.output_file.bytes.length ∨ st.hdr.output_offset ≤ st.output_file.bytes.length →
        (bps_next junk st).2.output_file.bytes[j]? = st.output_file.bytes[j]?)
    ∧ (bps_next junk st).2.output_file.bytes.length
        = max st.output_file.bytes.length (st.hdr.output_offset + L)
    ∧ (bps_next junk st).2.input_file.bytes = st.input_file.bytes
    ∧ (bps_next junk st).2.hdr.output_offset = st.hdr.output_offset + L := by
  rw [and_three] at hcmd
  rw [shiftRight_two] at hlen
  have hL : 0 < L := by omega
  rw [bps_next_of_token junk hps hfoot htok, if_pos hcmd, hlen]
  rw [source_read_ok junk L { st with bps_file := bps1 } hsrc hsz]
  have hslen : (slice st.input_file.bytes st.hdr.output_offset L).length = L := by
    unfold slice
    simp
    omega
  refine ⟨rfl, ?_, ?_, ?_, rfl, rfl⟩
  · intro i hi
    simp only [getElem?_write_seq, hslen]
    rw [if_pos (by omega)]
    unfold slice
    rw [List.getElem?_take, if_pos (by omega), List.getElem?_drop]
    congr 1
    omega
  · intro j hj hj2
    simp only [getElem?_write_seq, hslen]
    rw [if_neg (by omega)]
    by_cases hl : j < st.output_file.bytes.length
    · rw [if_pos hl]
    · rw [if_neg hl, if_neg (by omega)]
      exact (List.getElem?_eq_none (by omega)).symm
  · simp only [length_write_seq]
    have hne : slice st.input_file.bytes st.hdr.output_offset L ≠ [] := by
      intro h0
      rw [h0] at hslen
      simp at hslen
      omega
    rw [if_neg hne, hslen]

/-- C3, witness (spec scenario 4): the target equals the first 4 source bytes. -/
theorem C3_source_read_postcondition_witness :
    (bps_next example_junk source_read_example).1 = HUNK_NEXT
    ∧ (∀ i, i < 4 →
        (bps_next example_junk source_read_example).2.output_file.bytes[0 + i]?
          = [0xAA, 0xBB, 0xCC, 0xDD][0 + i]?)
    ∧ (bps_next example_junk source_read_example).2.output_file.bytes
        = [0xAA, 0xBB, 0xCC, 0xDD]
    ∧ (bps_next example_junk source_read_example).2.hdr.output_offset = 0 + 4 :=
  have h := C3_source_read_postcondition example_junk source_read_example 12 4
    { source_read_example.bps_file with pos := 8 }
    (by decide) (by decide) (by decide) (by decide) (by decide) (by decide) (by decide)
  ⟨h.1, h.2.1, by decide, h.2.2.2.2.2⟩

/-- C4 (Target-Read postcondition).  A call of `bps_next` made before the footer
boundary whose token has command bits 1 and length `L`, when at least `L` bytes
follow the token in the patch stream and `output_offset = o` fits a `long`,
returns `HUNK_NEXT`; afterwards the target holds at `o + i` the `i`-th byte
after the token for every `i < L`, whatever the source holds, every other byte
of the target is as before, the source stream is untouched,
`output_offset = o + L` and the patch stream is positioned `L` bytes past the
end of the token. -/
theorem C4_target_read_postcondition (junk : Nat → Nat) (st : State) (tok L : Nat)
    (bps1 : FILE)
    (hps : st.hdr.patch_size < 2 ^ 63)
    (hfoot : (st.bps_file.pos : Int) + 12 < st.hdr.patch_size)
    (htok : decode_varint st.bps_file = (some tok, bps1))
    (hcmd : tok &&& 3 = 1) (hlen : (tok >>> 2) + 1 = L)
    (hpay : bps1.pos + L ≤ st.bps_file.bytes.length)
    (ho : st.hdr.output_offset < 2 ^ 63) :
    (bps_next junk st).1 = HUNK_NEXT
    ∧ (∀ i, i < L →
        (bps_next junk st).2.output_file.bytes[st.hdr.output_offset + i]?
          = st.bps_file.bytes[bps1.pos + i]?)
    ∧ (∀ j, j < st.hdr.output_offset ∨ st.hdr.output_offset + L ≤ j →
        j < st.output_file.bytes.length ∨ st.hdr.output_offset ≤ st.output_file.bytes.length →
        (bps_next junk st).2.output_file.bytes[j]? = st.output_file.bytes[j]?)
    ∧ (bps_next junk st).2.output_file.bytes.length
        = max st.output_file.bytes.length (st.hdr.output_offset + L)
    ∧ (bps_next junk st).2.input_file = st.input_file
    ∧ (bps_next junk st).2.hdr.output_offset = st.hdr.output_offset + L
    ∧ (bps_next junk st).2.bps_file.pos = bps1.pos + L
    ∧ (bps_next junk st).2.bps_file.bytes = st.bps_file.bytes := by
  have hlt := decode_varint_lt htok
  have hby := (decode_varint_bytes htok).1
  rw [and_three] at hcmd
  rw [shiftRight_two] at hlen
  have hL : 0 < L := by omega
  have hL2 : L ≤ 2 ^ 62 := by omega
  have hc0 : ¬ tok % 4 = 0 := by omega
  rw [bps_next_of_token junk hps hfoot htok, if_neg hc0, if_pos hcmd, hlen]
  rw [target_read_ok junk L { st with bps_file := bps1 } (by rw [hby]; exact hpay) ho hL2]
  have hslen : (slice bps1.bytes bps1.pos L).length = L :=
    length_slice (by rw [hby]; exact hpay)
  refine ⟨rfl, ?_, ?_, ?_, rfl, rfl, rfl, hby⟩
  · intro i hi
    simp only []
    rw [write_seq_inside (by omega), getElem?_slice hi, hby]
  · intro j hj hj2
    simp only []
    exact write_seq_outside (by rw [hslen]; exact hj) hj2
  · simp only []
    rw [length_write_seq_pos (by omega), hslen]

/-- C4, witness (spec scenario 5): the literal bytes `01 02 03` reach the target
although the source holds `FF FE`. -/
theorem C4_target_read_postcondition_witness :
    (bps_next example_junk target_read_example).1 = HUNK_NEXT
    ∧ (∀ i, i < 3 →
        (bps_next example_junk target_read_example).2.output_file.bytes[0 + i]?
          = target_read_example.bps_file.bytes[8 + i]?)
    ∧ (bps_next example_junk target_read_example).2.output_file.bytes = [0x01, 0x02, 0x03]
    ∧ (bps_next example_junk target_read_example).2.hdr.output_offset = 0 + 3
    ∧ (bps_next example_junk target_read_example).2.bps_file.pos = 8 + 3 :=
  have h := C4_target_read_postcondition example_junk target_read_example 9 3
    { target_read_example.bps_file with pos := 8 }
    (by decide) (by decide) (by decide) (by decide) (by decide) (by decide) (by decide)
  ⟨h.1, h.2.1, by decide, h.2.2.2.2.2.1, h.2.2.2.2.2.2.1⟩

/-- C5 (varint round-trip).  For every `n < 2 ^ 64`, when the bytes at the
stream position are the bijective encoding of `n`, followed by arbitrary bytes,
`decode_varint` succeeds, returns exactly `n` and leaves the stream right after
the encoded bytes. -/
theorem C5_varint_roundtrip (n : Nat) (hn : n < 2 ^ 64) (pre rest : List Nat) (e : Bool) :
    decode_varint ⟨pre ++ (encode_varint n ++ rest), pre.length, e⟩ =
      (some n, ⟨pre ++ (encode_varint n ++ rest), pre.length + (encode_varint n).length, e⟩) := by
  unfold decode_varint
  simp only [drop_append_length]
  unfold encode_varint
  rw [decode_loop_encode rest n n 0 1 0 (Nat.le_refl n)]
  have h1 : (0 + n * 1) % 2 ^ 64 = n := by omega
  rw [h1, Nat.zero_add]

/-- C5, witness: 300 is encoded as `2C 81` and decoded back, here after a
one-byte prefix and before one further byte. -/
theorem C5_varint_roundtrip_witness :
    encode_varint 300 = [0x2C, 0x81]
    ∧ decode_varint ⟨[0x07] ++ (encode_varint 300 ++ [0x55]), [0x07].length, false⟩
      = (some 300,
          ⟨[0x07] ++ (encode_varint 300 ++ [0x55]),
            [0x07].length + (encode_varint 300).length, false⟩) :=
  ⟨by decide, C5_varint_roundtrip 300 (by decide) [0x07] [0x55] false⟩

/-- C6, amended (no redundant encodings below the wrap).  Two distinct terminated
varints whose unbounded values are both below `2 ^ 64`, in particular any two of
at most 9 bytes, are decoded successfully by `decode_varint` to two different
integers, whatever bytes follow them. -/
theorem C6_varint_injective_below_wrap (a b ra rb : List Nat) (ea eb : Bool)
    (ha : is_varint_seq a = true) (hb : is_varint_seq b = true) (hne : a ≠ b)
    (hrange : (varint_exact a < 2 ^ 64 ∧ varint_exact b < 2 ^ 64)
      ∨ (a.length ≤ 9 ∧ b.length ≤ 9)) :
    (decode_varint ⟨a ++ ra, 0, ea⟩).1 = some (varint_exact a)
    ∧ (decode_varint ⟨b ++ rb, 0, eb⟩).1 = some (varint_exact b)
    ∧ (decode_varint ⟨a ++ ra, 0, ea⟩).1 ≠ (decode_varint ⟨b ++ rb, 0, eb⟩).1 := by
  have h9 : varint_count 9 < 2 ^ 64 := by decide
  have hlt : varint_exact a < 2 ^ 64 ∧ varint_exact b < 2 ^ 64 := by
    rcases hrange with h | ⟨h1, h2⟩
    · exact h
    · have ha1 := varint_exact_lt_count a ha
      have hb1 := varint_exact_lt_count b hb
      have ha2 := varint_count_mono _ _ h1
      have hb2 := varint_count_mono _ _ h2
      omega
  have hda : (decode_varint ⟨a ++ ra, 0, ea⟩).1 = some (varint_exact a) := by
    unfold decode_varint
    simp only [List.drop_zero]
    rw [decode_loop_exact ra a 0 1 0 1 0 ha rfl rfl]
    have hlt1 := hlt.1
    unfold varint_exact at hlt1 ⊢
    simp only []
    rw [Nat.mod_eq_of_lt hlt1]
  have hdb : (decode_varint ⟨b ++ rb, 0, eb⟩).1 = some (varint_exact b) := by
    unfold decode_varint
    simp only [List.drop_zero]
    rw [decode_loop_exact rb b 0 1 0 1 0 hb rfl rfl]
    have hlt2 := hlt.2
    unfold varint_exact at hlt2 ⊢
    simp only []
    rw [Nat.mod_eq_of_lt hlt2]
  refine ⟨hda, hdb, ?_⟩
  rw [hda, hdb]
  intro h
  exact hne (varint_exact_injective a b ha hb (Option.some.inj h))

/-- C6, witness: the one-byte varint of 0 and the two-byte varint of 128. -/
theorem C6_varint_injective_below_wrap_witness :
    (decode_varint ⟨[0x80] ++ [], 0, false⟩).1 = some 0
    ∧ (decode_varint ⟨[0x00, 0x80] ++ [], 0, false⟩).1 = some 128
    ∧ (decode_varint ⟨[0x80] ++ [], 0, false⟩).1
        ≠ (decode_varint ⟨[0x00, 0x80] ++ [], 0, false⟩).1 :=
  C6_varint_injective_below_wrap [0x80] [0x00, 0x80] [] [] false false
    (by decide) (by decide) (by decide) (Or.inr ⟨by decide, by decide⟩)

/-- C6, counterexample: the one-byte varint `80` and the ten-byte varint of
`2 ^ 64` are distinct terminated varints, and `decode_varint` returns 0 for
both. -/
theorem C6_counterexample :
    is_varint_seq [0x80] = true
    ∧ is_varint_seq [0, 127, 126, 126, 126, 126, 126, 126, 126, 128] = true
    ∧ [0x80] ≠ [0, 127, 126, 126, 126, 126, 126, 126, 126, 128]
    ∧ (decode_varint ⟨[0x80], 0, false⟩).1 = some 0
    ∧ (decode_varint ⟨[0, 127, 126, 126, 126, 126, 126, 126, 126, 128], 0, false⟩).1
        = some 0 := by
  decide

/-- C7 (signed-delta round-trip).  For every integer `d` with `|d| < 2 ^ 62` and
every cursor value `c` with `c + d` representable in 64 signed bits, the offset
varint `v = 2 * |d| + (1 if d < 0 else 0)` denotes `d`, and the C statement
`cursor += (v & 1 ? -1 : 1) * (v >> 1)` evaluated in unsigned 64-bit arithmetic
yields exactly `c + d`.  A Source-Copy (resp. Target-Copy) of any length whose
offset varint decodes to `v` runs its seeks and its copy loop on a session whose
`source_relative_offset` (resp. `target_relative_offset`) is `c + d`: the source
stream is positioned at `c + d` before the first byte is read.  Seen through
`bps_next`, with the length `(token >> 2) + 1 ≥ 1` of the command: when
`c + d < 0` the call returns ` HUNK_ERR_IO` with the cursor at `c + d` and the
target content unchanged; when `c + d ≥ 0` is in range, the call returns
`HUNK_NEXT`, the first byte written is the byte at index `c + d` (of the source,
resp. of the target), byte `i` comes from index `c + d + i`, and the cursor ends
at `c + d + length`. -/
theorem C7_signed_delta_roundtrip (d c : Int) (v : Nat)
    (_hd : |d| < 2 ^ 62) (h1 : -2 ^ 63 ≤ c + d) (h2 : c + d < 2 ^ 63)
    (hv : (v : Int) = 2 * |d| + (if d < 0 then 1 else 0)) :
    signed_delta v = d
    ∧ relative_offset_add c v = c + d
    ∧ (∀ (junk : Nat → Nat) (st : State) (bps2 : FILE),
        st.hdr.source_relative_offset = c →
        decode_varint st.bps_file = (some v, bps2) →
        (bps_source_copy junk 0 st).2.hdr.source_relative_offset = c + d)
    ∧ (∀ (junk : Nat → Nat) (st : State) (bps2 : FILE),
        st.hdr.target_relative_offset = c →
        decode_varint st.bps_file = (some v, bps2) →
        (bps_target_copy junk 0 st).2.hdr.target_relative_offset = c + d)
    ∧ (∀ (junk : Nat → Nat) (L : Nat) (st : State) (bps2 : FILE),
        st.hdr.source_relative_offset = c →
        decode_varint st.bps_file = (some v, bps2) →
        (fseek_set st.output_file (toS64 st.hdr.output_offset) = none →
          bps_source_copy junk L st =
            ( HUNK_ERR_IO,
              { st with
                hdr := { st.hdr with source_relative_offset := c + d }
                bps_file := bps2 }))
        ∧ (∀ fout : FILE,
          fseek_set st.output_file (toS64 st.hdr.output_offset) = some fout →
          bps_source_copy junk L st =
            if c + d < 0 then
              ( HUNK_ERR_IO,
                { st with
                  hdr := { st.hdr with source_relative_offset := c + d }
                  output_file := fout
                  bps_file := bps2 })
            else
              bps_source_copy_loop junk L 0
                { hdr := { st.hdr with source_relative_offset := c + d }
                  input_file := { st.input_file with pos := (c + d).toNat }
                  output_file := fout
                  bps_file := bps2 }))
    ∧ (∀ (junk : Nat → Nat) (L : Nat) (st : State) (bps2 : FILE),
        st.hdr.target_relative_offset = c →
        decode_varint st.bps_file = (some v, bps2) →
        bps_target_copy junk L st =
          bps_target_copy_loop junk L 0
            { st with
              hdr := { st.hdr with target_relative_offset := c + d }
              bps_file := bps2 })
    ∧ (∀ (junk : Nat → Nat) (st : State) (tok : Nat) (bps1 bps2 : FILE),
        st.hdr.patch_size < 2 ^ 63 →
        (st.bps_file.pos : Int) + 12 < st.hdr.patch_size →
        decode_varint st.bps_file = (some tok, bps1) → tok &&& 3 = 2 →
        decode_varint bps1 = (some v, bps2) →
        st.hdr.source_relative_offset = c →
        (c + d < 0 →
          (bps_next junk st).1 = HUNK_ERR_IO
          ∧ (bps_next junk st).2.hdr.source_relative_offset = c + d
          ∧ (bps_next junk st).2.output_file.bytes = st.output_file.bytes)
        ∧ (0 ≤ c + d →
          c + d + (((tok >>> 2) + 1 : Nat) : Int) ≤ (st.input_file.bytes.length : Int) →
          st.input_file.bytes.length < 2 ^ 63 → st.hdr.output_offset < 2 ^ 63 →
          (bps_next junk st).1 = HUNK_NEXT
          ∧ (∀ i, i < (tok >>> 2) + 1 →
              (bps_next junk st).2.output_file.bytes[st.hdr.output_offset + i]?
                = st.input_file.bytes[(c + d).toNat + i]?)
          ∧ (bps_next junk st).2.hdr.source_relative_offset
              = c + d + (((tok >>> 2) + 1 : Nat) : Int)))
    ∧ (∀ (junk : Nat → Nat) (st : State) (tok : Nat) (bps1 bps2 : FILE),
        st.hdr.patch_size < 2 ^ 63 →
        (st.bps_file.pos : Int) + 12 < st.hdr.patch_size →
        decode_varint st.bps_file = (some tok, bps1) → tok &&& 3 = 3 →
        decode_varint bps1 = (some v, bps2) →
        st.hdr.target_relative_offset = c →
        (c + d < 0 →
          (bps_next junk st).1 = HUNK_ERR_IO
          ∧ (bps_next junk st).2.hdr.target_relative_offset = c + d
          ∧ (bps_next junk st).2.output_file = st.output_file)
        ∧ (0 ≤ c + d → (c + d).toNat < st.hdr.output_offset →
          st.hdr.output_offset ≤ st.output_file.bytes.length →
          st.hdr.output_offset + ((tok >>> 2) + 1) ≤ 2 ^ 63 →
          (bps_next junk st).1 = HUNK_NEXT
          ∧ (bps_next junk st).2.output_file.bytes[st.hdr.output_offset]?
              = st.output_file.bytes[(c + d).toNat]?
          ∧ (∀ i, i < (tok >>> 2) + 1 →
              (bps_next junk st).2.output_file.bytes[st.hdr.output_offset + i]?
                = (bps_next junk st).2.output_file.bytes[(c + d).toNat + i]?)
          ∧ (bps_next junk st).2.hdr.target_relative_offset
              = c + d + (((tok >>> 2) + 1 : Nat) : Int))) := by
  have hs := signed_delta_of_encoding d v hv
  have hadd : relative_offset_add c v = c + d := by
    rw [relative_offset_add_signed c v (by rw [hs]; exact h1) (by rw [hs]; exact h2), hs]
  refine ⟨hs, hadd, ?_, ?_, ?_, ?_, ?_, ?_⟩
  · intro junk st bps2 hc hoff
    rw [source_copy_zero_cursor junk st v bps2 hoff, hc, hadd]
  · intro junk st bps2 hc hoff
    rw [target_copy_zero_cursor junk st v bps2 hoff, hc, hadd]
  · intro junk L st bps2 hc hoff
    constructor
    · intro hout
      unfold bps_source_copy
      simp only [hoff, hc, hadd, hout]
    · intro fout hout
      unfold bps_source_copy
      simp only [hoff, hc, hadd, hout]
      by_cases hneg : c + d < 0
      · rw [if_pos hneg, fseek_set_neg st.input_file hneg]
      · rw [if_neg hneg]
        have hseek : fseek_set st.input_file (c + d)
            = some { st.input_file with pos := (c + d).toNat } := by
          unfold fseek_set
          rw [if_neg hneg]
        rw [hseek]
  · intro junk L st bps2 hc hoff
    unfold bps_target_copy
    simp only [hoff, hc, hadd]
  · intro junk st tok bps1 bps2 hps hfoot htok hcmd hoff hc
    have hlt := decode_varint_lt htok
    have hcmd4 : tok % 4 = 2 := by rw [← and_three]; exact hcmd
    have hnext : bps_next junk st
        = bps_source_copy junk (tok / 4 + 1) { st with bps_file := bps1 } := by
      rw [bps_next_of_token junk hps hfoot htok, if_neg (by omega), if_neg (by omega),
        if_pos hcmd4]
    rw [shiftRight_two]
    constructor
    · intro hneg
      obtain ⟨a1, a2, _, a4, _⟩ := source_copy_negative junk (tok / 4 + 1) v
        { st with bps_file := bps1 } bps2 hoff
        (by simp only []; rw [hc, hadd]; exact hneg)
      rw [hnext]
      refine ⟨a1, ?_, a2⟩
      rw [a4]
      simp only []
      rw [hc, hadd]
    · intro h0 hsrc hsz ho
      have hc1 : st.hdr.source_relative_offset + signed_delta v = (((c + d).toNat : Nat) : Int) := by
        rw [hc, hs, Int.toNat_of_nonneg h0]
      have hsrc1 : (c + d).toNat + (tok / 4 + 1) ≤ st.input_file.bytes.length := by
        omega
      rw [bps_next_source_copy_ok junk st tok (tok / 4 + 1) v (c + d).toNat bps1 bps2 hps hfoot
        htok hcmd (shiftRight_two tok ▸ rfl) hoff hc1 hsrc1 hsz ho]
      have hslen : (slice st.input_file.bytes (c + d).toNat (tok / 4 + 1)).length
          = tok / 4 + 1 := length_slice hsrc1
      refine ⟨rfl, ?_, ?_⟩
      · intro i hi
        simp only []
        rw [write_seq_inside (by omega), getElem?_slice hi]
      · simp only []
        rw [Int.toNat_of_nonneg h0]
  · intro junk st tok bps1 bps2 hps hfoot htok hcmd hoff hc
    have hlt := decode_varint_lt htok
    have hcmd4 : tok % 4 = 3 := by rw [← and_three]; exact hcmd
    have hnext : bps_next junk st
        = bps_target_copy junk (tok / 4 + 1) { st with bps_file := bps1 } := by
      rw [bps_next_of_token junk hps hfoot htok, if_neg (by omega), if_neg (by omega),
        if_neg (by omega)]
    rw [shiftRight_two]
    constructor
    · intro hneg
      obtain ⟨a1, a2, _, a4, _⟩ := target_copy_negative junk (tok / 4) v
        { st with bps_file := bps1 } bps2 hoff
        (by simp only []; rw [hc, hadd]; exact hneg)
      rw [hnext]
      refine ⟨a1, ?_, a2⟩
      rw [a4]
      simp only []
      rw [hc, hadd]
    · intro h0 hto hol hr
      have hcopy : bps_target_copy junk (tok / 4 + 1) { st with bps_file := bps1 } =
          bps_target_copy_loop junk (tok / 4 + 1) 0
            { st with
              hdr := { st.hdr with target_relative_offset := (((c + d).toNat : Nat) : Int) }
              bps_file := bps2 } := by
        unfold bps_target_copy
        simp only [hoff, hc, hadd, Int.toNat_of_nonneg h0]
      rw [hnext, hcopy]
      obtain ⟨g1, g2, _, _, _, g6, g7⟩ := target_copy_loop_ok junk (tok / 4 + 1) 0
        { st with
          hdr := { st.hdr with target_relative_offset := (((c + d).toNat : Nat) : Int) }
          bps_file := bps2 }
        (c + d).toNat st.hdr.output_offset rfl rfl hto hol hr
      simp only [] at g2 g6 g7
      refine ⟨g1, ?_, g7, ?_⟩
      · have e := g7 0 (by omega)
        simp only [Nat.add_zero] at e
        exact e.trans (g6 (c + d).toNat (Or.inl hto))
      · rw [g2]
        simp only []
        push_cast
        rw [Int.toNat_of_nonneg h0]

/-- C7, witness: the delta `-1` (offset varint 3) applied to the cursor 1 in the
Target-Copy of length 5 of `target_copy_example`, whose first written byte is
the target byte at index 0 and whose cursor ends at `0 + 5`; the delta `+5`
(offset varint 10) applied to the cursor 0 in the Source-Copy of length 2 of
`source_copy_example`, which copies the source bytes 5 and 6 and ends at `5 + 2`;
and the delta `-3` (offset varint 7) applied to the cursor 0, which makes both
copy commands fail with the cursor at `-3`. -/
theorem C7_signed_delta_roundtrip_witness :
    signed_delta 3 = -1 ∧ relative_offset_add 1 3 = 1 + -1
    ∧ (bps_target_copy example_junk 0
        { target_copy_example with
          bps_file := { target_copy_example.bps_file with pos := 1 } }).2.hdr.target_relative_offset
        = 1 + -1
    ∧ ((bps_next example_junk target_copy_example).1 = HUNK_NEXT
      ∧ (bps_next example_junk target_copy_example).2.output_file.bytes[1]? = [0x5A][0]?
      ∧ (bps_next example_junk target_copy_example).2.hdr.target_relative_offset
          = 1 + -1 + ((19 >>> 2 + 1 : Nat) : Int))
    ∧ ((bps_next example_junk source_copy_example).1 = HUNK_NEXT
      ∧ (∀ i, i < 6 >>> 2 + 1 →
          (bps_next example_junk source_copy_example).2.output_file.bytes[0 + i]?
            = [10, 11, 12, 13, 14, 15, 16, 17][5 + i]?)
      ∧ (bps_next example_junk source_copy_example).2.hdr.source_relative_offset
          = 0 + 5 + ((6 >>> 2 + 1 : Nat) : Int))
    ∧ ((bps_next example_junk negative_source_copy_example).1 = HUNK_ERR_IO
      ∧ (bps_next example_junk negative_source_copy_example).2.hdr.source_relative_offset
          = 0 + -3)
    ∧ ((bps_next example_junk negative_target_copy_example).1 = HUNK_ERR_IO
      ∧ (bps_next example_junk negative_target_copy_example).2.hdr.target_relative_offset
          = 0 + -3) :=
  have h := C7_signed_delta_roundtrip (-1) 1 3 (by decide) (by decide) (by decide) (by decide)
  have ht := (h.2.2.2.2.2.2.2 example_junk target_copy_example 19
    { target_copy_example.bps_file with pos := 1 }
    { target_copy_example.bps_file with pos := 2 }
    (by decide) (by decide) (by decide) (by decide) (by decide) (by decide)).2
    (by decide) (by decide) (by decide) (by decide)
  have h5 := C7_signed_delta_roundtrip 5 0 10 (by decide) (by decide) (by decide) (by decide)
  have hsrc := (h5.2.2.2.2.2.2.1 example_junk source_copy_example 6
    { source_copy_example.bps_file with pos := 8 }
    { source_copy_example.bps_file with pos := 9 }
    (by decide) (by decide) (by decide) (by decide) (by decide) (by decide)).2
    (by decide) (by decide) (by decide) (by decide)
  have hn := C7_signed_delta_roundtrip (-3) 0 7 (by decide) (by decide) (by decide) (by decide)
  have hns := (hn.2.2.2.2.2.2.1 example_junk negative_source_copy_example 6
    { negative_source_copy_example.bps_file with pos := 8 }
    { negative_source_copy_example.bps_file with pos := 9 }
    (by decide) (by decide) (by decide) (by decide) (by decide) (by decide)).1 (by decide)
  have hnt := (hn.2.2.2.2.2.2.2 example_junk negative_target_copy_example 7
    { negative_target_copy_example.bps_file with pos := 8 }
    { negative_target_copy_example.bps_file with pos := 9 }
    (by decide) (by decide) (by decide) (by decide) (by decide) (by decide)).1 (by decide)
  ⟨h.1, h.2.1,
    h.2.2.2.1 example_junk
      { target_copy_example with
        bps_file := { target_copy_example.bps_file with pos := 1 } }
      { target_copy_example.bps_file with pos := 2 } (by decide) (by decide),
    ⟨ht.1, ht.2.1, ht.2.2.2⟩, hsrc, ⟨hns.1, hns.2.1⟩, ⟨hnt.1, hnt.2.1⟩⟩

/-- C8, amended (footer boundary test).  For every session whose
`patch_size` is at least 12 (and, like the stream position, in the range of a
`long`), `bps_next` returns `HUNK_DONE` if and only if
`pos ≥ patch_size - 12`, and it then leaves the session and the streams
untouched; otherwise it goes on to decode a command token: it returns
` HUNK_ERR_IO` when `decode_varint` fails and the result of the executor
selected by the token otherwise. -/
theorem C8_footer_boundary (junk : Nat → Nat) (st : State)
    (h12 : 12 ≤ st.hdr.patch_size) (hps : st.hdr.patch_size < 2 ^ 63)
    (hpos : st.bps_file.pos < 2 ^ 63) :
    ((bps_next junk st).1 = HUNK_DONE ↔ st.hdr.patch_size - 12 ≤ (st.bps_file.pos : Int))
    ∧ (st.hdr.patch_size - 12 ≤ (st.bps_file.pos : Int) → bps_next junk st = (HUNK_DONE, st))
    ∧ ((st.bps_file.pos : Int) < st.hdr.patch_size - 12 →
        ((decode_varint st.bps_file).1 = none →
          bps_next junk st =
            ( HUNK_ERR_IO, { st with bps_file := (decode_varint st.bps_file).2 }))
        ∧ (∀ tok, (decode_varint st.bps_file).1 = some tok →
          bps_next junk st =
            if tok &&& 3 = 0 then
              bps_source_read junk ((tok >>> 2) + 1)
                { st with bps_file := (decode_varint st.bps_file).2 }
            else if tok &&& 3 = 1 then
              bps_target_read junk ((tok >>> 2) + 1)
                { st with bps_file := (decode_varint st.bps_file).2 }
            else if tok &&& 3 = 2 then
              bps_source_copy junk ((tok >>> 2) + 1)
                { st with bps_file := (decode_varint st.bps_file).2 }
            else
              bps_target_copy junk ((tok >>> 2) + 1)
                { st with bps_file := (decode_varint st.bps_file).2 })) := by
  refine ⟨⟨?_, ?_⟩, ?_, ?_⟩
  · intro hdone
    by_contra hc
    exact bps_next_before_footer_not_done junk st hps (by omega) hdone
  · intro hge
    rw [bps_next_at_footer junk st h12 hps hpos hge]
  · exact bps_next_at_footer junk st h12 hps hpos
  · intro hlt
    refine ⟨bps_next_decode_fail junk st hps (by omega), ?_⟩
    intro tok htok
    rw [bps_next_of_token junk hps (by omega) (Prod.ext htok rfl)]
    simp only [and_three, shiftRight_two]

/-- C8, witness: `source_read_example` before and after its only command. -/
theorem C8_footer_boundary_witness :
    ((bps_next example_junk source_read_example).1 = HUNK_DONE ↔
      source_read_example.hdr.patch_size - 12 ≤ (source_read_example.bps_file.pos : Int))
    ∧ (bps_next example_junk (bps_next example_junk source_read_example).2).1 = HUNK_DONE :=
  ⟨(C8_footer_boundary example_junk source_read_example
      (by decide) (by decide) (by decide)).1,
    by decide⟩

/-- C8, counterexample: for patches shorter than 12 bytes the test is not the
integer comparison.  On the seven-byte patch `7 ≥ 7 - 12`, yet `bps_next`
returns ` HUNK_ERR_IO`; on the ten-byte patch `7 ≥ 10 - 12`, yet `bps_next`
executes the Target-Read and returns `HUNK_NEXT`. -/
theorem C8_counterexample :
    (short_patch_example.hdr.patch_size = 7
      ∧ short_patch_example.bps_file.pos = 7
      ∧ short_patch_example.hdr.patch_size - 12 ≤ (short_patch_example.bps_file.pos : Int)
      ∧ (bps_next example_junk short_patch_example).1 = HUNK_ERR_IO)
    ∧ (short_command_example.hdr.patch_size = 10
      ∧ short_command_example.bps_file.pos = 7
      ∧ short_command_example.hdr.patch_size - 12
          ≤ (short_command_example.bps_file.pos : Int)
      ∧ (bps_next example_junk short_command_example).1 = HUNK_NEXT
      ∧ (bps_next example_junk short_command_example).2.output_file.bytes = [0x41, 0x42]) := by
  decide

/-- C9, amended (the footer is never entered).  For a patch stream of length
`n ≥ 12` recorded in `patch_size`, a call of `bps_next` entered at a stream
position `≥ n - 12` reads no patch byte and leaves the stream where it is; hence
every patch byte a call reads lies at or after the entry position, and that
position, where the command token starts, is `< n - 12`.  (Bytes after the
first token byte are not bounded by the footer.) -/
theorem C9_footer_not_entered (junk : Nat → Nat) (st : State)
    (hn : st.hdr.patch_size = (st.bps_file.bytes.length : Int))
    (h12 : 12 ≤ st.bps_file.bytes.length) (hlen : st.bps_file.bytes.length < 2 ^ 63) :
    (st.bps_file.bytes.length - 12 ≤ st.bps_file.pos →
      patch_reads junk st = [] ∧ (bps_next junk st).2.bps_file = st.bps_file)
    ∧ (∀ i, i ∈ patch_reads junk st →
      st.bps_file.pos < st.bps_file.bytes.length - 12 ∧ st.bps_file.pos ≤ i) := by
  have hkey : st.bps_file.bytes.length - 12 ≤ st.bps_file.pos → (bps_next junk st).2 = st := by
    intro hge
    by_cases hpos : st.bps_file.pos < 2 ^ 63
    · rw [bps_next_at_footer junk st (by omega) (by omega) hpos (by omega)]
    · rw [bps_next_ftell_fail junk st hpos]
  constructor
  · intro hge
    have h := hkey hge
    exact ⟨patch_reads_of_unchanged junk st h, by rw [h]⟩
  · intro i hi
    constructor
    · by_contra hc
      rw [patch_reads_of_unchanged junk st (hkey (by omega))] at hi
      simp at hi
    · unfold patch_reads at hi
      rw [List.mem_filter, List.mem_range'_1] at hi
      exact hi.1.1

/-- C9, witness: the state reached after the only command of
`source_read_example`; the stream stands at the footer boundary. -/
theorem C9_footer_not_entered_witness :
    (bps_next example_junk source_read_example).2.bps_file.pos = 8
    ∧ patch_reads example_junk (bps_next example_junk source_read_example).2 = []
    ∧ (bps_next example_junk (bps_next example_junk source_read_example).2).2.bps_file
        = (bps_next example_junk source_read_example).2.bps_file :=
  have h := (C9_footer_not_entered example_junk
    (bps_next example_junk source_read_example).2 (by decide) (by decide) (by decide)).1
    (by decide)
  ⟨by decide, h.1, h.2⟩

/-- C9, counterexample: in a 20-byte patch (footer at indices 8 to 19) whose
last command is a Target-Read of length 3 starting at index 7, the call of
`bps_next` returns `HUNK_NEXT`, has read the patch bytes 7, 8, 9 and 10, and has
written the footer bytes `C1 C2 C3` to the target as literal payload. -/
theorem C9_counterexample :
    footer_read_example.hdr.patch_size = 20
    ∧ footer_read_example.bps_file.bytes.length = 20
    ∧ footer_read_example.bps_file.pos = 7
    ∧ (bps_next example_junk footer_read_example).1 = HUNK_NEXT
    ∧ patch_reads example_junk footer_read_example = [7, 8, 9, 10]
    ∧ (bps_next example_junk footer_read_example).2.output_file.bytes = [0xC1, 0xC2, 0xC3] := by
  decide

/-- C10 (token split and total dispatch).  For every token `decode_varint`
delivers to `bps_next` (a value below `2 ^ 64`), the length `(token >> 2) + 1`
lies between 1 and `2 ^ 62` and does not wrap, the command `token & 3` is one
of 0, 1, 2, 3, and the call is exactly the call of the matching executor
(0 Source-Read, 1 Target-Read, 2 Source-Copy, 3 Target-Copy) with that length:
the unknown-command branch is never taken. -/
theorem C10_token_split_dispatch (junk : Nat → Nat) (st : State) (tok : Nat) (bps1 : FILE)
    (hps : st.hdr.patch_size < 2 ^ 63)
    (hfoot : (st.bps_file.pos : Int) + 12 < st.hdr.patch_size)
    (htok : decode_varint st.bps_file = (some tok, bps1)) :
    tok < 2 ^ 64
    ∧ 1 ≤ (tok >>> 2) + 1 ∧ (tok >>> 2) + 1 ≤ 2 ^ 62
    ∧ ((tok >>> 2) + 1) % 2 ^ 64 = (tok >>> 2) + 1
    ∧ (tok &&& 3 = 0 ∨ tok &&& 3 = 1 ∨ tok &&& 3 = 2 ∨ tok &&& 3 = 3)
    ∧ (tok &&& 3 = 0 →
        bps_next junk st = bps_source_read junk ((tok >>> 2) + 1) { st with bps_file := bps1 })
    ∧ (tok &&& 3 = 1 →
        bps_next junk st = bps_target_read junk ((tok >>> 2) + 1) { st with bps_file := bps1 })
    ∧ (tok &&& 3 = 2 →
        bps_next junk st = bps_source_copy junk ((tok >>> 2) + 1) { st with bps_file := bps1 })
    ∧ (tok &&& 3 = 3 →
        bps_next junk st = bps_target_copy junk ((tok >>> 2) + 1) { st with bps_file := bps1 }) := by
  have hlt := decode_varint_lt htok
  have hnext := bps_next_of_token junk hps hfoot htok
  simp only [and_three, shiftRight_two]
  refine ⟨hlt, by omega, by omega, by omega, by omega, ?_, ?_, ?_, ?_⟩
  · intro h
    rw [hnext, if_pos h]
  · intro h
    rw [hnext, if_neg (by omega), if_pos h]
  · intro h
    rw [hnext, if_neg (by omega), if_neg (by omega), if_pos h]
  · intro h
    rw [hnext, if_neg (by omega), if_neg (by omega), if_neg (by omega)]

/-- C10, witness: the token `8C` of `source_read_example` is the value 12, that
is command 0 (Source-Read) with length 4. -/
theorem C10_token_split_dispatch_witness :
    decode_varint source_read_example.bps_file
      = (some 12, { source_read_example.bps_file with pos := 8 })
    ∧ (12 >>> 2) + 1 = 4 ∧ 12 &&& 3 = 0
    ∧ bps_next example_junk source_read_example
      = bps_source_read example_junk ((12 >>> 2) + 1)
          { source_read_example with
            bps_file := { source_read_example.bps_file with pos := 8 } } :=
  ⟨by decide, by decide, by decide,
    (C10_token_split_dispatch example_junk source_read_example 12
      { source_read_example.bps_file with pos := 8 }
      (by decide) (by decide) (by decide)).2.2.2.2.2.1 (by decide)⟩

/-- C11 (cumulative source cursor).  From a session with
`source_relative_offset = 0`, let a Source-Copy with delta `d1 = c1` and length
`L1` succeed, let `k` further calls of `bps_next` follow of which none is a
Source-Copy, and let then a Source-Copy with delta `d2` and length `L2` stand in
the patch, with `c2 = d1 + L1 + d2` and `c2 + L2` inside the source.  Then the
cursor still is `d1 + L1` before the second command (it is never reset), the
second command returns `HUNK_NEXT`, copies `source[d1 + L1 + d2 + i]` for every
`i < L2`, and leaves the cursor at `d1 + L1 + d2 + L2`. -/
theorem C11_cumulative_source_cursor (junk : Nat → Nat) (st0 : State) (k : Nat)
    (tok1 L1 v1 c1 tok2 L2 v2 c2 : Nat) (bpsA bpsB bpsC bpsD : FILE)
    (h0 : st0.hdr.source_relative_offset = 0)
    (hps : st0.hdr.patch_size < 2 ^ 63)
    (hfoot1 : (st0.bps_file.pos : Int) + 12 < st0.hdr.patch_size)
    (htok1 : decode_varint st0.bps_file = (some tok1, bpsA))
    (hcmd1 : tok1 &&& 3 = 2) (hlen1 : (tok1 >>> 2) + 1 = L1)
    (hoff1 : decode_varint bpsA = (some v1, bpsB))
    (hd1 : signed_delta v1 = (c1 : Int))
    (hsrc1 : c1 + L1 ≤ st0.input_file.bytes.length)
    (hsz : st0.input_file.bytes.length < 2 ^ 63)
    (ho1 : st0.hdr.output_offset < 2 ^ 63)
    (hmid : ∀ j, j < k → next_command (bps_run junk j (bps_next junk st0).2) ≠ some 2)
    (hfoot2 : ((bps_run junk k (bps_next junk st0).2).bps_file.pos : Int) + 12
      < st0.hdr.patch_size)
    (htok2 : decode_varint (bps_run junk k (bps_next junk st0).2).bps_file = (some tok2, bpsC))
    (hcmd2 : tok2 &&& 3 = 2) (hlen2 : (tok2 >>> 2) + 1 = L2)
    (hoff2 : decode_varint bpsC = (some v2, bpsD))
    (hd2 : (c1 : Int) + (L1 : Int) + signed_delta v2 = (c2 : Int))
    (hsrc2 : c2 + L2 ≤ st0.input_file.bytes.length)
    (ho2 : (bps_run junk k (bps_next junk st0).2).hdr.output_offset < 2 ^ 63) :
    (bps_next junk st0).2.hdr.source_relative_offset = (c1 : Int) + (L1 : Int)
    ∧ (bps_run junk k (bps_next junk st0).2).hdr.source_relative_offset
        = (c1 : Int) + (L1 : Int)
    ∧ (bps_next junk (bps_run junk k (bps_next junk st0).2)).1 = HUNK_NEXT
    ∧ (∀ i, i < L2 →
        (bps_next junk (bps_run junk k (bps_next junk st0).2)).2.output_file.bytes[
            (bps_run junk k (bps_next junk st0).2).hdr.output_offset + i]?
          = st0.input_file.bytes[c2 + i]?)
    ∧ (bps_next junk (bps_run junk k (bps_next junk st0).2)).2.hdr.source_relative_offset
        = (c2 : Int) + (L2 : Int) := by
  have hfirst := bps_next_source_copy_ok junk st0 tok1 L1 v1 c1 bpsA bpsB hps hfoot1 htok1
    hcmd1 hlen1 hoff1 (by rw [h0, hd1]; simp) hsrc1 hsz ho1
  have hc1 : (bps_next junk st0).2.hdr.source_relative_offset = (c1 : Int) + (L1 : Int) := by
    rw [hfirst]
  have hb1 : (bps_next junk st0).2.input_file.bytes = st0.input_file.bytes := by
    rw [hfirst]
  have hp1 : (bps_next junk st0).2.hdr.patch_size = st0.hdr.patch_size := by
    rw [hfirst]
  have hrun := bps_run_source_cursor junk k (bps_next junk st0).2 hmid
  obtain ⟨_, _, _, f4, f5, _, _, _⟩ := bps_run_frame junk k (bps_next junk st0).2
  rw [hc1] at hrun
  rw [hb1] at f5
  rw [hp1] at f4
  have hsecond := bps_next_source_copy_ok junk (bps_run junk k (bps_next junk st0).2)
    tok2 L2 v2 c2 bpsC bpsD (by rw [f4]; exact hps) (by rw [f4]; exact hfoot2) htok2 hcmd2 hlen2
    hoff2 (by rw [hrun]; exact hd2) (by rw [f5]; exact hsrc2) (by rw [f5]; exact hsz) ho2
  refine ⟨hc1, hrun, by rw [hsecond], ?_, by rw [hsecond]⟩
  intro i hi
  rw [hsecond]
  simp only []
  rw [write_seq_inside (by rw [length_slice (by rw [f5]; exact hsrc2)]; exact hi),
    getElem?_slice hi, f5]

/-- C11, witness (spec scenario 8): deltas `+5` and `+0`, lengths 2 and 3, one
Target-Read in between; the second copy reads the source from index `5 + 2`. -/
theorem C11_cumulative_source_cursor_witness :
    (bps_run example_junk 1 (bps_next example_junk cumulative_example).2).hdr.source_relative_offset
        = 5 + 2
    ∧ (∀ i, i < 3 →
        (bps_run example_junk 3 cumulative_example).output_file.bytes[3 + i]?
          = cumulative_example.input_file.bytes[7 + i]?)
    ∧ (bps_run example_junk 3 cumulative_example).output_file.bytes
        = [15, 16, 0x77, 17, 18, 19] :=
  have h := C11_cumulative_source_cursor example_junk cumulative_example 1
    6 2 10 5 10 3 0 7
    { cumulative_example.bps_file with pos := 8 }
    { cumulative_example.bps_file with pos := 9 }
    { cumulative_example.bps_file with pos := 12 }
    { cumulative_example.bps_file with pos := 13 }
    (by decide) (by decide) (by decide) (by decide) (by decide) (by decide) (by decide)
    (by decide) (by decide) (by decide) (by decide) (by decide) (by decide) (by decide)
    (by decide) (by decide) (by decide) (by decide) (by decide) (by decide)
  ⟨h.2.1, h.2.2.2.1, by decide⟩

/-- C12, amended (header read).  For a patch stream, at any initial position,
whose bytes from offset 4 begin with three terminated varints of `k` bytes in
total with the values `s`, `t`, `m` below `2 ^ 64`, where `4 + k + m` does not
exceed the largest file offset `max_offset` that the file system holding the
stream accepts (a value in the range of a `long`, like the stream length),
`bps_start` returns `PATCH_OK` with `patch_size` = the stream length, the three
sizes `s`, `t`, `m`, the three cursors 0, and the stream positioned at
`4 + k + m`; a stream that differs only in the content of the metadata bytes
(and in its initial position and session record) yields the same session and
the same position. -/
theorem C12_header_read (max_offset : Nat) (pre v1 v2 v3 meta rest meta1 : List Nat)
    (p p1 : Nat) (e : Bool) (h h1 : bps_file_header) (s t m : Nat)
    (hpre : pre.length = 4)
    (hv1 : is_varint_seq v1 = true) (hv2 : is_varint_seq v2 = true)
    (hv3 : is_varint_seq v3 = true)
    (hs : varint_exact v1 = s) (ht : varint_exact v2 = t) (hm : varint_exact v3 = m)
    (hs64 : s < 2 ^ 64) (ht64 : t < 2 ^ 64)
    (hpos : 4 + (v1.length + v2.length + v3.length) + m ≤ max_offset)
    (hmax : max_offset < 2 ^ 63)
    (hlen : (pre ++ (v1 ++ (v2 ++ (v3 ++ (meta ++ rest))))).length < 2 ^ 63)
    (hmeta : meta1.length = meta.length) :
    bps_start max_offset ⟨pre ++ (v1 ++ (v2 ++ (v3 ++ (meta ++ rest)))), p, e⟩ h =
      (PATCH_OK,
        ⟨pre ++ (v1 ++ (v2 ++ (v3 ++ (meta ++ rest)))),
          4 + (v1.length + v2.length + v3.length) + m, e⟩,
        ⟨s, t, m, ((pre ++ (v1 ++ (v2 ++ (v3 ++ (meta ++ rest))))).length : Int), 0, 0, 0⟩)
    ∧ (bps_start max_offset
        ⟨pre ++ (v1 ++ (v2 ++ (v3 ++ (meta1 ++ rest)))), p1, e⟩ h1).1 = PATCH_OK
    ∧ (bps_start max_offset ⟨pre ++ (v1 ++ (v2 ++ (v3 ++ (meta1 ++ rest)))), p1, e⟩ h1).2.2
        = (bps_start max_offset ⟨pre ++ (v1 ++ (v2 ++ (v3 ++ (meta ++ rest)))), p, e⟩ h).2.2
    ∧ (bps_start max_offset
        ⟨pre ++ (v1 ++ (v2 ++ (v3 ++ (meta1 ++ rest)))), p1, e⟩ h1).2.1.pos
        = (bps_start max_offset
            ⟨pre ++ (v1 ++ (v2 ++ (v3 ++ (meta ++ rest)))), p, e⟩ h).2.1.pos := by
  have hl : (pre ++ (v1 ++ (v2 ++ (v3 ++ (meta1 ++ rest))))).length
      = (pre ++ (v1 ++ (v2 ++ (v3 ++ (meta ++ rest))))).length := by
    simp only [List.length_append, hmeta]
  have e1 := bps_start_ok max_offset pre v1 v2 v3 (meta ++ rest) p e h s t m hpre hv1 hv2 hv3
    hs ht hm hs64 ht64 hpos hmax hlen
  have e2 := bps_start_ok max_offset pre v1 v2 v3 (meta1 ++ rest) p1 e h1 s t m hpre hv1 hv2
    hv3 hs ht hm hs64 ht64 hpos hmax (by rw [hl]; exact hlen)
  refine ⟨e1, ?_, ?_, ?_⟩
  · rw [e2]
  · rw [e1, e2]
    simp only [hl]
  · rw [e1, e2]

/-- C12, witness: a patch with the sizes 4, 4, 2, read from the initial
position 9, on a file system limited to 16 TiB; its two metadata bytes `6D 64`
may as well be `00 FF`. -/
theorem C12_header_read_witness :
    bps_start small_max_offset metadata_patch ⟨1, 2, 3, 4, 5, 6, 7⟩
      = (PATCH_OK, { metadata_patch with pos := 4 + (1 + 1 + 1) + 2 }, ⟨4, 4, 2, 22, 0, 0, 0⟩)
    ∧ (bps_start small_max_offset
        ⟨[0x42, 0x50, 0x53, 0x31] ++ ([0x84] ++ ([0x84] ++ ([0x82] ++ ([0x00, 0xFF] ++
          [0x8C, 0xC1, 0xC2, 0xC3, 0xC4, 0xC5, 0xC6, 0xC7, 0xC8, 0xC9, 0xCA, 0xCB, 0xCC])))),
          0, false⟩ ⟨0, 0, 0, 0, 0, 0, 0⟩).2.2
      = (bps_start small_max_offset metadata_patch ⟨1, 2, 3, 4, 5, 6, 7⟩).2.2 :=
  have h := C12_header_read small_max_offset [0x42, 0x50, 0x53, 0x31] [0x84] [0x84] [0x82]
    [0x6D, 0x64]
    [0x8C, 0xC1, 0xC2, 0xC3, 0xC4, 0xC5, 0xC6, 0xC7, 0xC8, 0xC9, 0xCA, 0xCB, 0xCC] [0x00, 0xFF]
    9 0 false ⟨1, 2, 3, 4, 5, 6, 7⟩ ⟨0, 0, 0, 0, 0, 0, 0⟩ 4 4 2
    (by decide) (by decide) (by decide) (by decide) (by decide) (by decide) (by decide)
    (by decide) (by decide) (by decide) (by decide) (by decide) (by decide)
  ⟨h.1, h.2.2.1⟩

/-- C12, counterexample: two headers on which the stream does not end at
`4 + k + m` with `PATCH_OK`.  The first declares `m = 2 ^ 64 - 1` in a ten-byte
varint (`k = 12`): the offset handed to `fseek` is the `long` value `-1`, so on
any file system `bps_start` returns `PATCH_OK` and leaves the stream at offset
15, one byte before the end of the header.  The second declares `m = 2 ^ 45` in
a seven-byte varint (`k = 9`) on a file system limited to 16 TiB: the seek to
`4 + k + m` is refused and `bps_start` returns ` PATCH_ERR_IO`. -/
theorem C12_counterexample :
    is_varint_seq [0x7F, 0x7E, 0x7E, 0x7E, 0x7E, 0x7E, 0x7E, 0x7E, 0x7E, 0x80] = true
    ∧ varint_exact [0x7F, 0x7E, 0x7E, 0x7E, 0x7E, 0x7E, 0x7E, 0x7E, 0x7E, 0x80] = 2 ^ 64 - 1
    ∧ (bps_start example_max_offset huge_metadata_patch ⟨0, 0, 0, 0, 0, 0, 0⟩).1 = PATCH_OK
    ∧ (bps_start example_max_offset huge_metadata_patch
        ⟨0, 0, 0, 0, 0, 0, 0⟩).2.2.metadata_size = 2 ^ 64 - 1
    ∧ (bps_start example_max_offset huge_metadata_patch ⟨0, 0, 0, 0, 0, 0, 0⟩).2.1.pos = 15
    ∧ (bps_start small_max_offset huge_metadata_patch ⟨0, 0, 0, 0, 0, 0, 0⟩).1 = PATCH_OK
    ∧ (bps_start small_max_offset huge_metadata_patch ⟨0, 0, 0, 0, 0, 0, 0⟩).2.1.pos = 15
    ∧ 15 ≠ 4 + 12 + (2 ^ 64 - 1)
    ∧ is_varint_seq [0x00, 0x7F, 0x7E, 0x7E, 0x7E, 0x7E, 0x86] = true
    ∧ varint_exact [0x00, 0x7F, 0x7E, 0x7E, 0x7E, 0x7E, 0x86] = 2 ^ 45
    ∧ (bps_start small_max_offset large_metadata_patch
        ⟨0, 0, 0, 0, 0, 0, 0⟩).1 = PATCH_ERR_IO := by
  decide

/-- C13 (varint exhaustion).  `decode_varint` fails if and only if no byte from
the stream position to the end of the stream has the high bit set; when a first
such byte exists, at offset `j` from the position, it succeeds and leaves the
stream right after that byte.  A call of `bps_next` made at a position before
the footer boundary (`pos + 12 < patch_size`, both in the range of a `long`)
returns ` HUNK_ERR_IO` when decoding the command token fails and when decoding
the offset of a Source-Copy or Target-Copy fails.  The same holds for every
call in which `ftell` succeeds and the unsigned footer test of the code is
false, whatever `patch_size` is.  `bps_start` returns ` PATCH_ERR_IO` when
decoding any of the three header sizes fails, on every file system. -/
theorem C13_varint_exhaustion (f : FILE) :
    ((decode_varint f).1 = none ↔ ∀ b, b ∈ f.bytes.drop f.pos → b &&& 0x80 = 0)
    ∧ (∀ j, first_terminal (f.bytes.drop f.pos) = some j →
        (decode_varint f).1 ≠ none ∧ (decode_varint f).2.pos = f.pos + j + 1)
    ∧ (∀ (junk : Nat → Nat) (st : State), st.bps_file = f →
        st.hdr.patch_size < 2 ^ 63 →
        (st.bps_file.pos : Int) + 12 < st.hdr.patch_size →
        (decode_varint f).1 = none →
        (bps_next junk st).1 = HUNK_ERR_IO)
    ∧ (∀ (junk : Nat → Nat) (st : State) (tok : Nat),
        st.hdr.patch_size < 2 ^ 63 →
        (st.bps_file.pos : Int) + 12 < st.hdr.patch_size →
        (decode_varint st.bps_file).1 = some tok → tok &&& 3 = 2 ∨ tok &&& 3 = 3 →
        (decode_varint st.bps_file).2 = f → (decode_varint f).1 = none →
        (bps_next junk st).1 = HUNK_ERR_IO)
    ∧ (∀ (junk : Nat → Nat) (st : State), st.bps_file = f →
        ftell st.bps_file ≠ -1 →
        toU64 (ftell st.bps_file)
          < (toU64 st.hdr.patch_size + (2 ^ 64 - FOOTER_LENGTH)) % 2 ^ 64 →
        (decode_varint f).1 = none →
        (bps_next junk st).1 = HUNK_ERR_IO)
    ∧ (∀ (junk : Nat → Nat) (st : State) (tok : Nat),
        ftell st.bps_file ≠ -1 →
        toU64 (ftell st.bps_file)
          < (toU64 st.hdr.patch_size + (2 ^ 64 - FOOTER_LENGTH)) % 2 ^ 64 →
        (decode_varint st.bps_file).1 = some tok → tok &&& 3 = 2 ∨ tok &&& 3 = 3 →
        (decode_varint st.bps_file).2 = f → (decode_varint f).1 = none →
        (bps_next junk st).1 = HUNK_ERR_IO)
    ∧ (∀ (max_offset : Nat) (bps_file : FILE) (h : bps_file_header),
        f = { bps_file with pos := 4 } →
        (decode_varint f).1 = none
          ∨ (decode_varint (decode_varint f).2).1 = none
          ∨ (decode_varint (decode_varint (decode_varint f).2).2).1 = none →
        (bps_start max_offset bps_file h).1 = PATCH_ERR_IO) := by
  obtain ⟨h1, h2⟩ := decode_varint_loop_terminal (f.bytes.drop f.pos) 0 1 0
  have htoken : ∀ (junk : Nat → Nat) (st : State), st.bps_file = f →
      ftell st.bps_file ≠ -1 →
      toU64 (ftell st.bps_file)
        < (toU64 st.hdr.patch_size + (2 ^ 64 - FOOTER_LENGTH)) % 2 ^ 64 →
      (decode_varint f).1 = none →
      (bps_next junk st).1 = HUNK_ERR_IO := by
    intro junk st hst hft hfoot hnone
    rw [← hst] at hnone
    rw [bps_next_unfold, if_neg hft, if_neg (by omega), hnone]
  have hoffset : ∀ (junk : Nat → Nat) (st : State) (tok : Nat),
      ftell st.bps_file ≠ -1 →
      toU64 (ftell st.bps_file)
        < (toU64 st.hdr.patch_size + (2 ^ 64 - FOOTER_LENGTH)) % 2 ^ 64 →
      (decode_varint st.bps_file).1 = some tok → tok &&& 3 = 2 ∨ tok &&& 3 = 3 →
      (decode_varint st.bps_file).2 = f → (decode_varint f).1 = none →
      (bps_next junk st).1 = HUNK_ERR_IO := by
    intro junk st tok hft hfoot htok hcmd hf hnone
    rw [← hf] at hnone
    rw [bps_next_unfold, if_neg hft, if_neg (by omega), htok]
    exact dispatch_offset_fail junk tok _ hcmd hnone
  have hguard : ∀ (st : State), st.hdr.patch_size < 2 ^ 63 →
      (st.bps_file.pos : Int) + 12 < st.hdr.patch_size →
      ftell st.bps_file ≠ -1
      ∧ toU64 (ftell st.bps_file)
          < (toU64 st.hdr.patch_size + (2 ^ 64 - FOOTER_LENGTH)) % 2 ^ 64 := by
    intro st hps hlt
    have hftell : ftell st.bps_file = (st.bps_file.pos : Int) := by
      unfold ftell
      rw [if_pos (by omega)]
    rw [hftell]
    constructor
    · omega
    · unfold toU64 FOOTER_LENGTH
      omega
  refine ⟨?_, ?_, ?_, ?_, htoken, hoffset, ?_⟩
  · rw [← first_terminal_none]
    exact h1
  · intro j hj
    constructor
    · intro hn
      have := h1.1 hn
      rw [this] at hj
      cases hj
    · unfold decode_varint
      simp only []
      rw [h2 j hj]
      omega
  · intro junk st hst hps hlt hnone
    exact htoken junk st hst (hguard st hps hlt).1 (hguard st hps hlt).2 hnone
  · intro junk st tok hps hlt htok hcmd hf hnone
    exact hoffset junk st tok (hguard st hps hlt).1 (hguard st hps hlt).2 htok hcmd hf hnone
  · intro max_offset bps_file h hf hfail
    rw [hf] at hfail
    exact bps_start_decode_fail max_offset bps_file h hfail

/-- C13, witness: in `00 01 02` no byte ends a varint and decoding fails; in
`00 81 80` decoding from position 0 stops right after the byte at offset 1.  In
a 20-byte patch read at offset 7, `bps_next` returns ` HUNK_ERR_IO` when the
command token never terminates, and when the offset after a Source-Copy or a
Target-Copy token never terminates; at the end of the seven-byte patch, where
the footer test is false, it finds no token and returns ` HUNK_ERR_IO`; and
`bps_start` returns ` PATCH_ERR_IO` on a patch whose header `00 01` has no
terminated varint. -/
theorem C13_varint_exhaustion_witness :
    (decode_varint ⟨[0x00, 0x01, 0x02], 0, false⟩).1 = none
    ∧ (decode_varint ⟨[0x00, 0x81, 0x80], 0, false⟩).1 ≠ none
    ∧ (decode_varint ⟨[0x00, 0x81, 0x80], 0, false⟩).2.pos = 0 + 1 + 1
    ∧ (bps_next example_junk unterminated_token_example).1 = HUNK_ERR_IO
    ∧ (bps_next example_junk unterminated_source_offset_example).1 = HUNK_ERR_IO
    ∧ (bps_next example_junk unterminated_target_offset_example).1 = HUNK_ERR_IO
    ∧ (bps_next example_junk short_patch_example).1 = HUNK_ERR_IO
    ∧ (bps_start example_max_offset ⟨[0x42, 0x50, 0x53, 0x31, 0x00, 0x01], 0, false⟩
        ⟨0, 0, 0, 0, 0, 0, 0⟩).1 = PATCH_ERR_IO :=
  ⟨(C13_varint_exhaustion ⟨[0x00, 0x01, 0x02], 0, false⟩).1.2 (by decide),
    ((C13_varint_exhaustion ⟨[0x00, 0x81, 0x80], 0, false⟩).2.1 1 (by decide)).1,
    ((C13_varint_exhaustion ⟨[0x00, 0x81, 0x80], 0, false⟩).2.1 1 (by decide)).2,
    (C13_varint_exhaustion unterminated_token_example.bps_file).2.2.1 example_junk
      unterminated_token_example rfl (by decide) (by decide) (by decide),
    (C13_varint_exhaustion
      { unterminated_source_offset_example.bps_file with pos := 8 }).2.2.2.1 example_junk
      unterminated_source_offset_example 6 (by decide) (by decide) (by decide)
      (Or.inl (by decide)) (by decide) (by decide),
    (C13_varint_exhaustion
      { unterminated_target_offset_example.bps_file with pos := 8 }).2.2.2.1 example_junk
      unterminated_target_offset_example 7 (by decide) (by decide) (by decide)
      (Or.inr (by decide)) (by decide) (by decide),
    (C13_varint_exhaustion short_patch_example.bps_file).2.2.2.2.1 example_junk
      short_patch_example rfl (by decide) (by decide) (by decide),
    (C13_varint_exhaustion ⟨[0x42, 0x50, 0x53, 0x31, 0x00, 0x01], 4, false⟩).2.2.2.2.2.2
      example_max_offset
      ⟨[0x42, 0x50, 0x53, 0x31, 0x00, 0x01], 0, false⟩ ⟨0, 0, 0, 0, 0, 0, 0⟩ rfl
      (Or.inl (by decide))⟩

/-- C14 (short payload reads), what the code does: the loops test
`nread < 1 && ferror(f)`, which is false at a plain end of file.  So when the
error indicator of the stream that is read is clear (and the seeks succeed), a
Source-Read, a Target-Read and a Source-Copy return `HUNK_NEXT` for every length
and every stream content, however few bytes the stream can supply. -/
theorem C14_short_read_returns_next (junk : Nat → Nat) (st : State) (tok : Nat) (bps1 : FILE)
    (hps : st.hdr.patch_size < 2 ^ 63)
    (hfoot : (st.bps_file.pos : Int) + 12 < st.hdr.patch_size)
    (htok : decode_varint st.bps_file = (some tok, bps1))
    (ho : st.hdr.output_offset < 2 ^ 63) :
    (tok &&& 3 = 0 → st.input_file.err = false → (bps_next junk st).1 = HUNK_NEXT)
    ∧ (tok &&& 3 = 1 → st.bps_file.err = false → (bps_next junk st).1 = HUNK_NEXT)
    ∧ (tok &&& 3 = 2 → st.input_file.err = false →
        ∀ v bps2, decode_varint bps1 = (some v, bps2) →
          0 ≤ relative_offset_add st.hdr.source_relative_offset v →
          (bps_next junk st).1 = HUNK_NEXT) := by
  have hnext := bps_next_of_token junk hps hfoot htok
  simp only [and_three]
  refine ⟨?_, ?_, ?_⟩
  · intro hc he
    rw [hnext, if_pos hc]
    unfold bps_source_read
    rw [toS64_of_lt ho, fseek_set_natCast, fseek_set_natCast]
    exact source_read_loop_no_error junk _ _ _ he
  · intro hc he
    rw [hnext, if_neg (by omega), if_pos hc]
    unfold bps_target_read
    rw [toS64_of_lt ho, fseek_set_natCast]
    exact target_read_loop_no_error junk _ _ _
      (by rw [← he]; exact (decode_varint_bytes htok).2)
  · intro hc he v bps2 hoff hpos
    rw [hnext, if_neg (by omega), if_neg (by omega), if_pos hc]
    unfold bps_source_copy
    simp only [hoff]
    rw [toS64_of_lt ho, fseek_set_natCast]
    have hseek : fseek_set st.input_file (relative_offset_add st.hdr.source_relative_offset v)
        = some { st.input_file with
            pos := (relative_offset_add st.hdr.source_relative_offset v).toNat } := by
      unfold fseek_set
      rw [if_neg (by omega)]
    simp only [hseek]
    exact source_copy_loop_no_error junk _ _ _ he

/-- C14, witness (the failing inputs): a Source-Read of length 4 over a
two-byte source, a Target-Read of length 14 with 12 bytes left in the patch and
a Source-Copy of length 2 with one byte left in the source all return
`HUNK_NEXT`, having written the uninitialised `byte` (here 0) for every missing
one. -/
theorem C14_short_read_returns_next_witness :
    ((bps_next example_junk short_source_example).1 = HUNK_NEXT
      ∧ (bps_next example_junk short_source_example).2.output_file.bytes
          = [0xAA, 0xBB, example_junk 2, example_junk 3]
      ∧ (bps_next example_junk short_source_example).2.hdr.output_offset = 4)
    ∧ ((bps_next example_junk short_payload_example).1 = HUNK_NEXT
      ∧ (bps_next example_junk short_payload_example).2.output_file.bytes
          = [0xC1, 0xC2, 0xC3, 0xC4, 0xC5, 0xC6, 0xC7, 0xC8, 0xC9, 0xCA, 0xCB, 0xCC,
             example_junk 12, example_junk 13])
    ∧ ((bps_next example_junk short_copy_example).1 = HUNK_NEXT
      ∧ (bps_next example_junk short_copy_example).2.output_file.bytes
          = [15, example_junk 1]) :=
  ⟨⟨(C14_short_read_returns_next example_junk short_source_example 12
        { short_source_example.bps_file with pos := 8 }
        (by decide) (by decide) (by decide) (by decide)).1 (by decide) (by decide),
      by decide, by decide⟩,
    ⟨(C14_short_read_returns_next example_junk short_payload_example 53
        { short_payload_example.bps_file with pos := 8 }
        (by decide) (by decide) (by decide) (by decide)).2.1 (by decide) (by decide),
      by decide⟩,
    ⟨(C14_short_read_returns_next example_junk short_copy_example 6
        { short_copy_example.bps_file with pos := 8 }
        (by decide) (by decide) (by decide) (by decide)).2.2 (by decide) (by decide) 10
        { short_copy_example.bps_file with pos := 9 } (by decide) (by decide),
      by decide⟩⟩

/-- C15 (output cursor progress).  With `output_offset` a 64-bit value, a call
of `bps_next` that returns `HUNK_NEXT` has decoded one token, is the call of the
one executor the token selects, and has increased `output_offset` by exactly the
token's length `(token >> 2) + 1`, hence by at least 1, without wrap-around; no
call, whatever it returns, decreases `output_offset`; and over any sequence of
calls `output_offset` is non-decreasing. -/
theorem C15_output_offset_progress (junk : Nat → Nat) (st : State)
    (ho : st.hdr.output_offset < 2 ^ 64) :
    ((bps_next junk st).1 = HUNK_NEXT →
      ∃ tok, (decode_varint st.bps_file).1 = some tok
        ∧ bps_next junk st
          = dispatch junk tok { st with bps_file := (decode_varint st.bps_file).2 }
        ∧ (bps_next junk st).2.hdr.output_offset = st.hdr.output_offset + ((tok >>> 2) + 1)
        ∧ st.hdr.output_offset + 1 ≤ (bps_next junk st).2.hdr.output_offset)
    ∧ st.hdr.output_offset ≤ (bps_next junk st).2.hdr.output_offset
    ∧ (∀ m n, m ≤ n →
        (bps_run junk m st).hdr.output_offset ≤ (bps_run junk n st).hdr.output_offset) := by
  obtain ⟨h1, _, h3⟩ := bps_next_offset junk st ho
  refine ⟨?_, h1, ?_⟩
  · intro hn
    obtain ⟨tok, a1, a2, a3⟩ := h3 hn
    exact ⟨tok, a1, a2, a3, by omega⟩
  · intro m n hmn
    induction n with
    | zero =>
      have : m = 0 := by omega
      rw [this]
    | succ n ih =>
      by_cases hm : m = n + 1
      · rw [hm]
      · have hstep := (bps_next_offset junk (bps_run junk n st)
          (bps_run_offset junk n st ho).2).1
        rw [bps_run_succ]
        exact Nat.le_trans (ih (by omega)) hstep

/-- C15, witness: the Source-Read of length 4 of `source_read_example` moves
`output_offset` from 0 to 4, and the following call (Done) leaves it there. -/
theorem C15_output_offset_progress_witness :
    (bps_next example_junk source_read_example).1 = HUNK_NEXT
    ∧ (bps_next example_junk source_read_example).2.hdr.output_offset = 4
    ∧ source_read_example.hdr.output_offset
        ≤ (bps_next example_junk source_read_example).2.hdr.output_offset
    ∧ (bps_run example_junk 1 source_read_example).hdr.output_offset
        ≤ (bps_run example_junk 2 source_read_example).hdr.output_offset :=
  have h := C15_output_offset_progress example_junk source_read_example (by decide)
  ⟨by decide, by decide, h.2.1, h.2.2 1 2 (by decide)⟩

/-- C16 (marker verification).  On a patch stream that stands at its start,
`bps_verify_marker` succeeds if and only if the first 4 bytes are exactly
`42 50 53 31`; every other outcome is the format error, in particular for a
stream shorter than 4 bytes; and on success the stream is positioned at
offset 4, its content untouched. -/
theorem C16_marker_verification (f : FILE) (hstart : f.pos = 0) :
    ((bps_verify_marker f).1 = PATCH_OK ↔ f.bytes.take 4 = [0x42, 0x50, 0x53, 0x31])
    ∧ ((bps_verify_marker f).1 ≠ PATCH_OK → (bps_verify_marker f).1 = PATCH_ERR_FORMAT)
    ∧ (f.bytes.length < 4 → (bps_verify_marker f).1 = PATCH_ERR_FORMAT)
    ∧ ((bps_verify_marker f).1 = PATCH_OK →
        (bps_verify_marker f).2.pos = 4 ∧ (bps_verify_marker f).2.bytes = f.bytes) := by
  have hsize : BPS_MARKER_SIZE = 4 := rfl
  have hexp : BPS_EXPECTED_MARKER.take 4 = [0x42, 0x50, 0x53, 0x31] := rfl
  have hlen : (f.bytes.take 4).length = min 4 f.bytes.length := List.length_take _ _
  unfold bps_verify_marker patch_verify_marker
  simp only [hstart, List.drop_zero, hsize, hexp, Nat.zero_add]
  by_cases hshort : (f.bytes.take 4).length < 4
  · rw [if_pos hshort]
    refine ⟨⟨fun h => (by cases h), ?_⟩, fun _ => rfl, fun _ => rfl, fun h => (by cases h)⟩
    intro h
    rw [h] at hshort
    simp at hshort
  · rw [if_neg hshort]
    by_cases heq : f.bytes.take 4 = [0x42, 0x50, 0x53, 0x31]
    · rw [if_pos heq]
      refine ⟨⟨fun _ => heq, fun _ => rfl⟩, fun h => absurd rfl h, ?_, ?_⟩
      · intro h
        omega
      · intro _
        simp only []
        exact ⟨by omega, trivial⟩
    · rw [if_neg heq]
      refine ⟨⟨fun h => (by cases h), fun h => absurd h heq⟩, fun _ => rfl, fun _ => rfl,
        fun h => (by cases h)⟩

/-- C16, witness: a stream that starts with `BPS1` is accepted and left at
offset 4; `BPS2` and the three-byte stream `BPS` are rejected. -/
theorem C16_marker_verification_witness :
    (bps_verify_marker ⟨[0x42, 0x50, 0x53, 0x31, 0x80], 0, false⟩).1 = PATCH_OK
    ∧ (bps_verify_marker ⟨[0x42, 0x50, 0x53, 0x31, 0x80], 0, false⟩).2.pos = 4
    ∧ (bps_verify_marker ⟨[0x42, 0x50, 0x53, 0x32, 0x80], 0, false⟩).1 = PATCH_ERR_FORMAT
    ∧ (bps_verify_marker ⟨[0x42, 0x50, 0x53], 0, false⟩).1 = PATCH_ERR_FORMAT :=
  ⟨(C16_marker_verification ⟨[0x42, 0x50, 0x53, 0x31, 0x80], 0, false⟩ rfl).1.2 (by decide),
    ((C16_marker_verification ⟨[0x42, 0x50, 0x53, 0x31, 0x80], 0, false⟩ rfl).2.2.2
      (by decide)).1,
    (C16_marker_verification ⟨[0x42, 0x50, 0x53, 0x32, 0x80], 0, false⟩ rfl).2.1 (by decide),
    (C16_marker_verification ⟨[0x42, 0x50, 0x53], 0, false⟩ rfl).2.2.1 (by decide)⟩

/-- C17 (declared sizes are never enforced).  Two sessions that differ only in
`source_size`, `target_size` and `metadata_size` get from `bps_next` the same
status and the same resulting streams and cursors, the result differing again
only in the three sizes; and there is a patch with a valid marker and header
(declared target size 9) on which `bps_verify_marker` and `bps_start` succeed
and `bps_next` returns `HUNK_NEXT` and then `HUNK_DONE`, no call reporting an
error, while `output_offset` is 4. -/
theorem C17_sizes_not_enforced (junk : Nat → Nat) (st : State) (a b c : Nat) :
    (bps_next junk (with_sizes st a b c)).1 = (bps_next junk st).1
    ∧ (bps_next junk (with_sizes st a b c)).2 = with_sizes (bps_next junk st).2 a b c
    ∧ (bps_next junk (with_sizes st a b c)).2.output_file = (bps_next junk st).2.output_file
    ∧ (bps_next junk (with_sizes st a b c)).2.hdr.output_offset
        = (bps_next junk st).2.hdr.output_offset
    ∧ (bps_next junk (with_sizes st a b c)).2.hdr.source_relative_offset
        = (bps_next junk st).2.hdr.source_relative_offset
    ∧ (bps_next junk (with_sizes st a b c)).2.hdr.target_relative_offset
        = (bps_next junk st).2.hdr.target_relative_offset
    ∧ ((bps_verify_marker size_mismatch_patch).1 = PATCH_OK
      ∧ (bps_start example_max_offset (bps_verify_marker size_mismatch_patch).2
          ⟨0, 0, 0, 0, 0, 0, 0⟩).1 = PATCH_OK
      ∧ size_mismatch_example.hdr.target_size = 9
      ∧ (bps_next example_junk size_mismatch_example).1 = HUNK_NEXT
      ∧ (bps_next example_junk (bps_next example_junk size_mismatch_example).2).1 = HUNK_DONE
      ∧ (bps_next example_junk
          (bps_next example_junk size_mismatch_example).2).2.hdr.output_offset = 4
      ∧ (bps_next example_junk
          (bps_next example_junk size_mismatch_example).2).2.hdr.output_offset
        ≠ (bps_next example_junk
          (bps_next example_junk size_mismatch_example).2).2.hdr.target_size) := by
  have h := bps_next_sizes junk a b c st
  refine ⟨by rw [h], by rw [h], by rw [h]; rfl, by rw [h]; rfl, by rw [h]; rfl, by rw [h]; rfl,
    ?_⟩
  decide

/-- C18 (the driver loop terminates).  A call of `bps_next` that returns
`HUNK_NEXT` leaves the patch stream position strictly greater than before and
not beyond the end of the stream; so `k` successive calls that all return
`HUNK_NEXT` advance the position by at least `k`, there are at most `n` of them
for a patch of `n` bytes, and the first call that returns Done or an error comes
after at most `n` calls that return `HUNK_NEXT`. -/
theorem C18_driver_terminates (junk : Nat → Nat) (st : State) :
    ((bps_next junk st).1 = HUNK_NEXT →
      st.bps_file.pos < (bps_next junk st).2.bps_file.pos
      ∧ (bps_next junk st).2.bps_file.pos ≤ st.bps_file.bytes.length)
    ∧ (∀ k, (∀ j, j < k → (bps_next junk (bps_run junk j st)).1 = HUNK_NEXT) →
        st.bps_file.pos + k ≤ (bps_run junk k st).bps_file.pos
        ∧ k ≤ st.bps_file.bytes.length)
    ∧ (∃ j, j ≤ st.bps_file.bytes.length
        ∧ (bps_next junk (bps_run junk j st)).1 ≠ HUNK_NEXT
        ∧ ∀ i, i < j → (bps_next junk (bps_run junk i st)).1 = HUNK_NEXT) := by
  have hbound : ∀ k, (∀ j, j < k → (bps_next junk (bps_run junk j st)).1 = HUNK_NEXT) →
      st.bps_file.pos + k ≤ (bps_run junk k st).bps_file.pos
      ∧ k ≤ st.bps_file.bytes.length := by
    intro k hk
    obtain ⟨h1, _, h3⟩ := bps_run_advances junk st k hk
    refine ⟨h1, ?_⟩
    by_cases hk0 : k = 0
    · omega
    · have := h3 (by omega)
      omega
  refine ⟨fun h => ⟨(bps_next_advances junk st h).1, (bps_next_advances junk st h).2.1⟩,
    hbound, ?_⟩
  rcases first_stop junk st (st.bps_file.bytes.length + 1) with h | ⟨j, hj, hne, hall⟩
  · have := (hbound _ h).2
    omega
  · exact ⟨j, by omega, hne, hall⟩

/-- C18, witness: on the 25-byte patch of `cumulative_example` three calls
return `HUNK_NEXT`, moving the patch stream from 7 to 9, 11 and 13, and the
fourth returns `HUNK_DONE`. -/
theorem C18_driver_terminates_witness :
    cumulative_example.bps_file.pos < (bps_next example_junk cumulative_example).2.bps_file.pos
    ∧ cumulative_example.bps_file.pos + 3
        ≤ (bps_run example_junk 3 cumulative_example).bps_file.pos
    ∧ 3 ≤ cumulative_example.bps_file.bytes.length
    ∧ (bps_run example_junk 3 cumulative_example).bps_file.pos = 13
    ∧ (bps_next example_junk (bps_run example_junk 3 cumulative_example)).1 = HUNK_DONE :=
  have h := C18_driver_terminates example_junk cumulative_example
  ⟨(h.1 (by decide)).1, (h.2.1 3 (by decide)).1, (h.2.1 3 (by decide)).2, by decide, by decide⟩

/-- C19 (cursor frame).  A call of `bps_next` never changes `patch_size`,
`source_size`, `target_size` or `metadata_size` and never changes the content of
the source stream; when the token at the stream position is a Source-Read or a
Target-Read the call leaves both copy cursors unchanged, when it is a
Source-Copy it leaves `target_relative_offset` unchanged, when it is a
Target-Copy it leaves `source_relative_offset` unchanged; and a call that
returns `HUNK_DONE` returns the state it was given: no session field, no stream
position and no byte has changed. -/
theorem C19_cursor_frame (junk : Nat → Nat) (st : State) :
    (bps_next junk st).2.hdr.patch_size = st.hdr.patch_size
    ∧ (bps_next junk st).2.hdr.source_size = st.hdr.source_size
    ∧ (bps_next junk st).2.hdr.target_size = st.hdr.target_size
    ∧ (bps_next junk st).2.hdr.metadata_size = st.hdr.metadata_size
    ∧ (bps_next junk st).2.input_file.bytes = st.input_file.bytes
    ∧ (∀ tok, (decode_varint st.bps_file).1 = some tok → tok &&& 3 = 0 ∨ tok &&& 3 = 1 →
        (bps_next junk st).2.hdr.source_relative_offset = st.hdr.source_relative_offset
        ∧ (bps_next junk st).2.hdr.target_relative_offset = st.hdr.target_relative_offset)
    ∧ (∀ tok, (decode_varint st.bps_file).1 = some tok → tok &&& 3 = 2 →
        (bps_next junk st).2.hdr.target_relative_offset = st.hdr.target_relative_offset)
    ∧ (∀ tok, (decode_varint st.bps_file).1 = some tok → tok &&& 3 = 3 →
        (bps_next junk st).2.hdr.source_relative_offset = st.hdr.source_relative_offset)
    ∧ ((bps_next junk st).1 = HUNK_DONE → bps_next junk st = (HUNK_DONE, st)) := by
  obtain ⟨f1, f2, f3, f4, f5, _, _, _⟩ := bps_next_frame junk st
  refine ⟨f4, f1, f2, f3, f5, ?_, ?_, ?_, bps_next_done junk st⟩
  · intro tok htok hcmd
    have hc := next_command_of_token htok
    constructor
    · apply bps_next_source_cursor
      rw [hc]
      intro h
      have := Option.some.inj h
      omega
    · apply bps_next_target_cursor
      rw [hc]
      intro h
      have := Option.some.inj h
      omega
  · intro tok htok hcmd
    apply bps_next_target_cursor
    rw [next_command_of_token htok]
    intro h
    have := Option.some.inj h
    omega
  · intro tok htok hcmd
    apply bps_next_source_cursor
    rw [next_command_of_token htok]
    intro h
    have := Option.some.inj h
    omega

/-- C19, witness: the Source-Copy of `source_copy_example` leaves
`target_relative_offset` at 0, and the call after it, which returns
`HUNK_DONE`, returns its state unchanged. -/
theorem C19_cursor_frame_witness :
    (bps_next example_junk source_copy_example).2.hdr.target_relative_offset
        = source_copy_example.hdr.target_relative_offset
    ∧ (bps_next example_junk source_copy_example).2.hdr.source_relative_offset = 7
    ∧ bps_next example_junk (bps_next example_junk source_copy_example).2
        = (HUNK_DONE, (bps_next example_junk source_copy_example).2) :=
  ⟨(C19_cursor_frame example_junk source_copy_example).2.2.2.2.2.2.1 6 (by decide) (by decide),
    by decide,
    (C19_cursor_frame example_junk
      (bps_next example_junk source_copy_example).2).2.2.2.2.2.2.2.2 (by decide)⟩

/-- C20 (a negative copy cursor is rejected without writing).  When the offset
varint of a Source-Copy (resp. Target-Copy) command makes
`source_relative_offset` (resp. `target_relative_offset`) negative, the seek to
that cursor fails, `bps_next` returns ` HUNK_ERR_IO`, the content of the target
and `output_offset` are unchanged, and the cursor keeps its updated, negative
value. -/
theorem C20_negative_copy_cursor (junk : Nat → Nat) (st : State) (tok v : Nat)
    (bps1 bps2 : FILE)
    (hps : st.hdr.patch_size < 2 ^ 63)
    (hfoot : (st.bps_file.pos : Int) + 12 < st.hdr.patch_size)
    (htok : decode_varint st.bps_file = (some tok, bps1))
    (hoff : decode_varint bps1 = (some v, bps2)) :
    (tok &&& 3 = 2 → relative_offset_add st.hdr.source_relative_offset v < 0 →
      fseek_set st.input_file (relative_offset_add st.hdr.source_relative_offset v) = none
      ∧ (bps_next junk st).1 = HUNK_ERR_IO
      ∧ (bps_next junk st).2.output_file.bytes = st.output_file.bytes
      ∧ (bps_next junk st).2.hdr.output_offset = st.hdr.output_offset
      ∧ (bps_next junk st).2.hdr.source_relative_offset
          = relative_offset_add st.hdr.source_relative_offset v)
    ∧ (tok &&& 3 = 3 → relative_offset_add st.hdr.target_relative_offset v < 0 →
      fseek_set st.output_file (relative_offset_add st.hdr.target_relative_offset v) = none
      ∧ (bps_next junk st).1 = HUNK_ERR_IO
      ∧ (bps_next junk st).2.output_file.bytes = st.output_file.bytes
      ∧ (bps_next junk st).2.hdr.output_offset = st.hdr.output_offset
      ∧ (bps_next junk st).2.hdr.target_relative_offset
          = relative_offset_add st.hdr.target_relative_offset v) := by
  have hnext := bps_next_of_token junk hps hfoot htok
  simp only [and_three]
  constructor
  · intro hc hneg
    rw [hnext, if_neg (by omega), if_neg (by omega), if_pos hc]
    obtain ⟨a1, a2, a3, a4, _⟩ := source_copy_negative junk (tok / 4 + 1) v
      { st with bps_file := bps1 } bps2 hoff hneg
    exact ⟨fseek_set_neg _ hneg, a1, a2, a3, a4⟩
  · intro hc hneg
    rw [hnext, if_neg (by omega), if_neg (by omega), if_neg (by omega)]
    obtain ⟨a1, a2, a3, a4, _⟩ := target_copy_negative junk (tok / 4) v
      { st with bps_file := bps1 } bps2 hoff hneg
    exact ⟨fseek_set_neg _ hneg, a1, by rw [a2], a3, a4⟩

/-- C20, witness: on a fresh session a Source-Copy, and likewise a Target-Copy,
with delta `-3` returns ` HUNK_ERR_IO`, leaves the target `5A` and
`output_offset = 0` as they are, and leaves the cursor at `-3`. -/
theorem C20_negative_copy_cursor_witness :
    ((bps_next example_junk negative_source_copy_example).1 = HUNK_ERR_IO
      ∧ (bps_next example_junk negative_source_copy_example).2.output_file.bytes = [0x5A]
      ∧ (bps_next example_junk negative_source_copy_example).2.hdr.output_offset = 0
      ∧ (bps_next example_junk negative_source_copy_example).2.hdr.source_relative_offset
          = -3)
    ∧ ((bps_next example_junk negative_target_copy_example).1 = HUNK_ERR_IO
      ∧ (bps_next example_junk negative_target_copy_example).2.output_file.bytes = [0x5A]
      ∧ (bps_next example_junk negative_target_copy_example).2.hdr.output_offset = 0
      ∧ (bps_next example_junk negative_target_copy_example).2.hdr.target_relative_offset
          = -3) :=
  have h1 := (C20_negative_copy_cursor example_junk negative_source_copy_example 6 7
    { negative_source_copy_example.bps_file with pos := 8 }
    { negative_source_copy_example.bps_file with pos := 9 }
    (by decide) (by decide) (by decide) (by decide)).1 (by decide) (by decide)
  have h2 := (C20_negative_copy_cursor example_junk negative_target_copy_example 7 7
    { negative_target_copy_example.bps_file with pos := 8 }
    { negative_target_copy_example.bps_file with pos := 9 }
    (by decide) (by decide) (by decide) (by decide)).2 (by decide) (by decide)
  ⟨⟨h1.2.1, h1.2.2.1, h1.2.2.2.1, h1.2.2.2.2⟩, ⟨h2.2.1, h2.2.2.1, h2.2.2.2.1, h2.2.2.2.2⟩⟩

end Rombp
